import Mathlib

/-! KubeOperator, `pkg/model/cluster.go`

A shallow embedding of the `Cluster` model of KubeOperator and of the five
operations defined on it in `pkg/model/cluster.go`:

* `Cluster.ParseInventory`  (inventory derivation),
* `Cluster.GetKobeVars`     (projection of the specification to variables),
* `Cluster.PrepareTools`    (the fixed tool catalogue),
* `Cluster.BeforeCreate`    (transactional creation of the aggregate),
* `Cluster.BeforeDelete`    (deletion of the aggregate).

Go strings are `String`, Go slices are `List` (a nil slice and an empty slice
are both the list of length zero), Go maps are association lists without
duplicate keys.  Constants of packages `constant` and `facts`, whose values
are declared outside `cluster.go`, are parameters of the development.
-/

set_option autoImplicit false

/-! ## Constants declared outside `cluster.go` -/

namespace constant

/-- Values of the constants of package `constant` that `cluster.go` refers to.
They are declared in another file, so they are kept as parameters. -/
structure Values where
  NodeRoleNameMaster : String
  NodeRoleNameWorker : String
  ClusterRunning : String
  ClusterWaiting : String
  deriving DecidableEq, Repr

end constant

namespace facts

/-- Values of the fact-name constants of package `facts` that `cluster.go`
refers to.  They are declared in another file, so they are kept as
parameters. -/
structure Names where
  NetworkPluginFactName : String
  ContainerRuntimeFactName : String
  DockerStorageDirFactName : String
  ContainerdStorageDirFactName : String
  LbKubeApiserverPortFactName : String
  KubePodSubnetFactName : String
  KubeServiceSubnetFactName : String
  deriving DecidableEq, Repr

end facts

/-! ## Go maps with string keys -/

/-- A Go `map[string]string`: an association list holding each key once. -/
abbrev GoMap := List (String × String)

namespace GoMap

/-- The assignment `m[k] = v`: any earlier entry for `k` is replaced. -/
def set (m : GoMap) (k v : String) : GoMap :=
  m.filter (fun p => p.1 ≠ k) ++ [(k, v)]

/-- The lookup `m[k]` with its presence flag. -/
def get? (m : GoMap) (k : String) : Option String :=
  (m.find? (fun p => p.1 = k)).map Prod.snd

/-- The keys of the map. -/
def keys (m : GoMap) : List String := m.map Prod.fst

end GoMap

/-! ## Package `api` of kobe: the inventory handed to the provisioning engine -/

namespace api

/-- The type `api.Group`. -/
structure Group where
  Name : String
  Hosts : List String := []
  Children : List String := []
  Vars : GoMap := []
  deriving DecidableEq, Repr

/-- The type `api.Inventory`; `H` is the type of host descriptors (`api.Host`),
which `cluster.go` only passes through. -/
structure Inventory (H : Type) where
  Hosts : List H := []
  Groups : List Group := []

end api

/-! ## Package `model` -/

namespace model

/-- Modelled from the spec: the type `Host` is declared outside `cluster.go`;
it has an identity, an owning-cluster field and further attributes. -/
structure Host where
  ID : String := ""
  Name : String := ""
  Ip : String := ""
  Port : Nat := 0
  CredentialID : String := ""
  ClusterID : String := ""
  Status : String := ""
  deriving DecidableEq, Repr

/-- Modelled from the spec: the type `ClusterNode` is declared outside
`cluster.go`; the fields are those that `cluster.go` reads or writes. -/
structure ClusterNode where
  ID : String := ""
  Name : String := ""
  HostID : String := ""
  Host : Host := {}
  ClusterID : String := ""
  Role : String := ""
  Status : String := ""
  deriving DecidableEq, Repr

/-- Modelled from the spec: the type `ClusterSpec` is declared outside
`cluster.go`; the fields are its identity and the seven fields read by
`GetKobeVars`. -/
structure ClusterSpec where
  ID : String := ""
  NetworkType : String := ""
  RuntimeType : String := ""
  DockerStorageDir : String := ""
  ContainerdStorageDir : String := ""
  LbKubeApiserverIp : String := ""
  KubePodSubnet : String := ""
  KubeServiceSubnet : String := ""
  deriving DecidableEq, Repr

/-- Modelled from the spec: the type `ClusterStatus` is declared outside
`cluster.go`. -/
structure ClusterStatus where
  ID : String := ""
  Phase : String := ""
  Message : String := ""
  deriving DecidableEq, Repr

/-- Modelled from the spec: the type `ClusterSecret` is declared outside
`cluster.go`. -/
structure ClusterSecret where
  ID : String := ""
  Material : String := ""
  deriving DecidableEq, Repr

/-- Modelled from the spec: the type `ClusterTool` is declared outside
`cluster.go`; the fields are those set by `PrepareTools` and `BeforeCreate`. -/
structure ClusterTool where
  ID : String := ""
  Name : String := ""
  ClusterID : String := ""
  Version : String := ""
  Describe : String := ""
  Status : String := ""
  Logo : String := ""
  deriving DecidableEq, Repr

/-- The type `Cluster` (the `Plan` association is not used by `cluster.go`
beyond its declaration, so only `PlanID` is kept). -/
structure Cluster where
  ID : String := ""
  Name : String := ""
  Source : String := ""
  SpecID : String := ""
  SecretID : String := ""
  StatusID : String := ""
  PlanID : String := ""
  Spec : ClusterSpec := {}
  Secret : ClusterSecret := {}
  Status : ClusterStatus := {}
  Nodes : List ClusterNode := []
  deriving DecidableEq, Repr

/-! ### `ParseInventory` -/

/-- The local variables `masters`, `workers` and `hosts` of `ParseInventory`. -/
structure ParseVars (H : Type) where
  masters : List String := []
  workers : List String := []
  hosts : List H := []

/-- The test `node.Status == "" || node.Status == constant.ClusterRunning`. -/
def statusCounts (K : constant.Values) (node : ClusterNode) : Bool :=
  node.Status == "" || node.Status == K.ClusterRunning

/-- One iteration of the loop `for _, node := range c.Nodes` of
`ParseInventory`: the host descriptor is appended, then the `switch` on the
role appends the name to `masters` or to `workers`. -/
def parseNode {H : Type} (K : constant.Values) (ToKobeHost : ClusterNode → H)
    (v : ParseVars H) (node : ClusterNode) : ParseVars H :=
  let v := { v with hosts := v.hosts ++ [ToKobeHost node] }
  if node.Role = K.NodeRoleNameMaster then
    if statusCounts K node then { v with masters := v.masters ++ [node.Name] } else v
  else if node.Role = K.NodeRoleNameWorker then
    if statusCounts K node then { v with workers := v.workers ++ [node.Name] } else v
  else v

/-- The state of the local variables after the loop of `ParseInventory`. -/
def parseNodes {H : Type} (K : constant.Values) (ToKobeHost : ClusterNode → H)
    (c : Cluster) : ParseVars H :=
  c.Nodes.foldl (parseNode K ToKobeHost) {}

/-- The local variable `chrony` of `ParseInventory`:
`if len(masters) > 0 { chrony = append(chrony, masters[0]) }`. -/
def chronyOf (masters : List String) : List String :=
  match masters with
  | [] => []
  | m :: _ => [] ++ [m]

/-- The method `Cluster.ParseInventory`.  `ToKobeHost` is the method
`ClusterNode.ToKobeHost`, defined outside `cluster.go`. -/
def Cluster.ParseInventory {H : Type} (K : constant.Values)
    (ToKobeHost : ClusterNode → H) (c : Cluster) : api.Inventory H :=
  let v := parseNodes K ToKobeHost c
  let masters := v.masters
  let workers := v.workers
  let chrony := chronyOf masters
  { Hosts := v.hosts,
    Groups := [
      { Name := "kube-master", Hosts := masters, Children := [], Vars := [] },
      { Name := "kube-worker", Hosts := workers, Children := ["kube-master"], Vars := [] },
      { Name := "new-worker", Hosts := [], Vars := [] },
      { Name := "lb", Hosts := [], Children := [], Vars := [] },
      { Name := "etcd", Hosts := masters, Children := ["kube-master"], Vars := [] },
      { Name := "chrony", Hosts := chrony, Children := [], Vars := [] },
      { Name := "del-worker", Hosts := [], Children := [], Vars := [] } ] }

/-! ### `PrepareTools` -/

/-- The method `Cluster.PrepareTools`. -/
def Cluster.PrepareTools (K : constant.Values) (_c : Cluster) : List ClusterTool :=
  [ { Name := "prometheus", Version := "v1.0.0", Describe := "",
      Status := K.ClusterWaiting, Logo := "prometheus.png" },
    { Name := "dashboard", Version := "v1.0.0", Describe := "",
      Status := K.ClusterWaiting, Logo := "kubernetes.png" },
    { Name := "chartmuseum", Version := "v1.0.0", Describe := "",
      Status := K.ClusterWaiting, Logo := "chartmuseum.png" },
    { Name := "registry", Version := "v1.0.0", Describe := "",
      Status := K.ClusterWaiting, Logo := "registry.png" } ]

/-! ### `GetKobeVars` -/

/-- The statement `if field != "" { result[key] = field }`. -/
def setIfPresent (result : GoMap) (key field : String) : GoMap :=
  if field ≠ "" then result.set key field else result

/-- The method `Cluster.GetKobeVars`. -/
def Cluster.GetKobeVars (F : facts.Names) (c : Cluster) : GoMap :=
  let result : GoMap := []
  let result := setIfPresent result F.NetworkPluginFactName c.Spec.NetworkType
  let result := setIfPresent result F.ContainerRuntimeFactName c.Spec.RuntimeType
  let result := setIfPresent result F.DockerStorageDirFactName c.Spec.DockerStorageDir
  let result := setIfPresent result F.ContainerdStorageDirFactName c.Spec.ContainerdStorageDir
  let result := setIfPresent result F.LbKubeApiserverPortFactName c.Spec.LbKubeApiserverIp
  let result := setIfPresent result F.KubePodSubnetFactName c.Spec.KubePodSubnet
  let result := setIfPresent result F.KubeServiceSubnetFactName c.Spec.KubeServiceSubnet
  result

end model

namespace api

/-- The group of an inventory with the given name (the first one, if several). -/
def Inventory.group? {H : Type} (inv : Inventory H) (name : String) : Option Group :=
  inv.Groups.find? (fun g => g.Name = name)

/-- The host list of the named group of an inventory. -/
def Inventory.hostsOf {H : Type} (inv : Inventory H) (name : String) : Option (List String) :=
  (inv.group? name).map Group.Hosts

/-- The dependency edges of the named group of an inventory. -/
def Inventory.childrenOf {H : Type} (inv : Inventory H) (name : String) :
    Option (List String) :=
  (inv.group? name).map Group.Children

end api

/-! ## The transactional store (`db.DB`)

`BeforeCreate` and `BeforeDelete` talk to the store through the global handle
`db.DB` and a transaction handle obtained from `db.DB.Begin()`.  The store is an external collaborator; it is modelled by its
committed rows, the state of the transaction handle, and the trace of the
requests that were issued on it.  Whether a request fails, and which identity
a created row receives, is decided by the environment `Env`, so that a
statement quantified over `Env` covers every behaviour of the store. -/

namespace db

open model

/-- An error value returned by the store. -/
abbrev Err := String

/-- A row of one of the tables of the store. -/
inductive Row where
  | spec (r : ClusterSpec)
  | status (r : ClusterStatus)
  | secret (r : ClusterSecret)
  | node (r : ClusterNode)
  | host (r : Host)
  | tool (r : ClusterTool)
  deriving DecidableEq, Repr

/-- The table a row belongs to. -/
inductive Table where
  | spec | status | secret | node | host | tool
  deriving DecidableEq, Repr

/-- The table of a row. -/
def Row.table : Row → Table
  | .spec _ => .spec
  | .status _ => .status
  | .secret _ => .secret
  | .node _ => .node
  | .host _ => .host
  | .tool _ => .tool

/-- The primary key of a row. -/
def Row.ID : Row → String
  | .spec r => r.ID
  | .status r => r.ID
  | .secret r => r.ID
  | .node r => r.ID
  | .host r => r.ID
  | .tool r => r.ID

/-- The row with its primary key replaced. -/
def Row.withID (id : String) : Row → Row
  | .spec r => .spec { r with ID := id }
  | .status r => .status { r with ID := id }
  | .secret r => .secret { r with ID := id }
  | .node r => .node { r with ID := id }
  | .host r => .host { r with ID := id }
  | .tool r => .tool { r with ID := id }

/-- The committed content of the store: the rows of all tables. -/
abbrev Tables := List Row

/-- The row as a node row, if it is one. -/
def Row.node? : Row → Option ClusterNode
  | .node n => some n
  | _ => none

/-- The row as a tool row, if it is one. -/
def Row.tool? : Row → Option ClusterTool
  | .tool n => some n
  | _ => none

/-- The row as a host row, if it is one. -/
def Row.host? : Row → Option Host
  | .host n => some n
  | _ => none

/-- The node rows of the store. -/
def nodesOf (t : Tables) : List ClusterNode := t.filterMap Row.node?

/-- The tool rows of the store. -/
def toolsOf (t : Tables) : List ClusterTool := t.filterMap Row.tool?

/-- The host rows of the store. -/
def hostsOf (t : Tables) : List Host := t.filterMap Row.host?

/-- A change of the store content requested by `Create`, `Save` or `Delete`;
a delete names the table and the primary key given in the value or filter
struct of the request (`ClusterSpec{ID: id}`, `Where(ClusterNode{ID: id})`). -/
inductive Write where
  | create (r : Row)
  | save (r : Row)
  | delete (tbl : Table) (id : String)
  deriving DecidableEq, Repr

/-- Two rows are the same record: same table, same primary key. -/
def Row.sameRecord (a b : Row) : Bool :=
  a.table = b.table && a.ID = b.ID

/-- The record is selected by a delete on table `tbl` whose struct carries the
primary key `id`.  A zero-valued field of the struct is no condition, so a
blank key selects every record of the table. -/
def Row.selected (tbl : Table) (id : String) (x : Row) : Bool :=
  x.table = tbl && (id = "" || x.ID = id)

/-- The effect of a successful write on the rows.  `Create` inserts the row;
`Save` updates every column of the record with the same primary key and
inserts the row when there is no such record; `Delete` removes the records of
the table that the request selects. -/
def Tables.apply (t : Tables) : Write → Tables
  | .create r => t ++ [r]
  | .save r =>
    if r.ID ≠ "" ∧ t.any (fun x => r.sameRecord x) then
      t.map (fun x => if r.sameRecord x then r else x)
    else t ++ [r]
  | .delete tbl id => t.filter (fun x => !(x.selected tbl id))

/-- The row a write inserts when it is a `Create`. -/
def Write.created? : Write → Option Row
  | .create r => some r
  | .save _ => none
  | .delete _ _ => none

/-- The write is a `Create`, or a `Save` of a host row. -/
def Write.savesHostsOnly : Write → Bool
  | .create _ => true
  | .save (.host _) => true
  | .save _ => false
  | .delete _ _ => false

/-- The effect of a list of writes, in order. -/
def Tables.applyAll (t : Tables) (ws : List Write) : Tables :=
  ws.foldl Tables.apply t

/-- The handle a request is issued on: the global `db.DB` or the transaction
`tx` returned by `db.DB.Begin()`. -/
inductive Handle where
  | db | tx
  deriving DecidableEq, Repr

/-- A request to the store; `first` is the load `First(&cluster)` of the
cluster with the given primary key. -/
inductive Op where
  | begin
  | write (h : Handle) (w : Write)
  | commit
  | rollback
  | first (id : String)
  deriving DecidableEq, Repr

/-- The row a request asks to insert when it is a `Create`. -/
def Op.created? : Op → Option Row
  | .write _ w => w.created?
  | _ => none

/-- A request together with the outcome the store reported for it. -/
structure Event where
  op : Op
  err : Option Err
  deriving DecidableEq, Repr

/-- The event is a persistence step (a `Create` or `Save` request) that the
store answered with an error. -/
def Event.failedStep (ev : Event) : Bool :=
  match ev.op, ev.err with
  | .write _ _, some _ => true
  | _, _ => false

/-- The state of the transaction handle `tx`. -/
inductive TxState where
  /-- no transaction has been begun -/
  | idle
  /-- begun and neither committed nor rolled back; the writes accepted so far -/
  | active (log : List Write)
  /-- failed `Begin`: the handle carries the error -/
  | failed (e : Err)
  /-- committed or rolled back -/
  | closed
  deriving DecidableEq, Repr

/-- The store as seen during one call. -/
structure Store where
  committed : Tables
  tx : TxState := .idle
  trace : List Event := []
  deriving DecidableEq, Repr

/-- What the code does not control. -/
structure Env where
  /-- the value of `uuid.NewV4().String()` -/
  uuid : String
  /-- the outcome of the request with the given position in the trace -/
  outcome : Nat → Option Err
  /-- the primary key a row has after the `Create` issued at the given
  position (set by the `BeforeCreate` hook of the row type) -/
  assign : Nat → String → String
  /-- the cluster record, with its Status, Spec and Nodes attached, that the
  store returns when the load of the given primary key succeeds -/
  find : String → Cluster := fun _ => {}

/-- The error of a request on a handle that is not an open transaction. -/
def ErrTxDone : Err := "sql: transaction has already been committed or rolled back"

/-- The request `db.DB.Begin()`. -/
def Store.begin (env : Env) (s : Store) : Store :=
  let out := env.outcome s.trace.length
  { s with
    tx := (match out with | none => .active [] | some e => .failed e),
    trace := s.trace ++ [⟨.begin, out⟩] }

/-- A write request on a handle.  On `db.DB` a successful write is committed
at once.  On `tx` a successful write joins the log of the open transaction; a
handle whose `Begin` failed answers every request with that error. -/
def Store.write (env : Env) (s : Store) (h : Handle) (issued stored : Write) :
    Option Err × Store :=
  let out := env.outcome s.trace.length
  match h with
  | .db =>
    match out with
    | none => (none, { s with committed := s.committed.apply stored,
                              trace := s.trace ++ [⟨.write .db issued, none⟩] })
    | some e => (some e, { s with trace := s.trace ++ [⟨.write .db issued, some e⟩] })
  | .tx =>
    match s.tx with
    | .active log =>
      match out with
      | none => (none, { s with tx := .active (log ++ [stored]),
                                trace := s.trace ++ [⟨.write .tx issued, none⟩] })
      | some e => (some e, { s with trace := s.trace ++ [⟨.write .tx issued, some e⟩] })
    | .failed e => (some e, { s with trace := s.trace ++ [⟨.write .tx issued, some e⟩] })
    | _ => (some ErrTxDone, { s with trace := s.trace ++ [⟨.write .tx issued, some ErrTxDone⟩] })

/-- The request `h.Create(&row)`: returns the error and the primary key the
row has afterwards. -/
def Store.create (env : Env) (s : Store) (h : Handle) (r : Row) :
    Option Err × String × Store :=
  let id := env.assign s.trace.length r.ID
  match s.write env h (.create r) (.create (r.withID id)) with
  | (none, s) => (none, id, s)
  | (some e, s) => (some e, r.ID, s)

/-- The request `h.Save(&row)`. -/
def Store.save (env : Env) (s : Store) (h : Handle) (r : Row) : Option Err × Store :=
  s.write env h (.save r) (.save r)

/-- The request `h.Delete(...)` on a table, with the primary key carried by the
value or filter struct. -/
def Store.delete (env : Env) (s : Store) (h : Handle) (tbl : Table) (id : String) :
    Option Err × Store :=
  s.write env h (.delete tbl id) (.delete tbl id)

/-- The request `db.DB.Preload("Status").Preload("Spec").Preload("Nodes").
First(&cluster)`: returns the error, or the record the store holds for the
primary key of `cluster`. -/
def Store.first (env : Env) (s : Store) (cluster : Cluster) : Option Err × Cluster × Store :=
  match env.outcome s.trace.length with
  | none => (none, env.find cluster.ID, { s with trace := s.trace ++ [⟨.first cluster.ID, none⟩] })
  | some e => (some e, cluster, { s with trace := s.trace ++ [⟨.first cluster.ID, some e⟩] })

/-- The request `tx.Commit()`: the writes of the open transaction become
committed when the store accepts the commit; the handle is closed. -/
def Store.commit (env : Env) (s : Store) : Option Err × Store :=
  let out := env.outcome s.trace.length
  match s.tx with
  | .active log =>
    match out with
    | none => (none, { committed := s.committed.applyAll log, tx := .closed,
                       trace := s.trace ++ [⟨.commit, none⟩] })
    | some e => (some e, { s with tx := .closed, trace := s.trace ++ [⟨.commit, some e⟩] })
  | .failed e => (some e, { s with trace := s.trace ++ [⟨.commit, some e⟩] })
  | _ => (some ErrTxDone, { s with trace := s.trace ++ [⟨.commit, some ErrTxDone⟩] })

/-- The request `tx.Rollback()`: the writes of the open transaction are
dropped; the handle is closed. -/
def Store.rollback (env : Env) (s : Store) : Option Err × Store :=
  let out := env.outcome s.trace.length
  match s.tx with
  | .active _ => (out, { s with tx := .closed, trace := s.trace ++ [⟨.rollback, out⟩] })
  | .failed e => (some e, { s with trace := s.trace ++ [⟨.rollback, some e⟩] })
  | _ => (some ErrTxDone, { s with trace := s.trace ++ [⟨.rollback, some ErrTxDone⟩] })

end db

/-! ## `BeforeCreate` -/

namespace model

open db

/-- What a call of `BeforeCreate` leaves behind: the returned error (`none`
for `nil`), the receiver `*c` as mutated by the call, and the store. -/
structure Outcome where
  err : Option Err
  c : Cluster
  store : Store
  deriving DecidableEq, Repr

/-- The loop `for i, _ := range c.Nodes` of `BeforeCreate`, on the nodes not
yet visited.  Returns the error, if an iteration returned one (after its
`tx.Rollback()`), the nodes as mutated, and the store. -/
def createNodes (env : Env) (cid : String) :
    List ClusterNode → Store → Option Err × List ClusterNode × Store
  | [], s => (none, [], s)
  | node :: rest, s =>
    let node := { node with ClusterID := cid }
    match s.create env .tx (.node node) with
    | (some err, _, s) =>
      let (_, s) := s.rollback env
      (some err, node :: rest, s)
    | (none, id, s) =>
      let node := { node with ID := id }
      let node := { node with Host := { node.Host with ClusterID := cid } }
      match s.save env .tx (.host { ID := node.HostID, ClusterID := cid }) with
      | (some err, s) =>
        let (_, s) := s.rollback env
        (some err, node :: rest, s)
      | (none, s) =>
        let (err, rest, s) := createNodes env cid rest s
        (err, node :: rest, s)

/-- The loop `for _, tool := range c.PrepareTools()` of `BeforeCreate`, on the
tools not yet visited. -/
def createTools (env : Env) (cid : String) :
    List ClusterTool → Store → Option Err × Store
  | [], s => (none, s)
  | tool :: rest, s =>
    let tool := { tool with ClusterID := cid }
    match s.create env .tx (.tool tool) with
    | (some err, _, s) =>
      let (_, s) := s.rollback env
      (some err, s)
    | (none, _, s) => createTools env cid rest s

/-- The method `Cluster.BeforeCreate`, called on the receiver `c` with the
store holding the committed rows `t`. -/
def Cluster.BeforeCreate (env : Env) (K : constant.Values) (c : Cluster) (t : Tables) :
    Outcome :=
  let c := { c with ID := env.uuid }
  let s : Store := { committed := t }
  let s := s.begin env
  match s.create env .tx (.spec c.Spec) with
  | (some err, _, s) =>
    let (_, s) := s.rollback env
    ⟨some err, c, s⟩
  | (none, id, s) =>
  let c := { c with Spec := { c.Spec with ID := id } }
  match s.create env .tx (.status c.Status) with
  | (some err, _, s) =>
    let (_, s) := s.rollback env
    ⟨some err, c, s⟩
  | (none, id, s) =>
  let c := { c with Status := { c.Status with ID := id } }
  match s.create env .tx (.secret c.Secret) with
  | (some err, _, s) =>
    let (_, s) := s.rollback env
    ⟨some err, c, s⟩
  | (none, id, s) =>
  let c := { c with Secret := { c.Secret with ID := id } }
  let c := { c with SpecID := c.Spec.ID }
  let c := { c with StatusID := c.Status.ID }
  let c := { c with SecretID := c.Secret.ID }
  match createNodes env c.ID c.Nodes s with
  | (some err, nodes, s) => ⟨some err, { c with Nodes := nodes }, s⟩
  | (none, nodes, s) =>
  let c := { c with Nodes := nodes }
  match createTools env c.ID (c.PrepareTools K) s with
  | (some err, s) => ⟨some err, c, s⟩
  | (none, s) =>
  let (_, s) := s.commit env
  ⟨none, c, s⟩

/-! ### `BeforeDelete` -/

/-- The loop `for _, node := range cluster.Nodes` of `BeforeDelete`, on the
nodes not yet visited: `tx.Where(ClusterNode{ID: node.ID}).Delete(ClusterNode{})`.
The loop has no guard on `node.ID`: for a node whose `ID` is blank the filter
struct is all zero and the request selects every node record. -/
def deleteNodes (env : Env) : List ClusterNode → Store → Option Err × Store
  | [], s => (none, s)
  | node :: rest, s =>
    match s.delete env .tx .node node.ID with
    | (some err, s) =>
      let (_, s) := s.rollback env
      (some err, s)
    | (none, s) => deleteNodes env rest s

/-- The method `Cluster.BeforeDelete`, called on the receiver `c` (passed by
value) with the store holding the committed rows `t`. -/
def Cluster.BeforeDelete (env : Env) (c : Cluster) (t : Tables) : Outcome :=
  let cluster : Cluster := { ID := c.ID }
  let s : Store := { committed := t }
  match s.first env cluster with
  | (some err, _, s) => ⟨some err, c, s⟩
  | (none, cluster, s) =>
  let s := s.begin env
  match (if cluster.SpecID ≠ "" then s.delete env .db .spec cluster.SpecID else (none, s)) with
  | (some err, s) =>
    let (_, s) := s.rollback env
    ⟨some err, c, s⟩
  | (none, s) =>
  match (if cluster.StatusID ≠ "" then s.delete env .tx .status cluster.StatusID
         else (none, s)) with
  | (some err, s) =>
    let (_, s) := s.rollback env
    ⟨some err, c, s⟩
  | (none, s) =>
  match (if cluster.SecretID ≠ "" then s.delete env .db .secret cluster.SecretID
         else (none, s)) with
  | (some err, s) =>
    let (_, s) := s.rollback env
    ⟨some err, c, s⟩
  | (none, s) =>
  match deleteNodes env cluster.Nodes s with
  | (some err, s) => ⟨some err, c, s⟩
  | (none, s) =>
  let (_, s) := s.commit env
  ⟨none, c, s⟩

end model

/-! ## Definitions used to state the properties -/

namespace model

open db

/-- A node counts toward its role group: its status is empty or running. -/
def ClusterNode.counts (K : constant.Values) (n : ClusterNode) : Prop :=
  n.Status = "" ∨ n.Status = K.ClusterRunning

instance (K : constant.Values) (n : ClusterNode) : Decidable (n.counts K) := by
  unfold ClusterNode.counts; infer_instance

/-- The nodes with the given role that count toward their role group, in the
order of `c.Nodes`. -/
def Cluster.nodesCounted (K : constant.Values) (role : String) (c : Cluster) :
    List ClusterNode :=
  c.Nodes.filter (fun n => decide (n.Role = role ∧ n.counts K))

/-- The constants as they are used in the examples. -/
def exampleValues : constant.Values :=
  { NodeRoleNameMaster := "master", NodeRoleNameWorker := "worker",
    ClusterRunning := "Running", ClusterWaiting := "Waiting" }

/-- The cluster with nodes m1 (master, running), m2 (master, waiting) and
w1 (worker, running). -/
def exampleCluster : Cluster :=
  { Name := "demo",
    Nodes := [ { Name := "m1", Role := "master", Status := "Running" },
               { Name := "m2", Role := "master", Status := "Waiting" },
               { Name := "w1", Role := "worker", Status := "Running" } ] }

/-- The value a field contributes: nothing when empty, itself otherwise. -/
def present (field : String) : Option String :=
  if field = "" then none else some field

/-- The fact names used in the examples. -/
def exampleNames : facts.Names :=
  { NetworkPluginFactName := "kube_network_plugin",
    ContainerRuntimeFactName := "container_runtime",
    DockerStorageDirFactName := "docker_storage_dir",
    ContainerdStorageDirFactName := "containerd_storage_dir",
    LbKubeApiserverPortFactName := "lb_kube_apiserver_port",
    KubePodSubnetFactName := "kube_pod_subnet",
    KubeServiceSubnetFactName := "kube_service_subnet" }

/-- A specification in which only the network plugin and the pod subnet are
set. -/
def exampleSpecCluster : Cluster :=
  { Name := "demo", Spec := { ID := "s1", NetworkType := "calico",
                              KubePodSubnet := "10.0.0.0/16" } }

/-- The node as `BeforeCreate` leaves it in `c.Nodes`, `id` being the primary
key it received. -/
def stampNode (cid : String) (n : ClusterNode) (id : String) : ClusterNode :=
  { n with ClusterID := cid, ID := id, Host := { n.Host with ClusterID := cid } }

/-- The node row that `tx.Create(&c.Nodes[i])` writes. -/
def nodeRow (cid : String) (n : ClusterNode) (id : String) : ClusterNode :=
  { n with ClusterID := cid, ID := id }

/-- The host row that `tx.Save(&Host{...})` writes for a node. -/
def hostRow (cid : String) (n : ClusterNode) : Host :=
  { ID := n.HostID, ClusterID := cid }

/-- The tool row that `tx.Create(&tool)` writes. -/
def toolRow (cid : String) (t : ClusterTool) (id : String) : ClusterTool :=
  { t with ClusterID := cid, ID := id }

/-- The write requests of the node loop, as issued: per node, create of the
node followed by save of its host. -/
def nodeRequests (cid : String) (ns : List ClusterNode) : List Write :=
  ns.flatMap (fun n => [.create (.node { n with ClusterID := cid }), .save (.host (hostRow cid n))])

/-- The writes of the node loop as they enter the transaction, `ids` being
the primary keys the nodes received. -/
def nodeWrites (cid : String) (ns : List ClusterNode) (ids : List String) : List Write :=
  (List.zipWith (fun n id => [Write.create (.node (nodeRow cid n id)),
    Write.save (.host (hostRow cid n))]) ns ids).flatten

/-- The write requests of the tool loop, as issued. -/
def toolRequests (cid : String) (ts : List ClusterTool) : List Write :=
  ts.map (fun t => .create (.tool { t with ClusterID := cid }))

/-- The writes of the tool loop as they enter the transaction. -/
def toolWrites (cid : String) (ts : List ClusterTool) (ids : List String) : List Write :=
  List.zipWith (fun t id => Write.create (.tool (toolRow cid t id))) ts ids

/-- A request that the store answered without error. -/
def accepted (o : Op) : Event := ⟨o, none⟩

/-- A write request on the transaction that the store answered without error. -/
def acceptedTx (w : Write) : Event := ⟨.write .tx w, none⟩

/-- The requests of a successful `BeforeCreate`, in the order they are issued,
without the final commit. -/
def createRequests (K : constant.Values) (cid : String) (c : Cluster) : List Op :=
  Op.begin :: ([Write.create (.spec c.Spec), Write.create (.status c.Status),
      Write.create (.secret c.Secret)] ++ nodeRequests cid c.Nodes ++
      toolRequests cid (c.PrepareTools K)).map (Op.write .tx)

/-- The writes a successful `BeforeCreate` hands to the commit; `sid`, `tid`,
`kid` are the primary keys received by specification, status and secret, `ids`
those of the nodes and `tids` those of the tools. -/
def createWrites (K : constant.Values) (cid : String) (c : Cluster)
    (sid tid kid : String) (ids tids : List String) : List Write :=
  [Write.create (.spec { c.Spec with ID := sid }),
   Write.create (.status { c.Status with ID := tid }),
   Write.create (.secret { c.Secret with ID := kid })] ++
  nodeWrites cid c.Nodes ids ++ toolWrites cid (c.PrepareTools K) tids

/-- The receiver after a successful `BeforeCreate`. -/
def createdCluster (cid : String) (c : Cluster) (sid tid kid : String)
    (ids : List String) : Cluster :=
  { c with ID := cid, SpecID := sid, StatusID := tid, SecretID := kid,
           Spec := { c.Spec with ID := sid },
           Status := { c.Status with ID := tid },
           Secret := { c.Secret with ID := kid },
           Nodes := List.zipWith (stampNode cid) c.Nodes ids }

/-- A cluster with one master node on host `h1`. -/
def exampleNewCluster : Cluster :=
  { Name := "demo", Spec := { NetworkType := "calico" },
    Nodes := [ { Name := "m1", HostID := "h1", Role := "master",
                 Host := { ID := "h1", Name := "host-1", Ip := "10.0.0.1" } } ] }

/-- A store that holds the unassigned host `h1`. -/
def exampleTables : Tables :=
  [ .host { ID := "h1", Name := "host-1", Ip := "10.0.0.1" } ]

/-- A store that accepts every request and numbers the rows it creates. -/
def exampleEnv : Env :=
  { uuid := "c-1", outcome := fun _ => none,
    assign := fun k _ => String.mk (List.replicate k 'i') }

/-- A store that answers the request at position 5 (the save of the host of
the first node) with an error. -/
def exampleFailingEnv : Env :=
  { exampleEnv with outcome := fun k => if k = 5 then some "disk full" else none }

/-- The node rows among the rows that the requests of a trace ask to create. -/
def createdNodeRows (trace : List Event) : List ClusterNode :=
  ((trace.map Event.op).filterMap Op.created?).filterMap Row.node?

/-- The tool rows among the rows that the requests of a trace ask to create. -/
def createdToolRows (trace : List Event) : List ClusterTool :=
  ((trace.map Event.op).filterMap Op.created?).filterMap Row.tool?

/-- Write requests issued one after the other until the store answers one
with an error. -/
def runSteps (env : Env) : List (Handle × Write) → Store → Option Err × Store
  | [], s => (none, s)
  | (h, w) :: rest, s =>
    match s.write env h w w with
    | (some e, s) => (some e, s)
    | (none, s) => runSteps env rest s

/-- The delete requests of `BeforeDelete` for the loaded cluster, each with
the handle it is issued on, in the order of the source. -/
def deleteRequests (cluster : Cluster) : List (Handle × Write) :=
  (if cluster.SpecID ≠ "" then [(Handle.db, Write.delete .spec cluster.SpecID)] else []) ++
  (if cluster.StatusID ≠ "" then [(Handle.tx, Write.delete .status cluster.StatusID)] else []) ++
  (if cluster.SecretID ≠ "" then [(Handle.db, Write.delete .secret cluster.SecretID)] else []) ++
  cluster.Nodes.map (fun n => (Handle.tx, Write.delete .node n.ID))

/-- The writes of a list of requests that were issued on `db.DB`. -/
def dbWrites (steps : List (Handle × Write)) : List Write :=
  steps.filterMap (fun hw => if hw.1 = Handle.db then some hw.2 else none)

/-- The writes of a list of requests that were issued on `tx`. -/
def txWrites (steps : List (Handle × Write)) : List Write :=
  steps.filterMap (fun hw => if hw.1 = Handle.tx then some hw.2 else none)

/-- The transaction handle after it accepted further writes. -/
def extendTx : TxState → List Write → TxState
  | .active log, ws => .active (log ++ ws)
  | x, _ => x

/-- A write request that the store answered without error. -/
def acceptedStep (hw : Handle × Write) : Event := ⟨.write hw.1 hw.2, none⟩

/-- The table a write changes. -/
def writeTable : Write → Table
  | .create r => r.table
  | .save r => r.table
  | .delete tbl _ => tbl

/-- The write of a request, if the request is a write. -/
def writeOf : Op → Option Write
  | .write _ w => some w
  | _ => none

/-- The write is a delete. -/
def isDelete : Write → Bool
  | .delete _ _ => true
  | _ => false

/-- The row is one that the delete removes. -/
def removes (w : Write) (x : Row) : Bool :=
  match w with
  | .delete tbl id => x.selected tbl id
  | _ => false

/-- The row as a specification row, if it is one. -/
def specRow? : Row → Option ClusterSpec
  | .spec r => some r
  | _ => none

/-- The row as a status row, if it is one. -/
def statusRow? : Row → Option ClusterStatus
  | .status r => some r
  | _ => none

/-- The row as a secret row, if it is one. -/
def secretRow? : Row → Option ClusterSecret
  | .secret r => some r
  | _ => none

/-- The status rows of the store. -/
def statusesOf (t : Tables) : List ClusterStatus := t.filterMap statusRow?

/-- The request is one of the deletes of `BeforeDelete` on the handle the
source issues it on: specification and secret on `db.DB`, status and node on
`tx`. -/
def onSourceHandle : Handle × Write → Bool
  | (.db, .delete .spec _) => true
  | (.db, .delete .secret _) => true
  | (.tx, .delete .status _) => true
  | (.tx, .delete .node _) => true
  | _ => false

/-- The event is not a write, or it is a delete issued on the handle the
source uses for its table. -/
def eventOnSourceHandle (ev : Event) : Bool :=
  match ev.op with
  | .write h w => onSourceHandle (h, w)
  | _ => true

/-- The event is not a write on the tool table or on the host table. -/
def leavesToolsAndHosts (ev : Event) : Bool :=
  match ev.op with
  | .write _ w => decide (writeTable w ≠ .tool ∧ writeTable w ≠ .host)
  | _ => true

/-- A cluster record as the store returns it on load: recorded identities of
specification, status and secret, and two attached nodes. -/
def exampleLoaded : Cluster :=
  { ID := "c-1", Name := "demo", SpecID := "s1", StatusID := "t1", SecretID := "k1",
    Nodes := [ { ID := "n1", Name := "m1", HostID := "h1", ClusterID := "c-1" },
               { ID := "n2", Name := "w1", HostID := "h2", ClusterID := "c-1" } ] }

/-- The rows of the loaded cluster, a node of another cluster, the two hosts
bound to the cluster and one of its tools. -/
def exampleDeleteTables : Tables :=
  [ .spec { ID := "s1" }, .status { ID := "t1" }, .secret { ID := "k1" },
    .node { ID := "n1", Name := "m1", HostID := "h1", ClusterID := "c-1" },
    .node { ID := "n2", Name := "w1", HostID := "h2", ClusterID := "c-1" },
    .node { ID := "n9", Name := "x1", HostID := "h9", ClusterID := "c-2" },
    .host { ID := "h1", Name := "host-1", ClusterID := "c-1" },
    .host { ID := "h2", Name := "host-2", ClusterID := "c-1" },
    .tool { ID := "p1", Name := "prometheus", ClusterID := "c-1" } ]

/-- A store that accepts every request and returns `exampleLoaded` on load. -/
def exampleDeleteEnv : Env :=
  { uuid := "c-1", outcome := fun _ => none,
    assign := fun _ id => id,
    find := fun _ => exampleLoaded }

/-- A store whose load fails. -/
def exampleLoadFailsEnv : Env :=
  { exampleDeleteEnv with outcome := fun k => if k = 0 then some "record not found" else none }

/-- The deletes of secret records among the requests of a trace, each with
the handle it was issued on. -/
def secretDeletes (trace : List Event) : List (Handle × String) :=
  trace.filterMap (fun ev =>
    match ev.op with
    | .write h (.delete .secret id) => some (h, id)
    | _ => none)

/-- A store that answers the request at position 5 of `BeforeDelete` (the
delete of the first node) with an error. -/
def exampleNodeDeleteFailsEnv : Env :=
  { exampleDeleteEnv with outcome := fun k => if k = 5 then some "lock timeout" else none }

/-- A store that accepts every request but the commit at position 7 of
`BeforeDelete`. -/
def exampleDeleteCommitFailsEnv : Env :=
  { exampleDeleteEnv with outcome := fun k => if k = 7 then some "commit failed" else none }

/-- The request opens a transaction. -/
def isBegin : Op → Bool
  | .begin => true
  | _ => false

/-- The request closes a transaction: commit or rollback. -/
def isClose : Op → Bool
  | .commit => true
  | .rollback => true
  | _ => false

/-- The trace begins exactly one transaction and closes it exactly once, by
its last request; the closing request is a rollback if and only if a
persistence step failed, a commit if and only if none failed; and a failing
step is the only one, directly followed by the rollback. -/
def closedOnce (tr : List Event) : Prop :=
  (tr.filter (fun ev => isBegin ev.op)).length = 1 ∧
  (tr.filter (fun ev => isClose ev.op)).length = 1 ∧
  ∃ last : Event, tr.getLast? = some last ∧ isClose last.op = true ∧
    (last.op = .rollback ↔ tr.any Event.failedStep = true) ∧
    (last.op = .commit ↔ tr.any Event.failedStep = false) ∧
    (tr.any Event.failedStep = true →
      ∃ ev : Event, tr.dropLast.getLast? = some ev ∧ ev.failedStep = true ∧
        tr.dropLast.dropLast.any Event.failedStep = false)

/-- The event neither opens nor closes a transaction and is not a failed
persistence step. -/
def quiet (ev : Event) : Bool :=
  !isBegin ev.op && !isClose ev.op && !ev.failedStep

/-- The end of the trace of a call: an answered commit, or a failed
persistence step followed by a rollback. -/
def closingTail (tl : List Event) : Prop :=
  (∃ ce : Option Err, tl = [⟨.commit, ce⟩]) ∨
  (∃ (h : Handle) (w : Write) (e : Err) (re : Option Err),
    tl = [⟨.write h w, some e⟩, ⟨.rollback, re⟩])

/-- The write does not touch the host table, or it saves a host row owned by
the cluster `cid`. -/
def ownerWrite (cid : String) : Write → Bool
  | .create r => decide (r.table ≠ .host)
  | .save (.host h) => decide (h.ClusterID = cid)
  | _ => false

/-- In the rows `t` there is a host record with primary key `hid`, and every
such record is owned by the cluster `cid`. -/
def boundTo (cid hid : String) (t : Tables) : Prop :=
  (∃ x : Host, Row.host x ∈ t ∧ x.ID = hid) ∧
  ∀ x : Host, Row.host x ∈ t → x.ID = hid → x.ClusterID = cid

/-- The node of `exampleNewCluster`. -/
def exampleNode : ClusterNode :=
  { Name := "m1", HostID := "h1", Role := "master",
    Host := { ID := "h1", Name := "host-1", Ip := "10.0.0.1" } }

/-- A store in which host `h1` is owned by cluster `c-0` and referenced by a
node of that cluster. -/
def exampleOwnedTables : Tables :=
  [ .host { ID := "h1", Name := "host-1", Ip := "10.0.0.1", ClusterID := "c-0" },
    .node { ID := "n0", Name := "old-m1", HostID := "h1", ClusterID := "c-0" } ]

/-- A cluster whose node refers to host `h1`, the in-memory host saying that
it is owned by cluster `c-0`. -/
def exampleTakingCluster : Cluster :=
  { Name := "second",
    Nodes := [ { Name := "m1", HostID := "h1", Role := "master",
                 Host := { ID := "h1", Name := "host-1", Ip := "10.0.0.1",
                           ClusterID := "c-0" } } ] }

/-- The host rows that the save requests of a trace ask to write. -/
def savedHosts (trace : List Event) : List Host :=
  trace.filterMap (fun ev =>
    match ev.op with
    | .write _ (.save (.host h)) => some h
    | _ => none)

/-- A store that accepts every request of `exampleNewCluster.BeforeCreate` but
the commit at position 10. -/
def exampleCommitFailsEnv : Env :=
  { exampleEnv with outcome := fun k => if k = 10 then some "commit failed" else none }

/-- Modelled from the spec: the fact name of the load-balancer API-server
address, a constant of package `facts` that `cluster.go` does not refer to. -/
def exampleLbIpFactName : String := "lb_kube_apiserver_ip"

/-- A specification in which only the load-balancer API-server address is
set. -/
def exampleLbCluster : Cluster :=
  { Name := "demo", Spec := { ID := "s1", LbKubeApiserverIp := "10.0.0.9" } }

/-- No host is referenced by node rows of two different clusters. -/
def exclusive (t : Tables) : Prop :=
  ∀ a ∈ nodesOf t, ∀ b ∈ nodesOf t, a.HostID = b.HostID → a.ClusterID = b.ClusterID

/-- A store with the unassigned host `h1`, and host `h0` owned by cluster
`c-0` and referenced by a node of that cluster. -/
def exampleSharedTables : Tables :=
  [ .host { ID := "h1", Name := "host-1", Ip := "10.0.0.1" },
    .host { ID := "h0", Name := "host-0", Ip := "10.0.0.0", ClusterID := "c-0" },
    .node { ID := "n0", Name := "old-m1", HostID := "h0", ClusterID := "c-0" } ]

/-- A cluster record as the store returns it on load, with one attached node
whose identity is blank. -/
def exampleBlankLoaded : Cluster :=
  { ID := "c-1", Name := "demo",
    Nodes := [ { ID := "", Name := "m1", HostID := "h1", ClusterID := "c-1" } ] }

/-- A store that accepts every request and returns `exampleBlankLoaded` on
load. -/
def exampleBlankEnv : Env :=
  { exampleDeleteEnv with find := fun _ => exampleBlankLoaded }

end model

/-! ## Properties of `ParseInventory` -/

namespace model

theorem statusCounts_iff (K : constant.Values) (n : ClusterNode) :
    statusCounts K n = true ↔ n.counts K := by
  simp [statusCounts, ClusterNode.counts]

theorem foldl_parseNode_hosts {H : Type} (K : constant.Values) (tk : ClusterNode → H)
    (ns : List ClusterNode) (v : ParseVars H) :
    (ns.foldl (parseNode K tk) v).hosts = v.hosts ++ ns.map tk := by
  induction ns generalizing v with
  | nil => simp
  | cons n ns ih =>
    rw [List.foldl_cons, ih]
    unfold parseNode
    split_ifs <;> simp

theorem foldl_parseNode_masters {H : Type} (K : constant.Values) (tk : ClusterNode → H)
    (ns : List ClusterNode) (v : ParseVars H) :
    (ns.foldl (parseNode K tk) v).masters = v.masters ++
      (ns.filter (fun n => decide (n.Role = K.NodeRoleNameMaster ∧ n.counts K))).map
        ClusterNode.Name := by
  induction ns generalizing v with
  | nil => simp
  | cons n ns ih =>
    rw [List.foldl_cons, ih]
    unfold parseNode
    split_ifs with h1 h2 h3 h4
    · have h2' := (statusCounts_iff K n).1 h2
      simp [List.filter_cons, h1, h2']
    · have h2' : ¬ n.counts K := fun h => h2 ((statusCounts_iff K n).2 h)
      simp [List.filter_cons, h2']
    · simp [List.filter_cons, h1]
    · simp [List.filter_cons, h1]
    · simp [List.filter_cons, h1]

theorem foldl_parseNode_workers {H : Type} (K : constant.Values) (tk : ClusterNode → H)
    (hK : K.NodeRoleNameMaster ≠ K.NodeRoleNameWorker)
    (ns : List ClusterNode) (v : ParseVars H) :
    (ns.foldl (parseNode K tk) v).workers = v.workers ++
      (ns.filter (fun n => decide (n.Role = K.NodeRoleNameWorker ∧ n.counts K))).map
        ClusterNode.Name := by
  induction ns generalizing v with
  | nil => simp
  | cons n ns ih =>
    rw [List.foldl_cons, ih]
    unfold parseNode
    split_ifs with h1 h2 h3 h4
    · have h : n.Role ≠ K.NodeRoleNameWorker := fun h => hK (h1.symm.trans h)
      simp [List.filter_cons, h]
    · have h : n.Role ≠ K.NodeRoleNameWorker := fun h => hK (h1.symm.trans h)
      simp [List.filter_cons, h]
    · have h4' := (statusCounts_iff K n).1 h4
      simp [List.filter_cons, h3, h4']
    · have h4' : ¬ n.counts K := fun h => h4 ((statusCounts_iff K n).2 h)
      simp [List.filter_cons, h4']
    · simp [List.filter_cons, h3]

theorem parseNodes_masters {H : Type} (K : constant.Values) (tk : ClusterNode → H)
    (c : Cluster) :
    (parseNodes K tk c).masters =
      (c.nodesCounted K K.NodeRoleNameMaster).map ClusterNode.Name := by
  simp [parseNodes, Cluster.nodesCounted, foldl_parseNode_masters]

theorem parseNodes_workers {H : Type} (K : constant.Values) (tk : ClusterNode → H)
    (hK : K.NodeRoleNameMaster ≠ K.NodeRoleNameWorker) (c : Cluster) :
    (parseNodes K tk c).workers =
      (c.nodesCounted K K.NodeRoleNameWorker).map ClusterNode.Name := by
  simp [parseNodes, Cluster.nodesCounted, foldl_parseNode_workers K tk hK]

theorem parseNodes_hosts {H : Type} (K : constant.Values) (tk : ClusterNode → H)
    (c : Cluster) : (parseNodes K tk c).hosts = c.Nodes.map tk := by
  simp [parseNodes, foldl_parseNode_hosts]

theorem hostsOf_kube_master {H : Type} (K : constant.Values) (tk : ClusterNode → H)
    (c : Cluster) :
    (c.ParseInventory K tk).hostsOf "kube-master" = some (parseNodes K tk c).masters := by
  simp [Cluster.ParseInventory, api.Inventory.hostsOf, api.Inventory.group?, List.find?]

theorem hostsOf_kube_worker {H : Type} (K : constant.Values) (tk : ClusterNode → H)
    (c : Cluster) :
    (c.ParseInventory K tk).hostsOf "kube-worker" = some (parseNodes K tk c).workers := by
  simp [Cluster.ParseInventory, api.Inventory.hostsOf, api.Inventory.group?, List.find?]

theorem hostsOf_chrony {H : Type} (K : constant.Values) (tk : ClusterNode → H)
    (c : Cluster) :
    (c.ParseInventory K tk).hostsOf "chrony" =
      some (chronyOf (parseNodes K tk c).masters) := by
  simp [Cluster.ParseInventory, api.Inventory.hostsOf, api.Inventory.group?, List.find?]

/-- C1: in `ParseInventory(c)` the hosts of group kube-master are exactly the
names of the nodes of `c` whose role is master and whose status is empty or
running, in the order of `c.Nodes`; the hosts of kube-worker are the same with
role worker (the two role constants being different strings). -/
theorem C1_role_groups {H : Type} (K : constant.Values) (ToKobeHost : ClusterNode → H)
    (c : Cluster) :
    (c.ParseInventory K ToKobeHost).hostsOf "kube-master" =
        some ((c.Nodes.filter (fun n => decide (n.Role = K.NodeRoleNameMaster ∧
          (n.Status = "" ∨ n.Status = K.ClusterRunning)))).map ClusterNode.Name) ∧
    (K.NodeRoleNameMaster ≠ K.NodeRoleNameWorker →
      (c.ParseInventory K ToKobeHost).hostsOf "kube-worker" =
        some ((c.Nodes.filter (fun n => decide (n.Role = K.NodeRoleNameWorker ∧
          (n.Status = "" ∨ n.Status = K.ClusterRunning)))).map ClusterNode.Name)) := by
  refine ⟨?_, fun hK => ?_⟩
  · rw [hostsOf_kube_master, parseNodes_masters]; rfl
  · rw [hostsOf_kube_worker, parseNodes_workers K ToKobeHost hK]; rfl

/-- C1 at the example: m1 (master, running), m2 (master, waiting), w1 (worker,
running) give kube-master.hosts = [m1] and kube-worker.hosts = [w1]. -/
theorem C1_role_groups_witness :
    exampleValues.NodeRoleNameMaster ≠ exampleValues.NodeRoleNameWorker ∧
    (exampleCluster.ParseInventory exampleValues ClusterNode.Name).hostsOf "kube-master" =
      some ["m1"] ∧
    (exampleCluster.ParseInventory exampleValues ClusterNode.Name).hostsOf "kube-worker" =
      some ["w1"] := by
  have h := C1_role_groups exampleValues ClusterNode.Name exampleCluster
  refine ⟨by decide, ?_, ?_⟩
  · rw [h.1]; decide
  · rw [h.2 (by decide)]; decide

/-- C2: for every cluster the groups of `ParseInventory(c)` are exactly seven,
named in this order kube-master, kube-worker, new-worker, lb, etcd, chrony,
del-worker; with zero nodes every group has an empty host list. -/
theorem C2_seven_groups {H : Type} (K : constant.Values) (ToKobeHost : ClusterNode → H)
    (c : Cluster) :
    (c.ParseInventory K ToKobeHost).Groups.length = 7 ∧
    (c.ParseInventory K ToKobeHost).Groups.map api.Group.Name =
      ["kube-master", "kube-worker", "new-worker", "lb", "etcd", "chrony", "del-worker"] ∧
    (c.Nodes = [] → ∀ g ∈ (c.ParseInventory K ToKobeHost).Groups, g.Hosts = []) := by
  refine ⟨rfl, rfl, fun h g hg => ?_⟩
  have hm : (parseNodes K ToKobeHost c).masters = [] := by simp [parseNodes, h]
  have hw : (parseNodes K ToKobeHost c).workers = [] := by simp [parseNodes, h]
  simp only [Cluster.ParseInventory, hm, hw, chronyOf, List.mem_cons, List.mem_singleton,
    List.not_mem_nil, or_false] at hg
  rcases hg with h | h | h | h | h | h | h <;> rw [h]

/-- C2 at the cluster without nodes. -/
theorem C2_seven_groups_witness :
    ({ Name := "empty" } : Cluster).Nodes = [] ∧
    (({ Name := "empty" } : Cluster).ParseInventory exampleValues ClusterNode.Name).Groups.map
      api.Group.Hosts = [[], [], [], [], [], [], []] := by
  have h := (C2_seven_groups exampleValues ClusterNode.Name { Name := "empty" }).2.2 rfl
  refine ⟨rfl, ?_⟩
  have hl := (C2_seven_groups exampleValues ClusterNode.Name { Name := "empty" }).1
  generalize (({ Name := "empty" } : Cluster).ParseInventory exampleValues
    ClusterNode.Name).Groups = gs at h hl
  match gs, hl with
  | [a, b, c, d, e, f, g], _ =>
    simp [h a, h b, h c, h d, h e, h f, h g]

/-- C3: the chrony group has at most one host: the name of the first node of
`c.Nodes` that is a master with status empty or running (the head of
kube-master.hosts) when there is one, and no host otherwise. -/
theorem C3_chrony {H : Type} (K : constant.Values) (ToKobeHost : ClusterNode → H)
    (c : Cluster) :
    (c.ParseInventory K ToKobeHost).hostsOf "chrony" =
      some (((c.Nodes.find? (fun n => decide (n.Role = K.NodeRoleNameMaster ∧
        (n.Status = "" ∨ n.Status = K.ClusterRunning)))).map ClusterNode.Name).toList) ∧
    (c.ParseInventory K ToKobeHost).hostsOf "chrony" =
      ((c.ParseInventory K ToKobeHost).hostsOf "kube-master").map (fun ms => ms.head?.toList) ∧
    (∃ hs, (c.ParseInventory K ToKobeHost).hostsOf "chrony" = some hs ∧ hs.length ≤ 1) := by
  have key : chronyOf (parseNodes K ToKobeHost c).masters =
      ((c.Nodes.find? (fun n => decide (n.Role = K.NodeRoleNameMaster ∧
        (n.Status = "" ∨ n.Status = K.ClusterRunning)))).map ClusterNode.Name).toList := by
    rw [parseNodes_masters]
    unfold Cluster.nodesCounted ClusterNode.counts
    generalize (fun n : ClusterNode => decide (n.Role = K.NodeRoleNameMaster ∧
        (n.Status = "" ∨ n.Status = K.ClusterRunning))) = p
    induction c.Nodes with
    | nil => rfl
    | cons n ns ih =>
      by_cases hp : p n = true
      · simp [List.filter_cons, List.find?_cons, hp, chronyOf]
      · simp only [List.filter_cons, List.find?_cons, hp]
        simpa using ih
  refine ⟨?_, ?_, ?_⟩
  · rw [hostsOf_chrony, key]
  · rw [hostsOf_chrony, hostsOf_kube_master]
    cases (parseNodes K ToKobeHost c).masters <;> rfl
  · refine ⟨_, hostsOf_chrony K ToKobeHost c, ?_⟩
    cases (parseNodes K ToKobeHost c).masters <;> simp [chronyOf]

/-- C4: the dependency edges of the groups do not depend on the cluster:
kube-worker and etcd have the one child kube-master, the other five groups
have no children. -/
theorem C4_children {H : Type} (K : constant.Values) (ToKobeHost : ClusterNode → H)
    (c : Cluster) :
    (c.ParseInventory K ToKobeHost).childrenOf "kube-worker" = some ["kube-master"] ∧
    (c.ParseInventory K ToKobeHost).childrenOf "etcd" = some ["kube-master"] ∧
    (c.ParseInventory K ToKobeHost).childrenOf "kube-master" = some [] ∧
    (c.ParseInventory K ToKobeHost).childrenOf "new-worker" = some [] ∧
    (c.ParseInventory K ToKobeHost).childrenOf "lb" = some [] ∧
    (c.ParseInventory K ToKobeHost).childrenOf "chrony" = some [] ∧
    (c.ParseInventory K ToKobeHost).childrenOf "del-worker" = some [] ∧
    (c.ParseInventory K ToKobeHost).Groups.map api.Group.Children =
      [[], ["kube-master"], [], [], ["kube-master"], [], []] := by
  simp [Cluster.ParseInventory, api.Inventory.childrenOf, api.Inventory.group?, List.find?]

/-- C5: the host list of etcd equals the host list of kube-master, and the
host lists of new-worker, lb and del-worker are empty for every cluster. -/
theorem C5_etcd_and_placeholders {H : Type} (K : constant.Values)
    (ToKobeHost : ClusterNode → H) (c : Cluster) :
    (c.ParseInventory K ToKobeHost).hostsOf "etcd" =
      (c.ParseInventory K ToKobeHost).hostsOf "kube-master" ∧
    ((c.ParseInventory K ToKobeHost).hostsOf "etcd").isSome = true ∧
    (c.ParseInventory K ToKobeHost).hostsOf "new-worker" = some [] ∧
    (c.ParseInventory K ToKobeHost).hostsOf "lb" = some [] ∧
    (c.ParseInventory K ToKobeHost).hostsOf "del-worker" = some [] := by
  simp [Cluster.ParseInventory, api.Inventory.hostsOf, api.Inventory.group?, List.find?]

/-- C6: the flat host list of `ParseInventory(c)` has one entry per node, the
i-th being `ToKobeHost` of the i-th node, whatever the role and status of the
node. -/
theorem C6_flat_hosts {H : Type} (K : constant.Values) (ToKobeHost : ClusterNode → H)
    (c : Cluster) :
    (c.ParseInventory K ToKobeHost).Hosts = c.Nodes.map ToKobeHost ∧
    (c.ParseInventory K ToKobeHost).Hosts.length = c.Nodes.length ∧
    (∀ i : Nat, (c.ParseInventory K ToKobeHost).Hosts[i]? = (c.Nodes[i]?).map ToKobeHost) := by
  have h : (c.ParseInventory K ToKobeHost).Hosts = c.Nodes.map ToKobeHost :=
    parseNodes_hosts K ToKobeHost c
  refine ⟨h, by simp [h], fun i => by simp [h]⟩

/-! ## Properties of `GetKobeVars` -/

theorem GoMap_get?_set (m : GoMap) (k v k' : String) :
    (m.set k v).get? k' = if k' = k then some v else m.get? k' := by
  unfold GoMap.set GoMap.get?
  induction m with
  | nil =>
    by_cases h : k' = k
    · simp [h]
    · have h' : ¬ k = k' := fun e => h e.symm
      simp [h, h']
  | cons p m ih =>
    by_cases hp : p.1 = k
    · have : List.filter (fun p : String × String => decide (p.1 ≠ k)) (p :: m) =
          List.filter (fun p : String × String => decide (p.1 ≠ k)) m := by
        simp [List.filter_cons, hp]
      rw [this, ih]
      by_cases h : k' = k
      · simp [h]
      · have h' : ¬ p.1 = k' := fun e => h (e.symm.trans hp)
        simp [h, List.find?_cons, h']
    · have : List.filter (fun p : String × String => decide (p.1 ≠ k)) (p :: m) =
          p :: List.filter (fun p : String × String => decide (p.1 ≠ k)) m := by
        simp [List.filter_cons, hp]
      rw [this, List.cons_append, List.find?_cons, List.find?_cons]
      by_cases h1 : p.1 = k'
      · have h : ¬ k' = k := fun e => hp (h1.trans e)
        simp [h1, h]
      · simp only [h1, decide_False]
        exact ih

theorem GoMap_get?_setIfPresent (m : GoMap) (k f k' : String) :
    (setIfPresent m k f).get? k' = if k' = k ∧ f ≠ "" then some f else m.get? k' := by
  unfold setIfPresent
  by_cases hf : f = ""
  · simp [hf]
  · simp [hf, GoMap_get?_set]

theorem GoMap_mem_keys_iff (m : GoMap) (k : String) :
    k ∈ m.keys ↔ (m.get? k).isSome = true := by
  unfold GoMap.keys GoMap.get?
  induction m with
  | nil => simp
  | cons p m ih =>
    by_cases h : p.1 = k
    · simp [List.find?_cons, h]
    · have h' : ¬ k = p.1 := fun e => h e.symm
      simp only [List.map_cons, List.mem_cons, h', false_or, List.find?_cons, h, decide_False]
      exact ih

theorem get?_GetKobeVars (F : facts.Names) (c : Cluster) (k : String) :
    (c.GetKobeVars F).get? k =
      if k = F.KubeServiceSubnetFactName ∧ c.Spec.KubeServiceSubnet ≠ "" then
        some c.Spec.KubeServiceSubnet
      else if k = F.KubePodSubnetFactName ∧ c.Spec.KubePodSubnet ≠ "" then
        some c.Spec.KubePodSubnet
      else if k = F.LbKubeApiserverPortFactName ∧ c.Spec.LbKubeApiserverIp ≠ "" then
        some c.Spec.LbKubeApiserverIp
      else if k = F.ContainerdStorageDirFactName ∧ c.Spec.ContainerdStorageDir ≠ "" then
        some c.Spec.ContainerdStorageDir
      else if k = F.DockerStorageDirFactName ∧ c.Spec.DockerStorageDir ≠ "" then
        some c.Spec.DockerStorageDir
      else if k = F.ContainerRuntimeFactName ∧ c.Spec.RuntimeType ≠ "" then
        some c.Spec.RuntimeType
      else if k = F.NetworkPluginFactName ∧ c.Spec.NetworkType ≠ "" then
        some c.Spec.NetworkType
      else none := by
  simp only [Cluster.GetKobeVars, GoMap_get?_setIfPresent]
  rfl

theorem GoMap_set_keys_nodup (m : GoMap) (k v : String) (h : m.keys.Nodup) :
    (m.set k v).keys.Nodup := by
  unfold GoMap.keys at *
  unfold GoMap.set
  rw [List.map_append, List.nodup_append]
  refine ⟨?_, by simp, ?_⟩
  · exact (h.sublist ((List.filter_sublist m).map Prod.fst))
  · intro a ha hb
    simp only [List.map_cons, List.map_nil, List.mem_singleton] at hb
    simp only [List.mem_map, List.mem_filter, decide_eq_true_eq] at ha
    obtain ⟨p, ⟨_, hp⟩, rfl⟩ := ha
    exact hp hb

theorem setIfPresent_keys_nodup (m : GoMap) (k f : String) (h : m.keys.Nodup) :
    (setIfPresent m k f).keys.Nodup := by
  unfold setIfPresent
  split_ifs
  · exact GoMap_set_keys_nodup m k f h
  · exact h

theorem keys_GetKobeVars_nodup (F : facts.Names) (c : Cluster) :
    (c.GetKobeVars F).keys.Nodup := by
  unfold Cluster.GetKobeVars
  repeat apply setIfPresent_keys_nodup
  exact List.nodup_nil

/-- C7: with pairwise distinct fact names, `GetKobeVars` returns the mapping
whose keys are exactly the fact names of the non-empty ones among the seven
fields, each mapped to the value of its field; no value is the empty string, an
all-empty specification gives the empty mapping, and a specification with only
`NetworkType = "calico"` gives exactly the one entry for the network plugin. -/
theorem C7_GetKobeVars (F : facts.Names) (c : Cluster) :
    ([F.NetworkPluginFactName, F.ContainerRuntimeFactName, F.DockerStorageDirFactName,
        F.ContainerdStorageDirFactName, F.LbKubeApiserverPortFactName,
        F.KubePodSubnetFactName, F.KubeServiceSubnetFactName].Nodup →
      (∀ k, k ∈ (c.GetKobeVars F).keys ↔
        (k = F.NetworkPluginFactName ∧ c.Spec.NetworkType ≠ "") ∨
        (k = F.ContainerRuntimeFactName ∧ c.Spec.RuntimeType ≠ "") ∨
        (k = F.DockerStorageDirFactName ∧ c.Spec.DockerStorageDir ≠ "") ∨
        (k = F.ContainerdStorageDirFactName ∧ c.Spec.ContainerdStorageDir ≠ "") ∨
        (k = F.LbKubeApiserverPortFactName ∧ c.Spec.LbKubeApiserverIp ≠ "") ∨
        (k = F.KubePodSubnetFactName ∧ c.Spec.KubePodSubnet ≠ "") ∨
        (k = F.KubeServiceSubnetFactName ∧ c.Spec.KubeServiceSubnet ≠ "")) ∧
      (c.GetKobeVars F).get? F.NetworkPluginFactName = present c.Spec.NetworkType ∧
      (c.GetKobeVars F).get? F.ContainerRuntimeFactName = present c.Spec.RuntimeType ∧
      (c.GetKobeVars F).get? F.DockerStorageDirFactName = present c.Spec.DockerStorageDir ∧
      (c.GetKobeVars F).get? F.ContainerdStorageDirFactName =
        present c.Spec.ContainerdStorageDir ∧
      (c.GetKobeVars F).get? F.LbKubeApiserverPortFactName =
        present c.Spec.LbKubeApiserverIp ∧
      (c.GetKobeVars F).get? F.KubePodSubnetFactName = present c.Spec.KubePodSubnet ∧
      (c.GetKobeVars F).get? F.KubeServiceSubnetFactName =
        present c.Spec.KubeServiceSubnet) ∧
    (c.GetKobeVars F).keys.Nodup ∧
    (∀ k v, (c.GetKobeVars F).get? k = some v → v ≠ "") ∧
    (∀ id : String, Cluster.GetKobeVars F { c with Spec := { ID := id } } = []) ∧
    (∀ id : String,
      Cluster.GetKobeVars F { c with Spec := { ID := id, NetworkType := "calico" } } =
        [(F.NetworkPluginFactName, "calico")]) := by
  refine ⟨fun hF => ?_, keys_GetKobeVars_nodup F c, ?_, ?_, ?_⟩
  · simp only [List.nodup_cons, List.mem_cons, List.mem_singleton, not_or, List.not_mem_nil,
      not_false_eq_true, List.nodup_nil, and_true] at hF
    obtain ⟨⟨h12, h13, h14, h15, h16, h17⟩, ⟨h23, h24, h25, h26, h27⟩,
      ⟨h34, h35, h36, h37⟩, ⟨h45, h46, h47⟩, ⟨h56, h57⟩, h67⟩ := hF
    have s12 := Ne.symm h12
    have s13 := Ne.symm h13
    have s14 := Ne.symm h14
    have s15 := Ne.symm h15
    have s16 := Ne.symm h16
    have s17 := Ne.symm h17
    have s23 := Ne.symm h23
    have s24 := Ne.symm h24
    have s25 := Ne.symm h25
    have s26 := Ne.symm h26
    have s27 := Ne.symm h27
    have s34 := Ne.symm h34
    have s35 := Ne.symm h35
    have s36 := Ne.symm h36
    have s37 := Ne.symm h37
    have s45 := Ne.symm h45
    have s46 := Ne.symm h46
    have s47 := Ne.symm h47
    have s56 := Ne.symm h56
    have s57 := Ne.symm h57
    have s67 := Ne.symm h67
    refine ⟨fun k => ?_, ?_, ?_, ?_, ?_, ?_, ?_, ?_⟩
    · rw [GoMap_mem_keys_iff, get?_GetKobeVars]
      split_ifs <;> simp_all
    · simp only [get?_GetKobeVars, present, h12, h13, h14, h15, h16, h17, h23, h24, h25, h26, h27, h34, h35, h36, h37,
        h45, h46, h47, h56, h57, h67, s12, s13, s14, s15, s16, s17, s23, s24, s25, s26, s27, s34,
        s35, s36, s37, s45, s46, s47, s56, s57, s67,
        false_and, if_false, true_and, ite_not, and_false]
    · simp only [get?_GetKobeVars, present, h12, h13, h14, h15, h16, h17, h23, h24, h25, h26, h27, h34, h35, h36, h37,
        h45, h46, h47, h56, h57, h67, s12, s13, s14, s15, s16, s17, s23, s24, s25, s26, s27, s34,
        s35, s36, s37, s45, s46, s47, s56, s57, s67,
        false_and, if_false, true_and, ite_not, and_false]
    · simp only [get?_GetKobeVars, present, h12, h13, h14, h15, h16, h17, h23, h24, h25, h26, h27, h34, h35, h36, h37,
        h45, h46, h47, h56, h57, h67, s12, s13, s14, s15, s16, s17, s23, s24, s25, s26, s27, s34,
        s35, s36, s37, s45, s46, s47, s56, s57, s67,
        false_and, if_false, true_and, ite_not, and_false]
    · simp only [get?_GetKobeVars, present, h12, h13, h14, h15, h16, h17, h23, h24, h25, h26, h27, h34, h35, h36, h37,
        h45, h46, h47, h56, h57, h67, s12, s13, s14, s15, s16, s17, s23, s24, s25, s26, s27, s34,
        s35, s36, s37, s45, s46, s47, s56, s57, s67,
        false_and, if_false, true_and, ite_not, and_false]
    · simp only [get?_GetKobeVars, present, h12, h13, h14, h15, h16, h17, h23, h24, h25, h26, h27, h34, h35, h36, h37,
        h45, h46, h47, h56, h57, h67, s12, s13, s14, s15, s16, s17, s23, s24, s25, s26, s27, s34,
        s35, s36, s37, s45, s46, s47, s56, s57, s67,
        false_and, if_false, true_and, ite_not, and_false]
    · simp only [get?_GetKobeVars, present, h12, h13, h14, h15, h16, h17, h23, h24, h25, h26, h27, h34, h35, h36, h37,
        h45, h46, h47, h56, h57, h67, s12, s13, s14, s15, s16, s17, s23, s24, s25, s26, s27, s34,
        s35, s36, s37, s45, s46, s47, s56, s57, s67,
        false_and, if_false, true_and, ite_not, and_false]
    · simp only [get?_GetKobeVars, present, h12, h13, h14, h15, h16, h17, h23, h24, h25, h26, h27, h34, h35, h36, h37,
        h45, h46, h47, h56, h57, h67, s12, s13, s14, s15, s16, s17, s23, s24, s25, s26, s27, s34,
        s35, s36, s37, s45, s46, s47, s56, s57, s67,
        false_and, if_false, true_and, ite_not, and_false]
  · intro k v h
    rw [get?_GetKobeVars] at h
    split_ifs at h <;> simp_all
  · intro id; rfl
  · intro id
    simp [Cluster.GetKobeVars, setIfPresent, GoMap.set]

/-- C7 at the example fact names and a specification with two fields set. -/
theorem C7_GetKobeVars_witness :
    [exampleNames.NetworkPluginFactName, exampleNames.ContainerRuntimeFactName,
      exampleNames.DockerStorageDirFactName, exampleNames.ContainerdStorageDirFactName,
      exampleNames.LbKubeApiserverPortFactName, exampleNames.KubePodSubnetFactName,
      exampleNames.KubeServiceSubnetFactName].Nodup ∧
    (exampleSpecCluster.GetKobeVars exampleNames).get? "kube_network_plugin" = some "calico" ∧
    (exampleSpecCluster.GetKobeVars exampleNames).get? "container_runtime" = none ∧
    (exampleSpecCluster.GetKobeVars exampleNames).get? "kube_pod_subnet" =
      some "10.0.0.0/16" := by
  have hn : [exampleNames.NetworkPluginFactName, exampleNames.ContainerRuntimeFactName,
      exampleNames.DockerStorageDirFactName, exampleNames.ContainerdStorageDirFactName,
      exampleNames.LbKubeApiserverPortFactName, exampleNames.KubePodSubnetFactName,
      exampleNames.KubeServiceSubnetFactName].Nodup := by
    simp [exampleNames]
  have h := (C7_GetKobeVars exampleNames exampleSpecCluster).1 hn
  refine ⟨hn, ?_, ?_, ?_⟩
  · exact h.2.1.trans (by simp [present, exampleSpecCluster])
  · exact h.2.2.1.trans (by simp [present, exampleSpecCluster])
  · exact h.2.2.2.2.2.2.1.trans (by simp [present, exampleSpecCluster])

/-! ## Properties of `PrepareTools` -/

/-- C8: `PrepareTools` returns the same four tools for every cluster, named in
order prometheus, dashboard, chartmuseum, registry, each with version v1.0.0,
the waiting status, an empty description, no owning cluster, and the icons
prometheus.png, kubernetes.png, chartmuseum.png, registry.png. -/
theorem C8_PrepareTools (K : constant.Values) (c : Cluster) :
    c.PrepareTools K =
      [ { ID := "", Name := "prometheus", ClusterID := "", Version := "v1.0.0",
          Describe := "", Status := K.ClusterWaiting, Logo := "prometheus.png" },
        { ID := "", Name := "dashboard", ClusterID := "", Version := "v1.0.0",
          Describe := "", Status := K.ClusterWaiting, Logo := "kubernetes.png" },
        { ID := "", Name := "chartmuseum", ClusterID := "", Version := "v1.0.0",
          Describe := "", Status := K.ClusterWaiting, Logo := "chartmuseum.png" },
        { ID := "", Name := "registry", ClusterID := "", Version := "v1.0.0",
          Describe := "", Status := K.ClusterWaiting, Logo := "registry.png" } ] ∧
    (c.PrepareTools K).length = 4 ∧
    (c.PrepareTools K).map ClusterTool.Name =
      ["prometheus", "dashboard", "chartmuseum", "registry"] ∧
    (c.PrepareTools K).map ClusterTool.Version = ["v1.0.0", "v1.0.0", "v1.0.0", "v1.0.0"] ∧
    (c.PrepareTools K).map ClusterTool.Status = List.replicate 4 K.ClusterWaiting ∧
    (c.PrepareTools K).map ClusterTool.Describe = ["", "", "", ""] ∧
    (c.PrepareTools K).map ClusterTool.ClusterID = ["", "", "", ""] ∧
    (c.PrepareTools K).map ClusterTool.Logo =
      ["prometheus.png", "kubernetes.png", "chartmuseum.png", "registry.png"] ∧
    (∀ c2 : Cluster, c2.PrepareTools K = c.PrepareTools K) :=
  ⟨rfl, rfl, rfl, rfl, rfl, rfl, rfl, rfl, fun _ => rfl⟩

end model

/-! ## The store requests, one at a time -/

namespace db

theorem Store.write_tx_none {env : Env} {s s' : Store} {i w : Write}
    (h : s.write env .tx i w = (none, s')) :
    ∃ log, s.tx = .active log ∧ env.outcome s.trace.length = none ∧
      s' = { s with tx := .active (log ++ [w]),
                    trace := s.trace ++ [⟨.write .tx i, none⟩] } := by
  unfold Store.write at h
  cases htx : s.tx with
  | active log =>
    cases hout : env.outcome s.trace.length with
    | none =>
      simp only [htx, hout, Prod.mk.injEq, true_and] at h
      exact ⟨log, rfl, rfl, h.symm⟩
    | some e => simp [htx, hout] at h
  | idle => simp [htx] at h
  | failed e => simp [htx] at h
  | closed => simp [htx] at h

theorem Store.write_tx_some {env : Env} {s s' : Store} {i w : Write} {e : Err}
    (h : s.write env .tx i w = (some e, s')) :
    s' = { s with trace := s.trace ++ [⟨.write .tx i, some e⟩] } := by
  unfold Store.write at h
  cases htx : s.tx with
  | active log =>
    cases hout : env.outcome s.trace.length with
    | none => simp [htx, hout] at h
    | some e2 =>
      simp only [htx, hout, Prod.mk.injEq, Option.some.injEq] at h
      obtain ⟨rfl, rfl⟩ := h
      rfl
  | idle =>
    simp only [htx, Prod.mk.injEq, Option.some.injEq] at h
    obtain ⟨rfl, rfl⟩ := h
    rfl
  | failed e2 =>
    simp only [htx, Prod.mk.injEq, Option.some.injEq] at h
    obtain ⟨rfl, rfl⟩ := h
    rfl
  | closed =>
    simp only [htx, Prod.mk.injEq, Option.some.injEq] at h
    obtain ⟨rfl, rfl⟩ := h
    rfl

theorem Store.create_tx_none {env : Env} {s s' : Store} {r : Row} {id : String}
    (h : s.create env .tx r = (none, id, s')) :
    id = env.assign s.trace.length r.ID ∧
    ∃ log, s.tx = .active log ∧ env.outcome s.trace.length = none ∧
      s' = { s with tx := .active (log ++ [.create (r.withID id)]),
                    trace := s.trace ++ [⟨.write .tx (.create r), none⟩] } := by
  unfold Store.create at h
  dsimp only at h
  split at h
  · rename_i s2 hw
    simp only [Prod.mk.injEq, true_and] at h
    obtain ⟨rfl, rfl⟩ := h
    exact ⟨rfl, Store.write_tx_none hw⟩
  · simp at h

theorem Store.create_tx_some {env : Env} {s s' : Store} {r : Row} {id : String} {e : Err}
    (h : s.create env .tx r = (some e, id, s')) :
    s' = { s with trace := s.trace ++ [⟨.write .tx (.create r), some e⟩] } := by
  unfold Store.create at h
  dsimp only at h
  split at h
  · simp at h
  · rename_i e2 s2 hw
    simp only [Prod.mk.injEq, Option.some.injEq] at h
    obtain ⟨rfl, -, rfl⟩ := h
    exact Store.write_tx_some hw

theorem Store.save_tx_none {env : Env} {s s' : Store} {r : Row}
    (h : s.save env .tx r = (none, s')) :
    ∃ log, s.tx = .active log ∧ env.outcome s.trace.length = none ∧
      s' = { s with tx := .active (log ++ [.save r]),
                    trace := s.trace ++ [⟨.write .tx (.save r), none⟩] } :=
  Store.write_tx_none h

theorem Store.save_tx_some {env : Env} {s s' : Store} {r : Row} {e : Err}
    (h : s.save env .tx r = (some e, s')) :
    s' = { s with trace := s.trace ++ [⟨.write .tx (.save r), some e⟩] } :=
  Store.write_tx_some h

theorem Store.rollback_committed (env : Env) (s : Store) :
    (s.rollback env).2.committed = s.committed := by
  unfold Store.rollback
  cases s.tx <;> rfl

theorem Store.rollback_trace (env : Env) (s : Store) :
    (s.rollback env).2.trace = s.trace ++ [⟨.rollback, (s.rollback env).1⟩] := by
  unfold Store.rollback
  cases s.tx <;> rfl

end db

/-! ## The loops of `BeforeCreate` -/

namespace model

open db

theorem createNodes_committed (env : Env) (cid : String) (ns : List ClusterNode)
    (s : Store) : (createNodes env cid ns s).2.2.committed = s.committed := by
  induction ns generalizing s with
  | nil => rfl
  | cons n ns ih =>
    unfold createNodes
    dsimp only
    split
    · rename_i e id s1 h1
      rw [Store.create_tx_some h1]
      exact Store.rollback_committed env _
    · rename_i id s1 h1
      obtain ⟨-, log, -, -, rfl⟩ := Store.create_tx_none h1
      split
      · rename_i e s2 h2
        rw [Store.save_tx_some h2]
        exact Store.rollback_committed env _
      · rename_i s2 h2
        obtain ⟨log2, -, -, rfl⟩ := Store.save_tx_none h2
        exact ih _

theorem createTools_committed (env : Env) (cid : String) (ts : List ClusterTool)
    (s : Store) : (createTools env cid ts s).2.committed = s.committed := by
  induction ts generalizing s with
  | nil => rfl
  | cons t ts ih =>
    unfold createTools
    dsimp only
    split
    · rename_i e id s1 h1
      rw [Store.create_tx_some h1]
      exact Store.rollback_committed env _
    · rename_i id s1 h1
      obtain ⟨-, log, -, -, rfl⟩ := Store.create_tx_none h1
      exact ih _

theorem createNodes_none (env : Env) (cid : String) (ns : List ClusterNode) :
    ∀ (s s' : Store) (ns' : List ClusterNode) (log : List Write),
      createNodes env cid ns s = (none, ns', s') → s.tx = .active log →
      ∃ ids : List String, ids.length = ns.length ∧
        ns' = List.zipWith (stampNode cid) ns ids ∧
        s' = { committed := s.committed,
               tx := .active (log ++ nodeWrites cid ns ids),
               trace := s.trace ++ (nodeRequests cid ns).map acceptedTx } := by
  induction ns with
  | nil =>
    intro s s' ns' log h htx
    simp only [createNodes, Prod.mk.injEq, true_and] at h
    obtain ⟨rfl, rfl⟩ := h
    refine ⟨[], rfl, rfl, ?_⟩
    simp [nodeWrites, nodeRequests, ← htx]
  | cons n ns ih =>
    intro s s' ns' log h htx
    unfold createNodes at h
    dsimp only at h
    split at h
    · simp at h
    · rename_i id s1 h1
      obtain ⟨-, log1, hl1, -, rfl⟩ := Store.create_tx_none h1
      rw [htx] at hl1
      cases hl1
      split at h
      · simp at h
      · rename_i s2 h2
        obtain ⟨log2, hl2, -, rfl⟩ := Store.save_tx_none h2
        cases hl2
        cases hrec : createNodes env cid ns
          { committed := s.committed,
            tx := .active (log ++ [Write.create ((Row.node { n with ClusterID := cid }).withID id)] ++
              [Write.save (Row.host { ID := n.HostID, ClusterID := cid })]),
            trace := s.trace ++ [⟨.write .tx (.create (.node { n with ClusterID := cid })), none⟩] ++
              [⟨.write .tx (.save (.host { ID := n.HostID, ClusterID := cid })), none⟩] }
          with
        | mk e rest =>
          obtain ⟨rest', s3⟩ := rest
          simp only [hrec, Prod.mk.injEq] at h
          obtain ⟨rfl, rfl, rfl⟩ := h
          obtain ⟨ids, hlen, rfl, rfl⟩ := ih _ _ _ _ hrec rfl
          refine ⟨id :: ids, by simp [hlen], ?_, ?_⟩
          · simp [stampNode]
          · simp [nodeWrites, nodeRequests, nodeRow, hostRow, Row.withID, acceptedTx,
              List.append_assoc]

theorem createTools_none (env : Env) (cid : String) (ts : List ClusterTool) :
    ∀ (s s' : Store) (log : List Write),
      createTools env cid ts s = (none, s') → s.tx = .active log →
      ∃ ids : List String, ids.length = ts.length ∧
        s' = { committed := s.committed,
               tx := .active (log ++ toolWrites cid ts ids),
               trace := s.trace ++ (toolRequests cid ts).map acceptedTx } := by
  induction ts with
  | nil =>
    intro s s' log h htx
    simp only [createTools, Prod.mk.injEq, true_and] at h
    subst h
    refine ⟨[], rfl, ?_⟩
    simp [toolWrites, toolRequests, ← htx]
  | cons t ts ih =>
    intro s s' log h htx
    unfold createTools at h
    dsimp only at h
    split at h
    · simp at h
    · rename_i id s1 h1
      obtain ⟨-, log1, hl1, -, rfl⟩ := Store.create_tx_none h1
      rw [htx] at hl1
      cases hl1
      obtain ⟨ids, hlen, rfl⟩ := ih _ _ _ h rfl
      refine ⟨id :: ids, by simp [hlen], ?_⟩
      simp [toolWrites, toolRequests, toolRow, Row.withID, acceptedTx, List.append_assoc]

theorem BeforeCreate_none_or_committed (env : Env) (K : constant.Values) (c : Cluster)
    (t : Tables) :
    (c.BeforeCreate env K t).err = none ∨ (c.BeforeCreate env K t).store.committed = t := by
  unfold Cluster.BeforeCreate
  dsimp only
  split
  · rename_i e id s1 h1
    right
    rw [Store.create_tx_some h1]
    exact Store.rollback_committed env _
  · rename_i id1 s1 h1
    obtain ⟨-, log1, -, -, rfl⟩ := Store.create_tx_none h1
    split
    · rename_i e id s2 h2
      right
      rw [Store.create_tx_some h2]
      exact Store.rollback_committed env _
    · rename_i id2 s2 h2
      obtain ⟨-, log2, -, -, rfl⟩ := Store.create_tx_none h2
      split
      · rename_i e id s3 h3
        right
        rw [Store.create_tx_some h3]
        exact Store.rollback_committed env _
      · rename_i id3 s3 h3
        obtain ⟨-, log3, -, -, rfl⟩ := Store.create_tx_none h3
        split
        · rename_i e nodes s4 h4
          right
          have hc4 := congrArg (fun x => x.2.2.committed) h4
          simp only [createNodes_committed] at hc4
          exact hc4.symm
        · rename_i nodes s4 h4
          have hc4 := congrArg (fun x => x.2.2.committed) h4
          simp only [createNodes_committed] at hc4
          split
          · rename_i e s5 h5
            right
            have hc5 := congrArg (fun x => x.2.committed) h5
            simp only [createTools_committed] at hc5
            exact hc5.symm.trans hc4.symm
          · left
            rfl

theorem BeforeCreate_committed_of_err (env : Env) (K : constant.Values) (c : Cluster)
    (t : Tables) (h : (c.BeforeCreate env K t).err ≠ none) :
    (c.BeforeCreate env K t).store.committed = t :=
  (BeforeCreate_none_or_committed env K c t).resolve_left h

theorem Store_begin_active {env : Env} {t : Tables} {log : List Write}
    (h : (Store.begin env { committed := t }).tx = .active log) :
    log = [] ∧ Store.begin env { committed := t } =
      { committed := t, tx := .active [], trace := [accepted .begin] } := by
  unfold Store.begin at h ⊢
  dsimp only at h ⊢
  cases hout : env.outcome ([] : List Event).length with
  | none =>
    rw [hout] at h
    simp only [TxState.active.injEq] at h
    exact ⟨h.symm, rfl⟩
  | some e =>
    rw [hout] at h
    simp at h

theorem Store_commit_active (env : Env) (s : Store) (log : List Write)
    (h : s.tx = .active log) :
    (s.commit env).2 =
      { committed := (match env.outcome s.trace.length with
          | none => s.committed.applyAll log
          | some _ => s.committed),
        tx := .closed,
        trace := s.trace ++ [⟨.commit, env.outcome s.trace.length⟩] } := by
  unfold Store.commit
  dsimp only
  rw [h]
  cases env.outcome s.trace.length <;> rfl

theorem BeforeCreate_some_or_success (env : Env) (K : constant.Values) (c : Cluster)
    (t : Tables) :
    (c.BeforeCreate env K t).err.isSome = true ∨
    ∃ (sid tid kid : String) (ids tids : List String),
      ids.length = c.Nodes.length ∧ tids.length = (c.PrepareTools K).length ∧
      (c.BeforeCreate env K t).c = createdCluster env.uuid c sid tid kid ids ∧
      (c.BeforeCreate env K t).store =
        { committed := (match env.outcome (createRequests K env.uuid c).length with
            | none => t.applyAll (createWrites K env.uuid c sid tid kid ids tids)
            | some _ => t),
          tx := .closed,
          trace := (createRequests K env.uuid c).map accepted ++
            [⟨.commit, env.outcome (createRequests K env.uuid c).length⟩] } := by
  unfold Cluster.BeforeCreate
  dsimp only
  split
  · left; rfl
  · rename_i id1 s1 h1
    obtain ⟨-, log1, hl1, -, rfl⟩ := Store.create_tx_none h1
    obtain ⟨rfl, hb⟩ := Store_begin_active hl1
    rw [hb]
    split
    · left; rfl
    · rename_i id2 s2 h2
      obtain ⟨-, log2, hl2, -, rfl⟩ := Store.create_tx_none h2
      cases hl2
      split
      · left; rfl
      · rename_i id3 s3 h3
        obtain ⟨-, log3, hl3, -, rfl⟩ := Store.create_tx_none h3
        cases hl3
        split
        · left; rfl
        · rename_i nodes s4 h4
          obtain ⟨ids, hids, rfl, rfl⟩ := createNodes_none env env.uuid c.Nodes _ _ _ _ h4 rfl
          split
          · left; rfl
          · rename_i s5 h5
            obtain ⟨tids, htids, rfl⟩ := createTools_none env env.uuid _ _ _ _ h5 rfl
            right
            refine ⟨id1, id2, id3, ids, tids, hids, htids, rfl, ?_⟩
            rw [Store_commit_active env _ _ rfl]
            clear h1 h2 h3 h4 h5 hb hl1
            have hacc : acceptedTx = accepted ∘ Op.write Handle.tx := rfl
            simp [createRequests, createWrites, hacc, Row.withID,
              List.append_assoc, Cluster.PrepareTools]
            exact ⟨rfl, rfl, rfl⟩

/-! ### What a commit adds to the tables -/

theorem Tables_apply_filterMap {α : Type} (sel : Row → Option α)
    (hsel : ∀ r : Row, r.table = .host → sel r = none) (t : Tables) (w : Write)
    (hw : w.savesHostsOnly = true) :
    (t.apply w).filterMap sel = t.filterMap sel ++ ((w.created?).bind sel).toList := by
  cases w with
  | create r =>
    simp only [Tables.apply, List.filterMap_append, Write.created?, Option.some_bind]
    cases h : sel r <;> simp [List.filterMap_cons, h]
  | save r =>
    cases r with
    | host x =>
      simp only [Write.created?, Option.none_bind, Option.toList, List.append_nil]
      unfold Tables.apply
      dsimp only
      split_ifs with hc
      · rw [List.filterMap_map]
        apply List.filterMap_congr
        intro y _
        simp only [Function.comp]
        split_ifs with hy
        · have hy' : y.table = .host := by
            simp only [Row.sameRecord, Row.table, Bool.and_eq_true, decide_eq_true_eq] at hy
            exact hy.1.symm
          rw [hsel y hy', hsel (.host x) rfl]
        · rfl
      · simp [List.filterMap_append, List.filterMap_cons, hsel (.host x) rfl]
    | spec x => simp [Write.savesHostsOnly] at hw
    | status x => simp [Write.savesHostsOnly] at hw
    | secret x => simp [Write.savesHostsOnly] at hw
    | node x => simp [Write.savesHostsOnly] at hw
    | tool x => simp [Write.savesHostsOnly] at hw
  | delete tbl id => simp [Write.savesHostsOnly] at hw

theorem Tables_applyAll_filterMap {α : Type} (sel : Row → Option α)
    (hsel : ∀ r : Row, r.table = .host → sel r = none) (ws : List Write) :
    ∀ t : Tables, ws.all Write.savesHostsOnly = true →
      (t.applyAll ws).filterMap sel =
        t.filterMap sel ++ (ws.filterMap Write.created?).filterMap sel := by
  induction ws with
  | nil => intro t _; simp [Tables.applyAll]
  | cons w ws ih =>
    intro t hall
    simp only [List.all_cons, Bool.and_eq_true] at hall
    have h1 := Tables_apply_filterMap sel hsel t w hall.1
    have h2 := ih (t.apply w) hall.2
    simp only [Tables.applyAll, List.foldl_cons] at h2 ⊢
    rw [h2, h1, List.append_assoc]
    congr 1
    cases hc : w.created? with
    | none => simp [List.filterMap_cons, hc]
    | some r => cases hr : sel r <;> simp [List.filterMap_cons, hc, hr]

theorem nodeWrites_all (cid : String) (ns : List ClusterNode) :
    ∀ ids : List String, (nodeWrites cid ns ids).all Write.savesHostsOnly = true := by
  induction ns with
  | nil => intro ids; simp [nodeWrites]
  | cons n ns ih =>
    intro ids
    cases ids with
    | nil => simp [nodeWrites]
    | cons i ids =>
      have := ih ids
      simp only [nodeWrites] at this ⊢
      simp [List.zipWith_cons_cons, Write.savesHostsOnly, this]

theorem nodeWrites_created (cid : String) (ns : List ClusterNode) :
    ∀ ids : List String, (nodeWrites cid ns ids).filterMap Write.created? =
      (List.zipWith (nodeRow cid) ns ids).map Row.node := by
  induction ns with
  | nil => intro ids; simp [nodeWrites]
  | cons n ns ih =>
    intro ids
    cases ids with
    | nil => simp [nodeWrites]
    | cons i ids =>
      have := ih ids
      simp only [nodeWrites] at this ⊢
      simp [List.zipWith_cons_cons, Write.created?, List.filterMap_cons, this]

theorem toolWrites_all (cid : String) (ts : List ClusterTool) :
    ∀ ids : List String, (toolWrites cid ts ids).all Write.savesHostsOnly = true := by
  induction ts with
  | nil => intro ids; simp [toolWrites]
  | cons n ts ih =>
    intro ids
    cases ids with
    | nil => simp [toolWrites]
    | cons i ids =>
      have := ih ids
      simp only [toolWrites] at this ⊢
      simp [List.zipWith_cons_cons, Write.savesHostsOnly, this]

theorem toolWrites_created (cid : String) (ts : List ClusterTool) :
    ∀ ids : List String, (toolWrites cid ts ids).filterMap Write.created? =
      (List.zipWith (toolRow cid) ts ids).map Row.tool := by
  induction ts with
  | nil => intro ids; simp [toolWrites]
  | cons n ts ih =>
    intro ids
    cases ids with
    | nil => simp [toolWrites]
    | cons i ids =>
      have := ih ids
      simp only [toolWrites] at this ⊢
      simp [List.zipWith_cons_cons, Write.created?, List.filterMap_cons, this]

/-! ## Properties of `BeforeCreate` -/

/-- C9 (atomic create): whenever one of the persistence steps of `BeforeCreate`
(a create or save request) is answered with an error, `BeforeCreate` returns
an error and the committed rows of the store are those from before the call:
no row of this call was added and no host row was changed. -/
theorem C9_atomic_create (env : Env) (K : constant.Values) (c : Cluster) (t : Tables)
    (hfail : ∃ ev ∈ (c.BeforeCreate env K t).store.trace, ev.failedStep = true) :
    (c.BeforeCreate env K t).err ≠ none ∧
    (c.BeforeCreate env K t).store.committed = t ∧
    hostsOf (c.BeforeCreate env K t).store.committed = hostsOf t := by
  have herr : (c.BeforeCreate env K t).err ≠ none := by
    rcases BeforeCreate_some_or_success env K c t with h | ⟨sid, tid, kid, ids, tids, -, -, -, hs⟩
    · intro hn
      rw [hn] at h
      exact absurd h (by simp)
    · exfalso
      obtain ⟨ev, hev, hf⟩ := hfail
      rw [hs] at hev
      simp only [List.mem_append, List.mem_map, List.mem_singleton] at hev
      rcases hev with ⟨o, -, rfl⟩ | rfl
      · simp [accepted, Event.failedStep] at hf
      · simp [Event.failedStep] at hf
  have hc := BeforeCreate_committed_of_err env K c t herr
  exact ⟨herr, hc, by rw [hc]⟩

/-- C9 at a store that fails the save of the host of the first node. -/
theorem C9_atomic_create_witness :
    (∃ ev ∈ (exampleNewCluster.BeforeCreate exampleFailingEnv exampleValues
        exampleTables).store.trace, ev.failedStep = true) ∧
    (exampleNewCluster.BeforeCreate exampleFailingEnv exampleValues exampleTables).err =
      some "disk full" ∧
    (exampleNewCluster.BeforeCreate exampleFailingEnv exampleValues exampleTables
      ).store.committed = exampleTables := by
  have hf : ∃ ev ∈ (exampleNewCluster.BeforeCreate exampleFailingEnv exampleValues
      exampleTables).store.trace, ev.failedStep = true := by decide
  exact ⟨hf, by decide,
    (C9_atomic_create exampleFailingEnv exampleValues exampleNewCluster exampleTables hf).2.1⟩

theorem zipWith_nodeRow_props (cid : String) (ns : List ClusterNode) :
    ∀ ids : List String, ids.length = ns.length →
      (List.zipWith (nodeRow cid) ns ids).length = ns.length ∧
      (List.zipWith (nodeRow cid) ns ids).map ClusterNode.ClusterID =
        List.replicate ns.length cid ∧
      (List.zipWith (nodeRow cid) ns ids).map ClusterNode.Name = ns.map ClusterNode.Name := by
  induction ns with
  | nil => intro ids _; simp
  | cons n ns ih =>
    intro ids hlen
    cases ids with
    | nil => simp at hlen
    | cons i ids =>
      obtain ⟨h1, h2, h3⟩ := ih ids (by simpa using hlen)
      refine ⟨by simp [h1], ?_, ?_⟩
      · simp only [List.zipWith_cons_cons, List.map_cons, h2, List.length_cons,
          List.replicate_succ]
        rfl
      · simp only [List.zipWith_cons_cons, List.map_cons, h3]
        rfl

theorem zipWith_toolRow_props (cid : String) (ts : List ClusterTool) :
    ∀ ids : List String, ids.length = ts.length →
      (List.zipWith (toolRow cid) ts ids).length = ts.length ∧
      (List.zipWith (toolRow cid) ts ids).map ClusterTool.ClusterID =
        List.replicate ts.length cid ∧
      (List.zipWith (toolRow cid) ts ids).map ClusterTool.Name = ts.map ClusterTool.Name := by
  induction ts with
  | nil => intro ids _; simp
  | cons n ts ih =>
    intro ids hlen
    cases ids with
    | nil => simp at hlen
    | cons i ids =>
      obtain ⟨h1, h2, h3⟩ := ih ids (by simpa using hlen)
      refine ⟨by simp [h1], ?_, ?_⟩
      · simp only [List.zipWith_cons_cons, List.map_cons, h2, List.length_cons,
          List.replicate_succ]
        rfl
      · simp only [List.zipWith_cons_cons, List.map_cons, h3]
        rfl

theorem createWrites_all (K : constant.Values) (cid : String) (c : Cluster)
    (sid tid kid : String) (ids tids : List String) :
    (createWrites K cid c sid tid kid ids tids).all Write.savesHostsOnly = true := by
  simp only [createWrites, List.all_append, nodeWrites_all, toolWrites_all, Bool.and_true]
  rfl

theorem createWrites_nodes (K : constant.Values) (cid : String) (c : Cluster)
    (sid tid kid : String) (ids tids : List String) :
    ((createWrites K cid c sid tid kid ids tids).filterMap Write.created?).filterMap
      Row.node? = List.zipWith (nodeRow cid) c.Nodes ids := by
  simp only [createWrites, List.filterMap_append, nodeWrites_created, toolWrites_created,
    List.filterMap_map]
  simp [List.filterMap_cons, Write.created?, Row.node?, Function.comp_def]

theorem createWrites_tools (K : constant.Values) (cid : String) (c : Cluster)
    (sid tid kid : String) (ids tids : List String) :
    ((createWrites K cid c sid tid kid ids tids).filterMap Write.created?).filterMap
      Row.tool? = List.zipWith (toolRow cid) (c.PrepareTools K) tids := by
  simp only [createWrites, List.filterMap_append, nodeWrites_created, toolWrites_created,
    List.filterMap_map]
  simp [List.filterMap_cons, Write.created?, Row.tool?, Function.comp_def]

theorem filterMap_const_none {α β : Type} (l : List α) :
    l.filterMap (fun _ => (none : Option β)) = [] := by
  induction l with
  | nil => rfl
  | cons a l ih => simp only [List.filterMap_cons, ih]

theorem filterMap_some_fun {α β : Type} (f : α → β) (l : List α) :
    l.filterMap (fun x => some (f x)) = l.map f := by
  induction l with
  | nil => rfl
  | cons a l ih => simp only [List.filterMap_cons, List.map_cons, ih]

theorem nodeRequests_created (cid : String) (ns : List ClusterNode) :
    (nodeRequests cid ns).filterMap Write.created? =
      ns.map (fun n => Row.node { n with ClusterID := cid }) := by
  induction ns with
  | nil => rfl
  | cons n ns ih =>
    simp only [nodeRequests] at ih ⊢
    simp only [List.flatMap_cons, List.cons_append, List.nil_append, List.filterMap_cons,
      Write.created?, List.map_cons, ih]

theorem toolRequests_created (cid : String) (ts : List ClusterTool) :
    (toolRequests cid ts).filterMap Write.created? =
      ts.map (fun tl => Row.tool { tl with ClusterID := cid }) := by
  induction ts with
  | nil => rfl
  | cons n ts ih =>
    simp only [toolRequests] at ih ⊢
    simp only [List.map_cons, List.filterMap_cons, Write.created?, ih]

theorem createRequests_created (K : constant.Values) (cid : String) (c : Cluster) :
    (createRequests K cid c).filterMap Op.created? =
      [Row.spec c.Spec, Row.status c.Status, Row.secret c.Secret] ++
      c.Nodes.map (fun n => Row.node { n with ClusterID := cid }) ++
      (c.PrepareTools K).map (fun tl => Row.tool { tl with ClusterID := cid }) := by
  have h : ∀ ws : List Write,
      (ws.map (Op.write Handle.tx)).filterMap Op.created? = ws.filterMap Write.created? := by
    intro ws
    rw [List.filterMap_map]
    rfl
  simp only [createRequests, List.filterMap_cons, Op.created?, h, List.filterMap_append,
    nodeRequests_created, toolRequests_created]
  rfl

theorem createRequests_nodes (K : constant.Values) (cid : String) (c : Cluster) :
    ((createRequests K cid c).filterMap Op.created?).filterMap Row.node? =
      c.Nodes.map (fun n => { n with ClusterID := cid }) := by
  rw [createRequests_created]
  simp [List.filterMap_append, List.filterMap_map, List.filterMap_cons, Row.node?,
    Function.comp_def, filterMap_const_none, filterMap_some_fun]

theorem createRequests_tools (K : constant.Values) (cid : String) (c : Cluster) :
    ((createRequests K cid c).filterMap Op.created?).filterMap Row.tool? =
      (c.PrepareTools K).map (fun tl => { tl with ClusterID := cid }) := by
  rw [createRequests_created]
  simp [List.filterMap_append, List.filterMap_map, List.filterMap_cons, Row.tool?,
    Function.comp_def, filterMap_const_none, filterMap_some_fun]

/-- C10 (aggregate completeness): when `BeforeCreate` returns no error, the
requests it issued are, in order: begin; on the transaction, create of the
specification, of the status and of the secret; per node, in the order of
`c.Nodes`, create of the node and save of its host; create of the four tools
of the catalogue, in catalogue order; commit.  Every request before the commit
was accepted.  Afterwards `SpecID`, `StatusID` and `SecretID` are the
identities of `Spec`, `Status` and `Secret`; the created node rows are one per
node and the created tool rows are four, all with `ClusterID = c.ID`; and when
the store accepts the commit these rows are what the node and tool tables
gain. -/
theorem C10_aggregate_complete (env : Env) (K : constant.Values) (c : Cluster) (t : Tables)
    (h : (c.BeforeCreate env K t).err = none) :
    (c.BeforeCreate env K t).store.trace.map Event.op =
      [Op.begin,
       Op.write .tx (.create (.spec c.Spec)),
       Op.write .tx (.create (.status c.Status)),
       Op.write .tx (.create (.secret c.Secret))] ++
      c.Nodes.flatMap (fun n =>
        [Op.write .tx (.create (.node { n with ClusterID := (c.BeforeCreate env K t).c.ID })),
         Op.write .tx (.save (.host { ID := n.HostID,
                                      ClusterID := (c.BeforeCreate env K t).c.ID }))]) ++
      (c.PrepareTools K).map (fun tl =>
        Op.write .tx (.create (.tool { tl with ClusterID := (c.BeforeCreate env K t).c.ID }))) ++
      [Op.commit] ∧
    (∀ ev ∈ (c.BeforeCreate env K t).store.trace, ev.op ≠ Op.commit → ev.err = none) ∧
    (c.BeforeCreate env K t).c.ID = env.uuid ∧
    (c.BeforeCreate env K t).c.SpecID = (c.BeforeCreate env K t).c.Spec.ID ∧
    (c.BeforeCreate env K t).c.StatusID = (c.BeforeCreate env K t).c.Status.ID ∧
    (c.BeforeCreate env K t).c.SecretID = (c.BeforeCreate env K t).c.Secret.ID ∧
    (createdNodeRows (c.BeforeCreate env K t).store.trace).length = c.Nodes.length ∧
    (createdNodeRows (c.BeforeCreate env K t).store.trace).map ClusterNode.ClusterID =
      List.replicate c.Nodes.length (c.BeforeCreate env K t).c.ID ∧
    (createdToolRows (c.BeforeCreate env K t).store.trace).length = 4 ∧
    (createdToolRows (c.BeforeCreate env K t).store.trace).map ClusterTool.ClusterID =
      List.replicate 4 (c.BeforeCreate env K t).c.ID ∧
    (createdToolRows (c.BeforeCreate env K t).store.trace).map ClusterTool.Name =
      ["prometheus", "dashboard", "chartmuseum", "registry"] ∧
    ((c.BeforeCreate env K t).store.trace.getLast?.map Event.err = some none →
      ∃ (nrows : List ClusterNode) (trows : List ClusterTool),
        nodesOf (c.BeforeCreate env K t).store.committed = nodesOf t ++ nrows ∧
        nrows.length = c.Nodes.length ∧
        nrows.map ClusterNode.ClusterID =
          List.replicate c.Nodes.length (c.BeforeCreate env K t).c.ID ∧
        nrows.map ClusterNode.Name = c.Nodes.map ClusterNode.Name ∧
        toolsOf (c.BeforeCreate env K t).store.committed = toolsOf t ++ trows ∧
        trows.length = 4 ∧
        trows.map ClusterTool.ClusterID = List.replicate 4 (c.BeforeCreate env K t).c.ID ∧
        trows.map ClusterTool.Name = ["prometheus", "dashboard", "chartmuseum", "registry"]) := by
  rcases BeforeCreate_some_or_success env K c t with he | ⟨sid, tid, kid, ids, tids, hids, htids,
    hc, hs⟩
  · rw [h] at he
    exact absurd he (by simp)
  · have hmap : ∀ os : List Op, (os.map accepted).map Event.op = os := by
      intro os
      rw [List.map_map]
      exact List.map_id os
    have hops : (c.BeforeCreate env K t).store.trace.map Event.op =
        createRequests K env.uuid c ++ [Op.commit] := by
      rw [hs]
      simp only [List.map_append, hmap, List.map_cons, List.map_nil]
    have hid : (c.BeforeCreate env K t).c.ID = env.uuid := by rw [hc]; rfl
    have hcn : createdNodeRows (c.BeforeCreate env K t).store.trace =
        c.Nodes.map (fun n => { n with ClusterID := env.uuid }) := by
      unfold createdNodeRows
      rw [hops, List.filterMap_append, List.filterMap_append, createRequests_nodes]
      simp [Op.created?, List.filterMap_cons]
    have hct : createdToolRows (c.BeforeCreate env K t).store.trace =
        (c.PrepareTools K).map (fun tl => { tl with ClusterID := env.uuid }) := by
      unfold createdToolRows
      rw [hops, List.filterMap_append, List.filterMap_append, createRequests_tools]
      simp [Op.created?, List.filterMap_cons]
    refine ⟨?_, ?_, hid, ?_, ?_, ?_, ?_, ?_, ?_, ?_, ?_, ?_⟩
    · rw [hops, hid]
      simp [createRequests, nodeRequests, toolRequests, hostRow, List.map_flatMap]
    · intro ev hev hne
      rw [hs] at hev
      simp only [List.mem_append, List.mem_map, List.mem_singleton] at hev
      rcases hev with ⟨o, -, rfl⟩ | rfl
      · rfl
      · exact absurd rfl hne
    · rw [hc]; rfl
    · rw [hc]; rfl
    · rw [hc]; rfl
    · rw [hcn]; simp
    · rw [hcn, hid]; simp [Function.comp_def]
    · rw [hct]; rfl
    · rw [hct, hid]; rfl
    · rw [hct]; rfl
    · intro hlast
      have hout : env.outcome (createRequests K env.uuid c).length = none := by
        rw [hs] at hlast
        simpa using hlast
      have hcm : (c.BeforeCreate env K t).store.committed =
          t.applyAll (createWrites K env.uuid c sid tid kid ids tids) := by
        rw [hs]
        simp only [hout]
      have hall := createWrites_all K env.uuid c sid tid kid ids tids
      have hn := Tables_applyAll_filterMap Row.node?
        (fun r hr => by cases r <;> simp_all [Row.table, Row.node?]) _ t hall
      have ht := Tables_applyAll_filterMap Row.tool?
        (fun r hr => by cases r <;> simp_all [Row.table, Row.tool?]) _ t hall
      rw [createWrites_nodes] at hn
      rw [createWrites_tools] at ht
      obtain ⟨n1, n2, n3⟩ := zipWith_nodeRow_props env.uuid c.Nodes ids hids
      obtain ⟨t1, t2, t3⟩ := zipWith_toolRow_props env.uuid (c.PrepareTools K) tids htids
      refine ⟨_, _, ?_, n1, ?_, n3, ?_, t1, ?_, t3⟩
      · rw [hcm]; exact hn
      · rw [hid]; exact n2
      · rw [hcm]; exact ht
      · rw [hid]; exact t2

/-- C10 at a cluster with one node and a store that accepts every request. -/
theorem C10_aggregate_complete_witness :
    (exampleNewCluster.BeforeCreate exampleEnv exampleValues exampleTables).err = none ∧
    (exampleNewCluster.BeforeCreate exampleEnv exampleValues exampleTables).store.trace.length
      = 11 ∧
    (exampleNewCluster.BeforeCreate exampleEnv exampleValues exampleTables).c.SpecID =
      (exampleNewCluster.BeforeCreate exampleEnv exampleValues exampleTables).c.Spec.ID ∧
    (createdNodeRows (exampleNewCluster.BeforeCreate exampleEnv exampleValues
      exampleTables).store.trace).map ClusterNode.ClusterID = ["c-1"] ∧
    (nodesOf (exampleNewCluster.BeforeCreate exampleEnv exampleValues
      exampleTables).store.committed).map ClusterNode.Name = ["m1"] ∧
    (toolsOf (exampleNewCluster.BeforeCreate exampleEnv exampleValues
      exampleTables).store.committed).map ClusterTool.ClusterID =
      ["c-1", "c-1", "c-1", "c-1"] := by
  have he : (exampleNewCluster.BeforeCreate exampleEnv exampleValues exampleTables).err =
      none := by decide
  have h := C10_aggregate_complete exampleEnv exampleValues exampleNewCluster exampleTables he
  refine ⟨he, ?_, h.2.2.2.1, ?_, by decide, by decide⟩
  · have hl := congrArg List.length h.1
    rw [List.length_map] at hl
    rw [hl]
    decide
  · rw [h.2.2.2.2.2.2.2.1, h.2.2.1]
    rfl

/-! ## `BeforeDelete` as a list of requests -/

theorem Store_write_none {env : Env} {s s' : Store} {h : Handle} {w : Write}
    (hw : s.write env h w w = (none, s')) :
    s' = { committed := s.committed.applyAll (dbWrites [(h, w)]),
           tx := extendTx s.tx (txWrites [(h, w)]),
           trace := s.trace ++ [acceptedStep (h, w)] } := by
  cases h with
  | db =>
    unfold Store.write at hw
    dsimp only at hw
    cases hout : env.outcome s.trace.length with
    | none =>
      simp only [hout, Prod.mk.injEq, true_and] at hw
      subst hw
      cases htx : s.tx <;> simp [dbWrites, txWrites, extendTx, Tables.applyAll, acceptedStep]
    | some e => simp [hout] at hw
  | tx =>
    obtain ⟨log, hl, -, rfl⟩ := Store.write_tx_none hw
    simp [dbWrites, txWrites, extendTx, Tables.applyAll, acceptedStep, hl]

theorem Store_write_some {env : Env} {s s' : Store} {h : Handle} {w : Write} {e : Err}
    (hw : s.write env h w w = (some e, s')) :
    s' = { s with trace := s.trace ++ [⟨.write h w, some e⟩] } := by
  cases h with
  | db =>
    unfold Store.write at hw
    dsimp only at hw
    cases hout : env.outcome s.trace.length with
    | none => simp [hout] at hw
    | some e2 =>
      simp only [hout, Prod.mk.injEq, Option.some.injEq] at hw
      obtain ⟨rfl, rfl⟩ := hw
      rfl
  | tx => exact Store.write_tx_some hw

theorem extendTx_append (x : TxState) (a b : List Write) :
    extendTx (extendTx x a) b = extendTx x (a ++ b) := by
  cases x <;> simp [extendTx]

theorem Tables_applyAll_append (t : Tables) (a b : List Write) :
    (t.applyAll a).applyAll b = t.applyAll (a ++ b) := by
  simp [Tables.applyAll, List.foldl_append]

theorem runSteps_none (env : Env) (steps : List (Handle × Write)) :
    ∀ s s' : Store, runSteps env steps s = (none, s') →
      s' = { committed := s.committed.applyAll (dbWrites steps),
             tx := extendTx s.tx (txWrites steps),
             trace := s.trace ++ steps.map acceptedStep } := by
  induction steps with
  | nil =>
    intro s s' h
    simp only [runSteps, Prod.mk.injEq, true_and] at h
    subst h
    obtain ⟨cm, tx, tr⟩ := s
    cases tx <;> simp [dbWrites, txWrites, extendTx, Tables.applyAll]
  | cons hw steps ih =>
    intro s s' h
    obtain ⟨hd, w⟩ := hw
    unfold runSteps at h
    split at h
    · simp at h
    · rename_i s1 h1
      have e1 := Store_write_none h1
      have e2 := ih s1 s' h
      rw [e2, e1]
      have hdb : dbWrites ((hd, w) :: steps) = dbWrites [(hd, w)] ++ dbWrites steps := by
        simp only [dbWrites]
        rw [← List.filterMap_append]
        rfl
      have htx : txWrites ((hd, w) :: steps) = txWrites [(hd, w)] ++ txWrites steps := by
        simp only [txWrites]
        rw [← List.filterMap_append]
        rfl
      simp [hdb, htx, extendTx_append, Tables_applyAll_append]

theorem runSteps_some (env : Env) (steps : List (Handle × Write)) :
    ∀ (s s' : Store) (e : Err), runSteps env steps s = (some e, s') →
      ∃ (done : List (Handle × Write)) (h : Handle) (w : Write) (rest : List (Handle × Write)),
        steps = done ++ (h, w) :: rest ∧
        s' = { committed := s.committed.applyAll (dbWrites done),
               tx := extendTx s.tx (txWrites done),
               trace := s.trace ++ done.map acceptedStep ++ [⟨.write h w, some e⟩] } := by
  induction steps with
  | nil =>
    intro s s' e h
    simp [runSteps] at h
  | cons hw steps ih =>
    intro s s' e h
    obtain ⟨hd, w⟩ := hw
    unfold runSteps at h
    split at h
    · rename_i e1 s1 h1
      simp only [Prod.mk.injEq, Option.some.injEq] at h
      obtain ⟨rfl, rfl⟩ := h
      refine ⟨[], hd, w, steps, rfl, ?_⟩
      rw [Store_write_some h1]
      cases htx : s.tx <;> simp [dbWrites, txWrites, extendTx, Tables.applyAll]
    · rename_i s1 h1
      have e1 := Store_write_none h1
      obtain ⟨done, h2, w2, rest, hsteps, hs'⟩ := ih s1 s' e h
      refine ⟨(hd, w) :: done, h2, w2, rest, by rw [hsteps]; rfl, ?_⟩
      rw [hs', e1]
      have hdb : dbWrites ((hd, w) :: done) = dbWrites [(hd, w)] ++ dbWrites done := by
        simp only [dbWrites]
        rw [← List.filterMap_append]
        rfl
      have htx : txWrites ((hd, w) :: done) = txWrites [(hd, w)] ++ txWrites done := by
        simp only [txWrites]
        rw [← List.filterMap_append]
        rfl
      simp [hdb, htx, extendTx_append, Tables_applyAll_append]

theorem runSteps_append (env : Env) (a b : List (Handle × Write)) :
    ∀ s : Store, runSteps env (a ++ b) s =
      match runSteps env a s with
      | (some e, s') => (some e, s')
      | (none, s') => runSteps env b s' := by
  induction a with
  | nil => intro s; rfl
  | cons hw a ih =>
    intro s
    obtain ⟨h, w⟩ := hw
    simp only [List.cons_append, runSteps]
    cases hres : s.write env h w w with
    | mk e s1 =>
      cases e with
      | none => exact ih s1
      | some e => rfl

theorem deleteNodes_eq (env : Env) (ns : List ClusterNode) :
    ∀ s : Store, deleteNodes env ns s =
      match runSteps env (ns.map (fun n => (Handle.tx, Write.delete .node n.ID))) s with
      | (some e, s') => (some e, (s'.rollback env).2)
      | (none, s') => (none, s') := by
  induction ns with
  | nil => intro s; rfl
  | cons n ns ih =>
    intro s
    simp only [deleteNodes, List.map_cons, runSteps, Store.delete]
    cases hres : s.write env .tx (.delete .node n.ID) (.delete .node n.ID) with
    | mk e s1 =>
      cases e with
      | none => exact ih s1
      | some e => rfl

theorem deleteIf_eq (env : Env) (s : Store) (cond : Prop) [Decidable cond] (h : Handle)
    (tbl : Table) (id : String) :
    (if cond then s.delete env h tbl id else (none, s)) =
      runSteps env (if cond then [(h, Write.delete tbl id)] else []) s := by
  split_ifs
  · simp only [runSteps, Store.delete]
    cases hres : s.write env h (.delete tbl id) (.delete tbl id) with
    | mk e s1 => cases e <;> rfl
  · rfl

theorem BeforeDelete_eq (env : Env) (c : Cluster) (t : Tables) :
    c.BeforeDelete env t =
      match ({ committed := t } : Store).first env { ID := c.ID } with
      | (some err, _, s) => ⟨some err, c, s⟩
      | (none, cluster, s) =>
        match runSteps env (deleteRequests cluster) (s.begin env) with
        | (some err, s) => ⟨some err, c, (s.rollback env).2⟩
        | (none, s) => ⟨none, c, (s.commit env).2⟩ := by
  unfold Cluster.BeforeDelete
  dsimp only
  cases hf : ({ committed := t } : Store).first env { ID := c.ID } with
  | mk e rest =>
    obtain ⟨cluster, s0⟩ := rest
    cases e with
    | some e => rfl
    | none =>
      dsimp only
      simp only [deleteIf_eq, deleteNodes_eq, deleteRequests, runSteps_append]
      cases h1 : runSteps env
          (if cluster.SpecID ≠ "" then [(Handle.db, Write.delete Table.spec cluster.SpecID)]
            else []) (s0.begin env) with
      | mk e1 s1 =>
        cases e1 with
        | some e1 => rfl
        | none =>
          dsimp only
          cases h2 : runSteps env
              (if cluster.StatusID ≠ "" then
                [(Handle.tx, Write.delete Table.status cluster.StatusID)] else []) s1 with
          | mk e2 s2 =>
            cases e2 with
            | some e2 => rfl
            | none =>
              dsimp only
              cases h3 : runSteps env
                  (if cluster.SecretID ≠ "" then
                    [(Handle.db, Write.delete Table.secret cluster.SecretID)] else []) s2 with
              | mk e3 s3 =>
                cases e3 with
                | some e3 => rfl
                | none =>
                  dsimp only
                  cases h4 : runSteps env
                      (cluster.Nodes.map (fun n => (Handle.tx, Write.delete Table.node n.ID)))
                      s3 with
                  | mk e4 s4 => cases e4 <;> rfl

theorem BeforeDelete_shape (env : Env) (c : Cluster) (t : Tables) :
    (∃ e, env.outcome 0 = some e ∧
      c.BeforeDelete env t =
        ⟨some e, c, { committed := t, tx := .idle, trace := [⟨.first c.ID, some e⟩] }⟩) ∨
    (env.outcome 0 = none ∧ ∃ ce : Option Err,
      (c.BeforeDelete env t).err = none ∧
      (c.BeforeDelete env t).store.trace =
        [⟨.first c.ID, none⟩, ⟨.begin, env.outcome 1⟩] ++
          (deleteRequests (env.find c.ID)).map acceptedStep ++ [⟨.commit, ce⟩] ∧
      (c.BeforeDelete env t).store.committed =
        (if ce = none then
          (t.applyAll (dbWrites (deleteRequests (env.find c.ID)))).applyAll
            (txWrites (deleteRequests (env.find c.ID)))
         else t.applyAll (dbWrites (deleteRequests (env.find c.ID))))) ∨
    (env.outcome 0 = none ∧
      ∃ (e : Err) (done : List (Handle × Write)) (h : Handle) (w : Write)
        (rest : List (Handle × Write)) (re : Option Err),
      (c.BeforeDelete env t).err = some e ∧
      deleteRequests (env.find c.ID) = done ++ (h, w) :: rest ∧
      (c.BeforeDelete env t).store.trace =
        [⟨.first c.ID, none⟩, ⟨.begin, env.outcome 1⟩] ++ done.map acceptedStep ++
          [⟨.write h w, some e⟩, ⟨.rollback, re⟩] ∧
      (c.BeforeDelete env t).store.committed = t.applyAll (dbWrites done)) := by
  rw [BeforeDelete_eq]
  unfold Store.first
  dsimp only
  cases h0 : env.outcome ([] : List Event).length with
  | some e =>
    left
    exact ⟨e, h0, rfl⟩
  | none =>
    right
    have h0' : env.outcome 0 = none := h0
    dsimp only
    generalize hs0 : Store.begin env { committed := t, tx := .idle,
                                       trace := [] ++ [⟨.first c.ID, none⟩] } = s0
    cases hrun : runSteps env (deleteRequests (env.find c.ID)) s0 with
    | mk e s1 =>
      cases e with
      | none =>
        left
        have hs := runSteps_none env _ _ _ hrun
        subst hs
        subst hs0
        refine ⟨h0', ?_⟩
        dsimp only
        unfold Store.commit Store.begin
        dsimp only [List.nil_append, List.length_singleton, List.length_cons, List.length_nil]
        cases h1 : env.outcome (0 + 1) with
        | none =>
          have h1' : env.outcome 1 = none := h1
          simp only [extendTx, List.nil_append, h1']
          cases hc : env.outcome
              (([⟨.first c.ID, none⟩] ++ [⟨.begin, none⟩] ++
                List.map acceptedStep (deleteRequests (env.find c.ID)) : List Event).length) with
          | none => exact ⟨none, trivial, by simp, by simp⟩
          | some ce => exact ⟨some ce, trivial, by simp, by simp⟩
        | some b =>
          have h1' : env.outcome 1 = some b := h1
          simp only [extendTx, h1']
          exact ⟨some b, trivial, by simp, by simp⟩
      | some e =>
        right
        obtain ⟨done, h, w, rest, hreq, hs⟩ := runSteps_some env _ _ _ _ hrun
        refine ⟨h0', e, done, h, w, rest, (s1.rollback env).1, rfl, hreq, ?_, ?_⟩
        · dsimp only
          rw [Store.rollback_trace, hs, ← hs0]
          simp [Store.begin]
        · dsimp only
          rw [Store.rollback_committed, hs, ← hs0]
          simp [Store.begin]

/-! ## Properties of `BeforeDelete` -/

/-- C14 (delete of a missing cluster): when the initial load fails with error
`e`, `BeforeDelete` returns `e`; the load is the only request it issued, so no
transaction is begun and no delete is issued, and the store is unchanged. -/
theorem C14_delete_missing (env : Env) (c : Cluster) (t : Tables) (e : Err)
    (hload : env.outcome 0 = some e) :
    (c.BeforeDelete env t).err = some e ∧
    (c.BeforeDelete env t).store.trace = [⟨.first c.ID, some e⟩] ∧
    (c.BeforeDelete env t).store.tx = .idle ∧
    (c.BeforeDelete env t).store.committed = t := by
  rcases BeforeDelete_shape env c t with ⟨e', h0, h⟩ | ⟨h0, -⟩ | ⟨h0, -⟩
  · rw [hload] at h0
    cases h0
    rw [h]
    exact ⟨rfl, rfl, rfl, rfl⟩
  · rw [hload] at h0; cases h0
  · rw [hload] at h0; cases h0

/-- C14 at a store whose load answers "record not found". -/
theorem C14_delete_missing_witness :
    exampleLoadFailsEnv.outcome 0 = some "record not found" ∧
    (exampleLoaded.BeforeDelete exampleLoadFailsEnv exampleDeleteTables).err =
      some "record not found" ∧
    (exampleLoaded.BeforeDelete exampleLoadFailsEnv exampleDeleteTables).store.trace =
      [⟨.first "c-1", some "record not found"⟩] ∧
    (exampleLoaded.BeforeDelete exampleLoadFailsEnv exampleDeleteTables).store.committed =
      exampleDeleteTables := by
  have h := C14_delete_missing exampleLoadFailsEnv exampleLoaded exampleDeleteTables
    "record not found" rfl
  exact ⟨rfl, h.1, h.2.1, h.2.2.2⟩

theorem deleteRequests_onSourceHandle (cluster : Cluster) :
    ∀ hw ∈ deleteRequests cluster, onSourceHandle hw = true := by
  intro hw hmem
  simp only [deleteRequests, List.mem_append, List.mem_map] at hmem
  rcases hmem with ((h | h) | h) | ⟨n, -, rfl⟩
  · split_ifs at h
    · simp only [List.mem_singleton] at h; subst h; rfl
    · simp at h
  · split_ifs at h
    · simp only [List.mem_singleton] at h; subst h; rfl
    · simp at h
  · split_ifs at h
    · simp only [List.mem_singleton] at h; subst h; rfl
    · simp at h
  · rfl

theorem mem_dbWrites {steps : List (Handle × Write)} {w : Write} (h : w ∈ dbWrites steps) :
    (Handle.db, w) ∈ steps := by
  simp only [dbWrites, List.mem_filterMap] at h
  obtain ⟨⟨hd, w'⟩, hmem, hw⟩ := h
  split_ifs at hw with hh
  simp only [Option.some.injEq] at hw
  simp only at hh
  subst hh; subst hw
  exact hmem

theorem mem_txWrites {steps : List (Handle × Write)} {w : Write} (h : w ∈ txWrites steps) :
    (Handle.tx, w) ∈ steps := by
  simp only [txWrites, List.mem_filterMap] at h
  obtain ⟨⟨hd, w'⟩, hmem, hw⟩ := h
  split_ifs at hw with hh
  simp only [Option.some.injEq] at hw
  simp only at hh
  subst hh; subst hw
  exact hmem

theorem mem_applyAll_deletes (ws : List Write) (hws : ∀ w ∈ ws, isDelete w = true) :
    ∀ (t : Tables) (x : Row),
      x ∈ t.applyAll ws ↔ x ∈ t ∧ ∀ w ∈ ws, removes w x = false := by
  induction ws with
  | nil => intro t x; simp [Tables.applyAll]
  | cons w ws ih =>
    intro t x
    have hw := hws w (List.mem_cons_self _ _)
    have ih' := ih (fun w' h' => hws w' (List.mem_cons_of_mem _ h')) (t.apply w) x
    simp only [Tables.applyAll, List.foldl_cons] at ih' ⊢
    rw [ih']
    cases w with
    | create r => simp [isDelete] at hw
    | save r => simp [isDelete] at hw
    | delete tbl id =>
      simp only [Tables.apply, List.mem_filter, removes, List.mem_cons, forall_eq_or_imp,
        Bool.not_eq_true']
      tauto

theorem filterMap_apply_delete {α : Type} (sel : Row → Option α) (tbl : Table) (id : String)
    (hsel : ∀ x : Row, (sel x).isSome = true → removes (.delete tbl id) x = false) :
    ∀ t : Tables, (t.apply (.delete tbl id)).filterMap sel = t.filterMap sel := by
  intro t
  simp only [Tables.apply]
  induction t with
  | nil => rfl
  | cons x t iht =>
    by_cases hx : (sel x).isSome = true
    · have hr := hsel x hx
      simp only [removes] at hr
      simp only [List.filter_cons, hr, Bool.not_false, if_true, List.filterMap_cons]
      rw [iht]
    · have hn : sel x = none := by
        cases hsx : sel x with
        | none => rfl
        | some a => simp [hsx] at hx
      by_cases hp : (!(x.selected tbl id)) = true
      · simp only [List.filter_cons, hp, if_true, List.filterMap_cons, hn]
        exact iht
      · simp only [List.filter_cons, hp, if_false, List.filterMap_cons, hn]
        exact iht

theorem filterMap_applyAll_deletes {α : Type} (sel : Row → Option α) (ws : List Write)
    (hws : ∀ w ∈ ws, isDelete w = true)
    (hsel : ∀ (x : Row) (w : Write), w ∈ ws → (sel x).isSome = true → removes w x = false) :
    ∀ t : Tables, (t.applyAll ws).filterMap sel = t.filterMap sel := by
  induction ws with
  | nil => intro t; rfl
  | cons w ws ih =>
    intro t
    have hw := hws w (List.mem_cons_self _ _)
    have ih' := ih (fun w' h' => hws w' (List.mem_cons_of_mem _ h'))
      (fun x w' h' hx => hsel x w' (List.mem_cons_of_mem _ h') hx) (t.apply w)
    simp only [Tables.applyAll, List.foldl_cons] at ih' ⊢
    rw [ih']
    cases w with
    | create r => simp [isDelete] at hw
    | save r => simp [isDelete] at hw
    | delete tbl id =>
      exact filterMap_apply_delete sel tbl id
        (fun x hx => hsel x _ (List.mem_cons_self _ _) hx) t

theorem BeforeDelete_trace_writes (env : Env) (c : Cluster) (t : Tables) :
    ∀ ev ∈ (c.BeforeDelete env t).store.trace, ∀ (h : Handle) (w : Write),
      ev.op = .write h w → (h, w) ∈ deleteRequests (env.find c.ID) := by
  intro ev hev h w hop
  rcases BeforeDelete_shape env c t with ⟨e, -, hr⟩ | ⟨-, ce, -, htr, -⟩ |
    ⟨-, e, done, h2, w2, rest, re, -, hreq, htr, -⟩
  · rw [hr] at hev
    simp only [List.mem_singleton] at hev
    subst hev
    cases hop
  · rw [htr] at hev
    simp only [List.mem_append, List.mem_cons, List.mem_singleton, List.mem_map,
      List.not_mem_nil, or_false] at hev
    rcases hev with ((rfl | rfl) | ⟨hw, hmem, rfl⟩) | rfl
    · cases hop
    · cases hop
    · simp only [acceptedStep, Op.write.injEq] at hop
      obtain ⟨rfl, rfl⟩ := hop
      exact hmem
    · cases hop
  · rw [htr] at hev
    simp only [List.mem_append, List.mem_cons, List.mem_singleton, List.mem_map,
      List.not_mem_nil, or_false] at hev
    rcases hev with ((rfl | rfl) | ⟨hw, hmem, rfl⟩) | rfl | rfl
    · cases hop
    · cases hop
    · simp only [acceptedStep, Op.write.injEq] at hop
      obtain ⟨rfl, rfl⟩ := hop
      rw [hreq]
      exact List.mem_append_left _ hmem
    · simp only [Op.write.injEq] at hop
      obtain ⟨rfl, rfl⟩ := hop
      rw [hreq]
      simp
    · cases hop

theorem BeforeDelete_committed (env : Env) (c : Cluster) (t : Tables) :
    ∃ ws : List Write, (c.BeforeDelete env t).store.committed = t.applyAll ws ∧
      ∀ w ∈ ws, ∃ h : Handle, (h, w) ∈ deleteRequests (env.find c.ID) := by
  rcases BeforeDelete_shape env c t with ⟨e, -, hr⟩ | ⟨-, ce, -, -, hcm⟩ |
    ⟨-, e, done, h2, w2, rest, re, -, hreq, -, hcm⟩
  · exact ⟨[], by rw [hr]; rfl, by simp⟩
  · by_cases hce : ce = none
    · refine ⟨dbWrites (deleteRequests (env.find c.ID)) ++
        txWrites (deleteRequests (env.find c.ID)), ?_, ?_⟩
      · rw [hcm, if_pos hce, Tables_applyAll_append]
      · intro w hw
        rcases List.mem_append.1 hw with h | h
        · exact ⟨.db, mem_dbWrites h⟩
        · exact ⟨.tx, mem_txWrites h⟩
    · refine ⟨dbWrites (deleteRequests (env.find c.ID)), ?_, ?_⟩
      · rw [hcm, if_neg hce]
      · intro w hw
        exact ⟨.db, mem_dbWrites hw⟩
  · refine ⟨dbWrites done, hcm, ?_⟩
    intro w hw
    refine ⟨.db, ?_⟩
    rw [hreq]
    exact List.mem_append_left _ (mem_dbWrites hw)

theorem onSourceHandle_isDelete {h : Handle} {w : Write} (hw : onSourceHandle (h, w) = true) :
    isDelete w = true := by
  cases w with
  | create r => cases h <;> simp [onSourceHandle] at hw
  | save r => cases h <;> simp [onSourceHandle] at hw
  | delete tbl id => rfl

theorem onSourceHandle_table {h : Handle} {w : Write} (hw : onSourceHandle (h, w) = true) :
    writeTable w ≠ .tool ∧ writeTable w ≠ .host := by
  cases w with
  | create r => cases h <;> simp [onSourceHandle] at hw
  | save r => cases h <;> simp [onSourceHandle] at hw
  | delete tbl id => cases h <;> cases tbl <;> simp [onSourceHandle, writeTable] at hw ⊢

theorem onSourceHandle_removes {h : Handle} {w : Write} (hw : onSourceHandle (h, w) = true)
    (x : Row) (hx : x.table = .tool ∨ x.table = .host) : removes w x = false := by
  cases w with
  | create r => rfl
  | save r => rfl
  | delete tbl id =>
    have ht := onSourceHandle_table hw
    simp only [writeTable] at ht
    simp only [removes, Row.selected, Bool.and_eq_false_imp, decide_eq_true_eq]
    intro h1
    rcases hx with hx | hx
    · exact absurd (hx.symm.trans h1).symm ht.1
    · exact absurd (hx.symm.trans h1).symm ht.2

/-- C20: `BeforeDelete` issues no request on a tool record or a host record;
in every execution the tool rows and the host rows of the store are unchanged,
so every host that carried the identity of the cluster as owner still carries
it afterwards. -/
theorem C20_delete_keeps_tools_and_hosts (env : Env) (c : Cluster) (t : Tables) :
    (c.BeforeDelete env t).store.trace.all leavesToolsAndHosts = true ∧
    toolsOf (c.BeforeDelete env t).store.committed = toolsOf t ∧
    hostsOf (c.BeforeDelete env t).store.committed = hostsOf t ∧
    (hostsOf (c.BeforeDelete env t).store.committed).filter
        (fun x => decide (x.ClusterID = c.ID)) =
      (hostsOf t).filter (fun x => decide (x.ClusterID = c.ID)) := by
  have htrace : (c.BeforeDelete env t).store.trace.all leavesToolsAndHosts = true := by
    rw [List.all_eq_true]
    intro ev hev
    cases hop : ev.op with
    | write h w =>
      have hmem := BeforeDelete_trace_writes env c t ev hev h w hop
      have hs := deleteRequests_onSourceHandle _ _ hmem
      simp only [leavesToolsAndHosts, hop]
      exact decide_eq_true (onSourceHandle_table hs)
    | begin => simp [leavesToolsAndHosts, hop]
    | commit => simp [leavesToolsAndHosts, hop]
    | rollback => simp [leavesToolsAndHosts, hop]
    | first id => simp [leavesToolsAndHosts, hop]
  obtain ⟨ws, hcm, hws⟩ := BeforeDelete_committed env c t
  have hdel : ∀ w ∈ ws, isDelete w = true := by
    intro w hw
    obtain ⟨h, hmem⟩ := hws w hw
    exact onSourceHandle_isDelete (deleteRequests_onSourceHandle _ _ hmem)
  have htools : toolsOf (c.BeforeDelete env t).store.committed = toolsOf t := by
    rw [hcm]
    refine filterMap_applyAll_deletes Row.tool? ws hdel ?_ t
    intro x w hw hx
    obtain ⟨h, hmem⟩ := hws w hw
    refine onSourceHandle_removes (deleteRequests_onSourceHandle _ _ hmem) x (Or.inl ?_)
    cases x <;> simp_all [Row.tool?, Row.table]
  have hhosts : hostsOf (c.BeforeDelete env t).store.committed = hostsOf t := by
    rw [hcm]
    refine filterMap_applyAll_deletes Row.host? ws hdel ?_ t
    intro x w hw hx
    obtain ⟨h, hmem⟩ := hws w hw
    refine onSourceHandle_removes (deleteRequests_onSourceHandle _ _ hmem) x (Or.inr ?_)
    cases x <;> simp_all [Row.host?, Row.table]
  exact ⟨htrace, htools, hhosts, by rw [hhosts]⟩

theorem mem_dbWrites_of_mem {steps : List (Handle × Write)} {w : Write}
    (h : (Handle.db, w) ∈ steps) : w ∈ dbWrites steps := by
  simp only [dbWrites, List.mem_filterMap]
  exact ⟨(Handle.db, w), h, by simp⟩

theorem mem_txWrites_of_mem {steps : List (Handle × Write)} {w : Write}
    (h : (Handle.tx, w) ∈ steps) : w ∈ txWrites steps := by
  simp only [txWrites, List.mem_filterMap]
  exact ⟨(Handle.tx, w), h, by simp⟩

theorem deleteRequests_writes (cluster : Cluster) :
    (deleteRequests cluster).map Prod.snd =
      (if cluster.SpecID ≠ "" then [Write.delete .spec cluster.SpecID] else []) ++
      (if cluster.StatusID ≠ "" then [Write.delete .status cluster.StatusID] else []) ++
      (if cluster.SecretID ≠ "" then [Write.delete .secret cluster.SecretID] else []) ++
      cluster.Nodes.map (fun n => Write.delete .node n.ID) := by
  simp only [deleteRequests, List.map_append, List.map_map]
  split_ifs <;> rfl

theorem not_mem_applyAll_of_removes (ws : List Write) (hws : ∀ w ∈ ws, isDelete w = true)
    (t : Tables) (w : Write) (hw : w ∈ ws) (x : Row) (hx : removes w x = true) :
    x ∉ t.applyAll ws := by
  intro hmem
  have h := ((mem_applyAll_deletes ws hws t x).1 hmem).2 w hw
  rw [hx] at h
  cases h

theorem deleteRequests_isDelete (cluster : Cluster) (steps : List (Handle × Write))
    (hsub : ∀ hw ∈ steps, hw ∈ deleteRequests cluster) :
    (∀ w ∈ dbWrites steps, isDelete w = true) ∧ (∀ w ∈ txWrites steps, isDelete w = true) := by
  constructor
  · intro w hw
    exact onSourceHandle_isDelete
      (deleteRequests_onSourceHandle _ _ (hsub _ (mem_dbWrites hw)))
  · intro w hw
    exact onSourceHandle_isDelete
      (deleteRequests_onSourceHandle _ _ (hsub _ (mem_txWrites hw)))

/-- The deletes of `BeforeDelete`: when it returns no error, the deletes it
issued are, in this order: the specification with the recorded `SpecID` iff `SpecID` is not
empty, the status with `StatusID` iff not empty, the secret with `SecretID`
iff not empty, then one delete per attached node, carrying the identity of the
node, in the order of `Nodes`; all were accepted.  Afterwards the store holds
no specification and no secret with the recorded identity, and, if the store
accepted the commit, no status with the recorded identity and no node with
the identity of an attached node. -/
theorem delete_requests_of_nil (env : Env) (c : Cluster) (t : Tables)
    (h : (c.BeforeDelete env t).err = none) :
    (c.BeforeDelete env t).store.trace.filterMap (fun ev => writeOf ev.op) =
      (if (env.find c.ID).SpecID ≠ "" then [Write.delete .spec (env.find c.ID).SpecID]
        else []) ++
      (if (env.find c.ID).StatusID ≠ "" then [Write.delete .status (env.find c.ID).StatusID]
        else []) ++
      (if (env.find c.ID).SecretID ≠ "" then [Write.delete .secret (env.find c.ID).SecretID]
        else []) ++
      (env.find c.ID).Nodes.map (fun n => Write.delete .node n.ID) ∧
    (∀ ev ∈ (c.BeforeDelete env t).store.trace, (writeOf ev.op).isSome = true →
      ev.err = none) ∧
    ((env.find c.ID).SpecID ≠ "" → ∀ x ∈ (c.BeforeDelete env t).store.committed,
      ¬ (x.table = .spec ∧ x.ID = (env.find c.ID).SpecID)) ∧
    ((env.find c.ID).SecretID ≠ "" → ∀ x ∈ (c.BeforeDelete env t).store.committed,
      ¬ (x.table = .secret ∧ x.ID = (env.find c.ID).SecretID)) ∧
    ((c.BeforeDelete env t).store.trace.getLast?.map Event.err = some none →
      ((env.find c.ID).StatusID ≠ "" → ∀ x ∈ (c.BeforeDelete env t).store.committed,
        ¬ (x.table = .status ∧ x.ID = (env.find c.ID).StatusID)) ∧
      (∀ n ∈ (env.find c.ID).Nodes, ∀ x ∈ (c.BeforeDelete env t).store.committed,
        ¬ (x.table = .node ∧ x.ID = n.ID))) := by
  rcases BeforeDelete_shape env c t with ⟨e, -, hr⟩ | ⟨-, ce, -, htr, hcm⟩ |
    ⟨-, e, done, h2, w2, rest, re, herr, -, -, -⟩
  · rw [hr] at h; cases h
  · obtain ⟨hdb, htx⟩ := deleteRequests_isDelete (env.find c.ID)
      (deleteRequests (env.find c.ID)) (fun _ hw => hw)
    have hall : ∀ w ∈ dbWrites (deleteRequests (env.find c.ID)) ++
        txWrites (deleteRequests (env.find c.ID)), isDelete w = true := by
      intro w hw
      rcases List.mem_append.1 hw with h' | h'
      · exact hdb w h'
      · exact htx w h'
    have hgone_db : ∀ (w : Write) (x : Row),
        (Handle.db, w) ∈ deleteRequests (env.find c.ID) → removes w x = true →
        x ∉ (c.BeforeDelete env t).store.committed := by
      intro w x hw hx
      rw [hcm]
      split_ifs
      · rw [Tables_applyAll_append]
        exact not_mem_applyAll_of_removes _ hall t w
          (List.mem_append_left _ (mem_dbWrites_of_mem hw)) x hx
      · exact not_mem_applyAll_of_removes _ hdb t w (mem_dbWrites_of_mem hw) x hx
    refine ⟨?_, ?_, ?_, ?_, ?_⟩
    · rw [htr, ← deleteRequests_writes]
      simp only [List.filterMap_append, List.filterMap_cons, writeOf, List.filterMap_nil,
        List.nil_append, List.append_nil, List.filterMap_map]
      rw [← filterMap_some_fun]
      rfl
    · intro ev hev hw
      rw [htr] at hev
      simp only [List.mem_append, List.mem_cons, List.mem_singleton, List.mem_map,
        List.not_mem_nil, or_false] at hev
      rcases hev with ((rfl | rfl) | ⟨x, -, rfl⟩) | rfl
      · rfl
      · simp [writeOf] at hw
      · rfl
      · simp [writeOf] at hw
    · intro hne x hx hxx
      refine hgone_db (.delete .spec (env.find c.ID).SpecID) x ?_ ?_ hx
      · simp [deleteRequests, hne]
      · simp [removes, Row.selected, hxx.1, hxx.2]
    · intro hne x hx hxx
      refine hgone_db (.delete .secret (env.find c.ID).SecretID) x ?_ ?_ hx
      · simp [deleteRequests, hne]
      · simp [removes, Row.selected, hxx.1, hxx.2]
    · intro hlast
      have hce : ce = none := by
        rw [htr, List.getLast?_concat] at hlast
        simpa using hlast
      have hgone_tx : ∀ (w : Write) (x : Row),
          (Handle.tx, w) ∈ deleteRequests (env.find c.ID) → removes w x = true →
          x ∉ (c.BeforeDelete env t).store.committed := by
        intro w x hw hx
        rw [hcm, if_pos hce, Tables_applyAll_append]
        exact not_mem_applyAll_of_removes _ hall t w
          (List.mem_append_right _ (mem_txWrites_of_mem hw)) x hx
      refine ⟨?_, ?_⟩
      · intro hne x hx hxx
        refine hgone_tx (.delete .status (env.find c.ID).StatusID) x ?_ ?_ hx
        · simp [deleteRequests, hne]
        · simp [removes, Row.selected, hxx.1, hxx.2]
      · intro n hn x hx hxx
        refine hgone_tx (.delete .node n.ID) x ?_ ?_ hx
        · simp only [deleteRequests, List.mem_append, List.mem_map]
          exact Or.inr ⟨n, hn, rfl⟩
        · simp [removes, Row.selected, hxx.1, hxx.2]
  · rw [herr] at h; cases h

/-- The deletes of `BeforeDelete` at the example: all four kinds of delete are
issued, in order, and the rows of the cluster are gone from the store. -/
theorem delete_requests_of_nil_example :
    (exampleLoaded.BeforeDelete exampleDeleteEnv exampleDeleteTables).err = none ∧
    (exampleLoaded.BeforeDelete exampleDeleteEnv exampleDeleteTables).store.trace.filterMap
        (fun ev => writeOf ev.op) =
      [.delete .spec "s1", .delete .status "t1", .delete .secret "k1",
       .delete .node "n1", .delete .node "n2"] ∧
    (exampleLoaded.BeforeDelete exampleDeleteEnv exampleDeleteTables).store.committed =
      [ .node { ID := "n9", Name := "x1", HostID := "h9", ClusterID := "c-2" },
        .host { ID := "h1", Name := "host-1", ClusterID := "c-1" },
        .host { ID := "h2", Name := "host-2", ClusterID := "c-1" },
        .tool { ID := "p1", Name := "prometheus", ClusterID := "c-1" } ] := by
  have he : (exampleLoaded.BeforeDelete exampleDeleteEnv exampleDeleteTables).err = none := by
    decide
  have h := delete_requests_of_nil exampleDeleteEnv exampleLoaded exampleDeleteTables he
  exact ⟨he, h.1.trans (by decide), by decide⟩

theorem onSourceHandle_db_removes {w : Write} (hw : onSourceHandle (Handle.db, w) = true)
    (x : Row) (hx : x.table = .status ∨ x.table = .node) : removes w x = false := by
  cases w with
  | create r => rfl
  | save r => rfl
  | delete tbl id =>
    cases tbl <;> simp [onSourceHandle] at hw <;>
      rcases hx with hx | hx <;> simp [removes, Row.selected, hx]

/-- C17, as the code has it: in every execution of `BeforeDelete` every write
request is a delete, the specification delete and the secret delete being
issued on `db.DB`, outside the transaction, the status delete and every node
delete on the transaction handle `tx`; so when `BeforeDelete` returns an
error, the status rows and the node rows of the store are those from before
the call. -/
theorem C17_delete_handles (env : Env) (c : Cluster) (t : Tables) :
    (c.BeforeDelete env t).store.trace.all eventOnSourceHandle = true ∧
    ((c.BeforeDelete env t).err = none →
      (c.BeforeDelete env t).store.trace.map Event.op =
        [Op.first c.ID, Op.begin] ++
        (if (env.find c.ID).SpecID ≠ "" then
          [Op.write .db (.delete .spec (env.find c.ID).SpecID)] else []) ++
        (if (env.find c.ID).StatusID ≠ "" then
          [Op.write .tx (.delete .status (env.find c.ID).StatusID)] else []) ++
        (if (env.find c.ID).SecretID ≠ "" then
          [Op.write .db (.delete .secret (env.find c.ID).SecretID)] else []) ++
        (env.find c.ID).Nodes.map (fun n => Op.write .tx (.delete .node n.ID)) ++
        [Op.commit]) ∧
    ((c.BeforeDelete env t).err ≠ none →
      statusesOf (c.BeforeDelete env t).store.committed = statusesOf t ∧
      nodesOf (c.BeforeDelete env t).store.committed = nodesOf t) := by
  refine ⟨?_, ?_, ?_⟩
  · rw [List.all_eq_true]
    intro ev hev
    cases hop : ev.op with
    | write h w =>
      simp only [eventOnSourceHandle, hop]
      exact deleteRequests_onSourceHandle _ _ (BeforeDelete_trace_writes env c t ev hev h w hop)
    | begin => simp [eventOnSourceHandle, hop]
    | commit => simp [eventOnSourceHandle, hop]
    | rollback => simp [eventOnSourceHandle, hop]
    | first id => simp [eventOnSourceHandle, hop]
  · intro h
    rcases BeforeDelete_shape env c t with ⟨e, -, hr⟩ | ⟨-, ce, -, htr, -⟩ |
      ⟨-, e, done, h2, w2, rest, re, herr, -, -, -⟩
    · rw [hr] at h; cases h
    · rw [htr]
      simp only [deleteRequests, List.map_append, List.map_cons, List.map_nil, List.map_map]
      split_ifs <;> rfl
    · rw [herr] at h; cases h
  · intro h
    rcases BeforeDelete_shape env c t with ⟨e, -, hr⟩ | ⟨-, ce, herr, -, -⟩ |
      ⟨-, e, done, h2, w2, rest, re, -, hreq, -, hcm⟩
    · rw [hr]; exact ⟨rfl, rfl⟩
    · exact absurd herr h
    · have hsub : ∀ hw ∈ done, hw ∈ deleteRequests (env.find c.ID) := by
        intro hw hmem
        rw [hreq]
        exact List.mem_append_left _ hmem
      have hdel := (deleteRequests_isDelete (env.find c.ID) done hsub).1
      have hrem : ∀ (x : Row) (w : Write), w ∈ dbWrites done →
          x.table = .status ∨ x.table = .node → removes w x = false := by
        intro x w hw hx
        exact onSourceHandle_db_removes
          (deleteRequests_onSourceHandle _ _ (hsub _ (mem_dbWrites hw))) x hx
      rw [hcm]
      constructor
      · refine filterMap_applyAll_deletes statusRow? _ hdel ?_ t
        intro x w hw hx
        refine hrem x w hw (Or.inl ?_)
        cases x <;> simp_all [statusRow?, Row.table]
      · refine filterMap_applyAll_deletes Row.node? _ hdel ?_ t
        intro x w hw hx
        refine hrem x w hw (Or.inr ?_)
        cases x <;> simp_all [Row.node?, Row.table]

/-- C17 as stated fails: with a recorded secret identity, the one secret
delete of `BeforeDelete` is issued on `db.DB`, not on the transaction; and
when a later node delete fails and the transaction is rolled back, the secret
row stays deleted while the status row is still there. -/
theorem C17_secret_delete_outside_transaction :
    secretDeletes (exampleLoaded.BeforeDelete exampleDeleteEnv
      exampleDeleteTables).store.trace = [(Handle.db, "k1")] ∧
    (exampleLoaded.BeforeDelete exampleNodeDeleteFailsEnv exampleDeleteTables).err =
      some "lock timeout" ∧
    (exampleLoaded.BeforeDelete exampleNodeDeleteFailsEnv
      exampleDeleteTables).store.trace.getLast? = some ⟨.rollback, none⟩ ∧
    (exampleLoaded.BeforeDelete exampleNodeDeleteFailsEnv
      exampleDeleteTables).store.committed.filterMap secretRow? = [] ∧
    exampleDeleteTables.filterMap secretRow? = [{ ID := "k1" }] ∧
    statusesOf (exampleLoaded.BeforeDelete exampleNodeDeleteFailsEnv
      exampleDeleteTables).store.committed = [{ ID := "t1" }] := by
  decide

/-- C17 (as the code has it) at a store that fails the delete of the first
node. -/
theorem C17_delete_handles_witness :
    (exampleLoaded.BeforeDelete exampleNodeDeleteFailsEnv exampleDeleteTables).err ≠ none ∧
    statusesOf (exampleLoaded.BeforeDelete exampleNodeDeleteFailsEnv
      exampleDeleteTables).store.committed = statusesOf exampleDeleteTables ∧
    (exampleLoaded.BeforeDelete exampleDeleteEnv exampleDeleteTables).err = none ∧
    (exampleLoaded.BeforeDelete exampleDeleteEnv exampleDeleteTables).store.trace.map
        Event.op =
      [.first "c-1", .begin, .write .db (.delete .spec "s1"),
       .write .tx (.delete .status "t1"), .write .db (.delete .secret "k1"),
       .write .tx (.delete .node "n1"), .write .tx (.delete .node "n2"), .commit] := by
  have he : (exampleLoaded.BeforeDelete exampleNodeDeleteFailsEnv exampleDeleteTables).err ≠
      none := by decide
  have hn : (exampleLoaded.BeforeDelete exampleDeleteEnv exampleDeleteTables).err = none := by
    decide
  exact ⟨he,
    ((C17_delete_handles exampleNodeDeleteFailsEnv exampleLoaded exampleDeleteTables).2.2 he).1,
    hn,
    ((C17_delete_handles exampleDeleteEnv exampleLoaded exampleDeleteTables).2.1 hn).trans
      (by decide)⟩

/-! ## Opening and closing of the transaction -/

theorem filter_eq_nil_of_quiet (l : List Event) (hl : l.all quiet = true) :
    l.filter (fun ev => isBegin ev.op) = [] ∧ l.filter (fun ev => isClose ev.op) = [] ∧
    l.any Event.failedStep = false := by
  induction l with
  | nil => simp
  | cons a l ih =>
    simp only [List.all_cons, Bool.and_eq_true] at hl
    obtain ⟨h1, h2, h3⟩ := ih hl.2
    have ha := hl.1
    simp only [quiet, Bool.and_eq_true, Bool.not_eq_true'] at ha
    obtain ⟨⟨a1, a2⟩, a3⟩ := ha
    refine ⟨?_, ?_, ?_⟩
    · simp only [List.filter_cons, a1, h1]
      rfl
    · simp only [List.filter_cons, a2, h2]
      rfl
    · simp only [List.any_cons, a3, h3]
      rfl

theorem closedOnce_of_shape (pre mid tl : List Event) (b : Option Err)
    (hpre : pre.all quiet = true) (hmid : mid.all quiet = true) (htl : closingTail tl) :
    closedOnce (pre ++ ⟨.begin, b⟩ :: mid ++ tl) := by
  obtain ⟨p1, p2, p3⟩ := filter_eq_nil_of_quiet pre hpre
  obtain ⟨m1, m2, m3⟩ := filter_eq_nil_of_quiet mid hmid
  have hany : ∀ tl' : List Event, (pre ++ ⟨.begin, b⟩ :: mid ++ tl').any Event.failedStep =
      tl'.any Event.failedStep := by
    intro tl'
    simp only [List.any_append, List.any_cons, p3, m3, Bool.false_or, Bool.or_false]
    rfl
  rcases htl with ⟨ce, rfl⟩ | ⟨h, w, e, re, rfl⟩
  · refine ⟨?_, ?_, ⟨.commit, ce⟩, ?_, rfl, ?_, ?_, ?_⟩
    · simp only [List.filter_append, List.filter_cons, p1, m1]
      simp [isBegin]
    · simp only [List.filter_append, List.filter_cons, p2, m2]
      simp [isClose]
    · rw [List.getLast?_concat]
    · rw [hany]
      simp [Event.failedStep]
    · rw [hany]
      simp [Event.failedStep]
    · rw [hany]
      simp [Event.failedStep]
  · refine ⟨?_, ?_, ⟨.rollback, re⟩, ?_, rfl, ?_, ?_, ?_⟩
    · simp only [List.filter_append, List.filter_cons, p1, m1]
      simp [isBegin]
    · simp only [List.filter_append, List.filter_cons, p2, m2]
      simp [isClose]
    · have : pre ++ ⟨.begin, b⟩ :: mid ++ [⟨.write h w, some e⟩, ⟨.rollback, re⟩] =
          (pre ++ ⟨.begin, b⟩ :: mid ++ [⟨.write h w, some e⟩]) ++ [⟨.rollback, re⟩] := by
        simp
      rw [this, List.getLast?_concat]
    · rw [hany]
      simp [Event.failedStep]
    · rw [hany]
      simp [Event.failedStep]
    · intro _
      have hsplit : pre ++ Event.mk .begin b :: mid ++
          [Event.mk (.write h w) (some e), Event.mk .rollback re] =
          (pre ++ Event.mk .begin b :: mid ++ [Event.mk (.write h w) (some e)]) ++
            [Event.mk .rollback re] := by
        simp
      have e1 : (pre ++ Event.mk .begin b :: mid ++
          [Event.mk (.write h w) (some e), Event.mk .rollback re]).dropLast =
          (pre ++ Event.mk .begin b :: mid) ++ [Event.mk (.write h w) (some e)] := by
        rw [hsplit, List.dropLast_concat]
      refine ⟨⟨.write h w, some e⟩, ?_, rfl, ?_⟩
      · rw [e1, List.getLast?_concat]
      · rw [e1, List.dropLast_concat]
        have := hany []
        simpa using this

theorem quiet_accepted_write (h : Handle) (w : Write) :
    quiet ⟨.write h w, none⟩ = true := rfl

theorem createNodes_trace (env : Env) (cid : String) (ns : List ClusterNode) :
    ∀ s : Store, ∃ mid tl : List Event,
      (createNodes env cid ns s).2.2.trace = s.trace ++ mid ++ tl ∧ mid.all quiet = true ∧
      (((createNodes env cid ns s).1 = none ∧ tl = []) ∨
       ((createNodes env cid ns s).1 ≠ none ∧
        ∃ (h : Handle) (w : Write) (e : Err) (re : Option Err),
          tl = [⟨.write h w, some e⟩, ⟨.rollback, re⟩])) := by
  induction ns with
  | nil =>
    intro s
    exact ⟨[], [], by simp [createNodes], rfl, Or.inl ⟨rfl, rfl⟩⟩
  | cons n ns ih =>
    intro s
    unfold createNodes
    dsimp only
    split
    · rename_i e id s1 h1
      refine ⟨[], [⟨.write .tx (.create (.node { n with ClusterID := cid })), some e⟩,
        ⟨.rollback, (s1.rollback env).1⟩], ?_, rfl, Or.inr ⟨by simp, _, _, _, _, rfl⟩⟩
      dsimp only
      rw [Store.rollback_trace, Store.create_tx_some h1]
      simp
    · rename_i id s1 h1
      obtain ⟨-, log, -, -, hs1⟩ := Store.create_tx_none h1
      have hs1t : s1.trace = s.trace ++
          [⟨.write .tx (.create (.node { n with ClusterID := cid })), none⟩] := by rw [hs1]
      split
      · rename_i e s2 h2
        refine ⟨[⟨.write .tx (.create (.node { n with ClusterID := cid })), none⟩],
          [⟨.write .tx (.save (.host { ID := n.HostID, ClusterID := cid })), some e⟩,
           ⟨.rollback, (s2.rollback env).1⟩], ?_, rfl, Or.inr ⟨by simp, _, _, _, _, rfl⟩⟩
        dsimp only
        rw [Store.rollback_trace, Store.save_tx_some h2]
        simp [hs1t]
      · rename_i s2 h2
        obtain ⟨log2, -, -, hs2⟩ := Store.save_tx_none h2
        have hs2t : s2.trace = s.trace ++
            [⟨.write .tx (.create (.node { n with ClusterID := cid })), none⟩] ++
            [⟨.write .tx (.save (.host { ID := n.HostID, ClusterID := cid })), none⟩] := by
          rw [hs2, ← hs1t]
        obtain ⟨mid, tl, htr, hmid, hcase⟩ := ih s2
        cases hrec : createNodes env cid ns s2 with
        | mk e rest =>
          obtain ⟨rest', s3⟩ := rest
          simp only [hrec] at htr hcase ⊢
          refine ⟨[⟨.write .tx (.create (.node { n with ClusterID := cid })), none⟩,
            ⟨.write .tx (.save (.host { ID := n.HostID, ClusterID := cid })), none⟩] ++ mid,
            tl, ?_, ?_, ?_⟩
          · rw [htr, hs2t]
            simp
          · simp only [List.all_append, hmid, Bool.and_true]
            rfl
          · exact hcase

theorem createTools_trace (env : Env) (cid : String) (ts : List ClusterTool) :
    ∀ s : Store, ∃ mid tl : List Event,
      (createTools env cid ts s).2.trace = s.trace ++ mid ++ tl ∧ mid.all quiet = true ∧
      (((createTools env cid ts s).1 = none ∧ tl = []) ∨
       ((createTools env cid ts s).1 ≠ none ∧
        ∃ (h : Handle) (w : Write) (e : Err) (re : Option Err),
          tl = [⟨.write h w, some e⟩, ⟨.rollback, re⟩])) := by
  induction ts with
  | nil =>
    intro s
    exact ⟨[], [], by simp [createTools], rfl, Or.inl ⟨rfl, rfl⟩⟩
  | cons n ts ih =>
    intro s
    unfold createTools
    dsimp only
    split
    · rename_i e id s1 h1
      refine ⟨[], [⟨.write .tx (.create (.tool { n with ClusterID := cid })), some e⟩,
        ⟨.rollback, (s1.rollback env).1⟩], ?_, rfl, Or.inr ⟨by simp, _, _, _, _, rfl⟩⟩
      dsimp only
      rw [Store.rollback_trace, Store.create_tx_some h1]
      simp
    · rename_i id s1 h1
      obtain ⟨-, log, -, -, rfl⟩ := Store.create_tx_none h1
      obtain ⟨mid, tl, htr, hmid, hcase⟩ := ih
        { committed := s.committed,
          tx := .active (log ++ [Write.create ((Row.tool { n with ClusterID := cid }).withID id)]),
          trace := s.trace ++
            [⟨.write .tx (.create (.tool { n with ClusterID := cid })), none⟩] }
      refine ⟨[⟨.write .tx (.create (.tool { n with ClusterID := cid })), none⟩] ++ mid,
        tl, ?_, ?_, ?_⟩
      · dsimp only at htr ⊢
        rw [htr]
        simp
      · simp only [List.all_append, hmid, Bool.and_true]
        rfl
      · exact hcase

theorem BeforeCreate_trace_shape (env : Env) (K : constant.Values) (c : Cluster) (t : Tables) :
    ∃ (b : Option Err) (mid tl : List Event),
      (c.BeforeCreate env K t).store.trace = [] ++ ⟨.begin, b⟩ :: mid ++ tl ∧
      mid.all quiet = true ∧ closingTail tl := by
  have hb : (Store.begin env { committed := t }).trace = [⟨.begin, env.outcome 0⟩] := rfl
  unfold Cluster.BeforeCreate
  dsimp only
  split
  · rename_i e id s1 h1
    refine ⟨env.outcome 0, [], _, ?_, rfl, Or.inr ⟨.tx, .create (.spec c.Spec), e, (s1.rollback env).1, rfl⟩⟩
    dsimp only
    rw [Store.rollback_trace, Store.create_tx_some h1]
    simp [hb]
  · rename_i id1 s1 h1
    obtain ⟨-, log1, -, -, hs1⟩ := Store.create_tx_none h1
    have t1 : s1.trace = [⟨.begin, env.outcome 0⟩,
        ⟨.write .tx (.create (.spec c.Spec)), none⟩] := by rw [hs1]; simp [hb]
    split
    · rename_i e id s2 h2
      refine ⟨env.outcome 0, [⟨.write .tx (.create (.spec c.Spec)), none⟩], _, ?_, rfl,
        Or.inr ⟨.tx, .create (.status c.Status), e, (s2.rollback env).1, rfl⟩⟩
      dsimp only
      rw [Store.rollback_trace, Store.create_tx_some h2]
      simp [t1]
    · rename_i id2 s2 h2
      obtain ⟨-, log2, -, -, hs2⟩ := Store.create_tx_none h2
      have t2 : s2.trace = [⟨.begin, env.outcome 0⟩,
          ⟨.write .tx (.create (.spec c.Spec)), none⟩,
          ⟨.write .tx (.create (.status c.Status)), none⟩] := by rw [hs2]; simp [t1]
      split
      · rename_i e id s3 h3
        refine ⟨env.outcome 0, [⟨.write .tx (.create (.spec c.Spec)), none⟩,
          ⟨.write .tx (.create (.status c.Status)), none⟩], _, ?_, rfl,
          Or.inr ⟨.tx, .create (.secret c.Secret), e, (s3.rollback env).1, rfl⟩⟩
        dsimp only
        rw [Store.rollback_trace, Store.create_tx_some h3]
        simp [t2]
      · rename_i id3 s3 h3
        obtain ⟨-, log3, -, -, hs3⟩ := Store.create_tx_none h3
        have t3 : s3.trace = [⟨.begin, env.outcome 0⟩,
            ⟨.write .tx (.create (.spec c.Spec)), none⟩,
            ⟨.write .tx (.create (.status c.Status)), none⟩,
            ⟨.write .tx (.create (.secret c.Secret)), none⟩] := by rw [hs3]; simp [t2]
        obtain ⟨mid4, tl4, htr4, hmid4, hcase4⟩ := createNodes_trace env env.uuid c.Nodes s3
        split
        · rename_i e nodes s4 h4
          simp only [h4] at htr4 hcase4
          rcases hcase4 with ⟨hn, -⟩ | ⟨-, h, w, e', re, rfl⟩
          · cases hn
          · refine ⟨env.outcome 0, [⟨.write .tx (.create (.spec c.Spec)), none⟩,
              ⟨.write .tx (.create (.status c.Status)), none⟩,
              ⟨.write .tx (.create (.secret c.Secret)), none⟩] ++ mid4, _, ?_, ?_,
              Or.inr ⟨h, w, e', re, rfl⟩⟩
            · dsimp only
              rw [htr4, t3]
              simp
            · simp only [List.all_append, hmid4, Bool.and_true]
              rfl
        · rename_i nodes s4 h4
          simp only [h4] at htr4 hcase4
          rcases hcase4 with ⟨-, rfl⟩ | ⟨hn, -⟩
          · obtain ⟨mid5, tl5, htr5, hmid5, hcase5⟩ :=
              createTools_trace env env.uuid (c.PrepareTools K) s4
            split
            · rename_i e s5 h5
              have h5' : createTools env env.uuid (c.PrepareTools K) s4 = (some e, s5) := h5
              simp only [h5'] at htr5 hcase5
              rcases hcase5 with ⟨hn, -⟩ | ⟨-, h, w, e', re, rfl⟩
              · cases hn
              · refine ⟨env.outcome 0, [⟨.write .tx (.create (.spec c.Spec)), none⟩,
                  ⟨.write .tx (.create (.status c.Status)), none⟩,
                  ⟨.write .tx (.create (.secret c.Secret)), none⟩] ++ mid4 ++ mid5, _, ?_, ?_,
                  Or.inr ⟨h, w, e', re, rfl⟩⟩
                · dsimp only
                  rw [htr5, htr4, t3]
                  simp
                · simp only [List.all_append, hmid4, hmid5, Bool.and_true]
                  rfl
            · rename_i s5 h5
              have h5' : createTools env env.uuid (c.PrepareTools K) s4 = (none, s5) := h5
              simp only [h5'] at htr5 hcase5
              rcases hcase5 with ⟨-, rfl⟩ | ⟨hn, -⟩
              · have hct : (s5.commit env).2.trace = s5.trace ++ [⟨.commit, (s5.commit env).1⟩] := by
                  unfold Store.commit
                  dsimp only
                  cases s5.tx with
                  | active log => cases env.outcome s5.trace.length <;> rfl
                  | idle => rfl
                  | failed e => rfl
                  | closed => rfl
                refine ⟨env.outcome 0, [⟨.write .tx (.create (.spec c.Spec)), none⟩,
                  ⟨.write .tx (.create (.status c.Status)), none⟩,
                  ⟨.write .tx (.create (.secret c.Secret)), none⟩] ++ mid4 ++ mid5, _, ?_, ?_,
                  Or.inl ⟨(s5.commit env).1, rfl⟩⟩
                · dsimp only
                  rw [hct, htr5, htr4, t3]
                  simp
                · simp only [List.all_append, hmid4, hmid5, Bool.and_true]
                  rfl
              · exact absurd rfl hn
          · exact absurd rfl hn

/-- C13 (no transaction is left open): every execution of `BeforeCreate`, and
every execution of `BeforeDelete` that begins a transaction, begins exactly
one transaction and issues exactly one closing request, as the last request
of the call; the closing request is a rollback if and only if a create, save
or delete step failed, and then that step is the last persistence step and the
only failed one; it is a commit if and only if no step failed. -/
theorem C13_transaction_closed_once (env : Env) (K : constant.Values) (c : Cluster)
    (t : Tables) :
    closedOnce (c.BeforeCreate env K t).store.trace ∧
    ((∃ ev ∈ (c.BeforeDelete env t).store.trace, isBegin ev.op = true) →
      closedOnce (c.BeforeDelete env t).store.trace) := by
  constructor
  · obtain ⟨b, mid, tl, htr, hmid, htl⟩ := BeforeCreate_trace_shape env K c t
    rw [htr]
    exact closedOnce_of_shape [] mid tl b rfl hmid htl
  · intro hbegin
    have hacc : ∀ l : List (Handle × Write), (l.map acceptedStep).all quiet = true := by
      intro l
      rw [List.all_eq_true]
      intro ev hev
      obtain ⟨hw, -, rfl⟩ := List.mem_map.1 hev
      rfl
    rcases BeforeDelete_shape env c t with ⟨e, -, hr⟩ | ⟨-, ce, -, htr, -⟩ |
      ⟨-, e, done, h2, w2, rest, re, -, -, htr, -⟩
    · exfalso
      obtain ⟨ev, hev, hb⟩ := hbegin
      rw [hr] at hev
      simp only [List.mem_singleton] at hev
      subst hev
      simp [isBegin] at hb
    · rw [htr]
      exact closedOnce_of_shape [⟨.first c.ID, none⟩] _ _ _ rfl (hacc _) (Or.inl ⟨ce, rfl⟩)
    · have : [Event.mk (.first c.ID) none, Event.mk .begin (env.outcome 1)] ++
          done.map acceptedStep ++ [Event.mk (.write h2 w2) (some e), Event.mk .rollback re] =
          [Event.mk (.first c.ID) none] ++ Event.mk .begin (env.outcome 1) ::
            done.map acceptedStep ++
            [Event.mk (.write h2 w2) (some e), Event.mk .rollback re] := by simp
      rw [htr, this]
      exact closedOnce_of_shape [⟨.first c.ID, none⟩] _ _ _ rfl (hacc _)
        (Or.inr ⟨h2, w2, e, re, rfl⟩)

/-! ## Ownership of hosts -/

theorem mem_hostsOf (t : Tables) (x : Host) : x ∈ hostsOf t ↔ Row.host x ∈ t := by
  simp only [hostsOf, List.mem_filterMap]
  constructor
  · rintro ⟨r, hr, hx⟩
    cases r <;> simp [Row.host?] at hx
    subst hx
    exact hr
  · intro h
    exact ⟨_, h, rfl⟩

theorem sameRecord_host (a b : Host) :
    (Row.host a).sameRecord (Row.host b) = true ↔ a.ID = b.ID := by
  simp [Row.sameRecord, Row.table, Row.ID]

theorem sameRecord_host_table (a : Host) (y : Row) (h : (Row.host a).sameRecord y = true) :
    ∃ b : Host, y = Row.host b ∧ a.ID = b.ID := by
  cases y <;> simp [Row.sameRecord, Row.table, Row.ID] at h
  exact ⟨_, rfl, h⟩

theorem mem_apply_save_host (t : Tables) (h x : Host) (hx : Row.host x ∈ t.apply (.save (.host h))) :
    x = h ∨ (Row.host x ∈ t ∧ (h.ID ≠ "" → x.ID ≠ h.ID)) := by
  unfold Tables.apply at hx
  dsimp only at hx
  split_ifs at hx with hc
  · obtain ⟨y, hy, hf⟩ := List.mem_map.1 hx
    split_ifs at hf with hs
    · left
      cases hf
      rfl
    · right
      subst hf
      refine ⟨hy, fun _ hid => hs ?_⟩
      exact (sameRecord_host h x).2 hid.symm
  · rcases List.mem_append.1 hx with hx | hx
    · right
      refine ⟨hx, fun hne hid => hc ⟨hne, ?_⟩⟩
      rw [List.any_eq_true]
      exact ⟨_, hx, (sameRecord_host h x).2 hid.symm⟩
    · left
      simp only [List.mem_singleton, Row.host.injEq] at hx
      exact hx

theorem exists_apply_save_host (t : Tables) (h : Host) :
    Row.host h ∈ t.apply (.save (.host h)) := by
  unfold Tables.apply
  dsimp only
  split_ifs with hc
  · obtain ⟨y, hy, hs⟩ := List.any_eq_true.1 hc.2
    exact List.mem_map.2 ⟨y, hy, by simp [hs]⟩
  · simp

theorem mem_apply_save_host_of_mem (t : Tables) (h x : Host) (hx : Row.host x ∈ t) :
    Row.host x ∈ t.apply (.save (.host h)) ∨
    (x.ID = h.ID ∧ Row.host h ∈ t.apply (.save (.host h))) := by
  by_cases hid : h.ID = x.ID
  · exact Or.inr ⟨hid.symm, exists_apply_save_host t h⟩
  · left
    unfold Tables.apply
    dsimp only
    split_ifs with hc
    · refine List.mem_map.2 ⟨_, hx, ?_⟩
      have : (Row.host h).sameRecord (Row.host x) = false := by
        cases hs : (Row.host h).sameRecord (Row.host x) with
        | false => rfl
        | true => exact absurd ((sameRecord_host h x).1 hs) hid
      simp [this]
    · exact List.mem_append_left _ hx

theorem boundTo_apply (cid hid : String) (t : Tables) (w : Write)
    (hw : ownerWrite cid w = true) (ht : boundTo cid hid t) : boundTo cid hid (t.apply w) := by
  obtain ⟨⟨x0, hx0, hid0⟩, hall⟩ := ht
  cases w with
  | create r =>
    simp only [ownerWrite, decide_eq_true_eq] at hw
    refine ⟨⟨x0, List.mem_append_left _ hx0, hid0⟩, ?_⟩
    intro x hx hxid
    rcases List.mem_append.1 hx with hx | hx
    · exact hall x hx hxid
    · simp only [List.mem_singleton] at hx
      subst hx
      exact absurd rfl hw
  | save r =>
    cases r with
    | host h =>
      simp only [ownerWrite, decide_eq_true_eq] at hw
      constructor
      · rcases mem_apply_save_host_of_mem t h x0 hx0 with h1 | ⟨h1, h2⟩
        · exact ⟨x0, h1, hid0⟩
        · exact ⟨h, h2, h1.symm.trans hid0⟩
      · intro x hx hxid
        rcases mem_apply_save_host t h x hx with rfl | ⟨h1, -⟩
        · exact hw
        · exact hall x h1 hxid
    | spec x => simp [ownerWrite] at hw
    | status x => simp [ownerWrite] at hw
    | secret x => simp [ownerWrite] at hw
    | node x => simp [ownerWrite] at hw
    | tool x => simp [ownerWrite] at hw
  | delete tbl id => simp [ownerWrite] at hw

theorem boundTo_save (cid hid : String) (t : Tables) (hne : hid ≠ "") :
    boundTo cid hid (t.apply (.save (.host { ID := hid, ClusterID := cid }))) := by
  constructor
  · exact ⟨_, exists_apply_save_host t _, rfl⟩
  · intro x hx hxid
    rcases mem_apply_save_host t _ x hx with rfl | ⟨-, h2⟩
    · rfl
    · exact absurd hxid (h2 hne)

theorem boundTo_applyAll (cid hid : String) (hne : hid ≠ "") (ws : List Write) :
    (∀ w ∈ ws, ownerWrite cid w = true) → ∀ t : Tables,
      (boundTo cid hid t ∨ Write.save (.host { ID := hid, ClusterID := cid }) ∈ ws) →
      boundTo cid hid (t.applyAll ws) := by
  induction ws with
  | nil =>
    intro _ t h
    rcases h with h | h
    · exact h
    · simp at h
  | cons w ws ih =>
    intro hall t h
    have hw := hall w (List.mem_cons_self _ _)
    have hrest : ∀ w' ∈ ws, ownerWrite cid w' = true :=
      fun w' h' => hall w' (List.mem_cons_of_mem _ h')
    simp only [Tables.applyAll, List.foldl_cons]
    rcases h with h | h
    · exact ih hrest (t.apply w) (Or.inl (boundTo_apply cid hid t w hw h))
    · rcases List.mem_cons.1 h with h | h
      · subst h
        exact ih hrest _ (Or.inl (boundTo_save cid hid t hne))
      · exact ih hrest (t.apply w) (Or.inr h)

theorem nodeWrites_owner (cid : String) (ns : List ClusterNode) :
    ∀ ids : List String, ∀ w ∈ nodeWrites cid ns ids, ownerWrite cid w = true := by
  induction ns with
  | nil => intro ids w hw; simp [nodeWrites] at hw
  | cons n ns ih =>
    intro ids w hw
    cases ids with
    | nil => simp [nodeWrites] at hw
    | cons i ids =>
      have ih' := ih ids w
      simp only [nodeWrites] at ih' hw
      simp only [List.zipWith_cons_cons, List.flatten_cons, List.mem_append, List.mem_cons,
        List.not_mem_nil, or_false] at hw
      rcases hw with (rfl | rfl) | hw
      · rfl
      · simp [ownerWrite, hostRow]
      · exact ih' hw

theorem nodeWrites_save_mem (cid : String) (ns : List ClusterNode) :
    ∀ ids : List String, ids.length = ns.length → ∀ n ∈ ns,
      Write.save (.host (hostRow cid n)) ∈ nodeWrites cid ns ids := by
  induction ns with
  | nil => intro ids _ n hn; simp at hn
  | cons m ns ih =>
    intro ids hlen n hn
    cases ids with
    | nil => simp at hlen
    | cons i ids =>
      have ih' := ih ids (by simpa using hlen) n
      simp only [nodeWrites] at ih' ⊢
      simp only [List.zipWith_cons_cons, List.flatten_cons, List.mem_append, List.mem_cons,
        List.not_mem_nil, or_false]
      rcases List.mem_cons.1 hn with rfl | hn
      · exact Or.inl (Or.inr rfl)
      · exact Or.inr (ih' hn)

theorem toolWrites_owner (cid : String) (ts : List ClusterTool) :
    ∀ ids : List String, ∀ w ∈ toolWrites cid ts ids, ownerWrite cid w = true := by
  induction ts with
  | nil => intro ids w hw; simp [toolWrites] at hw
  | cons n ts ih =>
    intro ids w hw
    cases ids with
    | nil => simp [toolWrites] at hw
    | cons i ids =>
      have ih' := ih ids w
      simp only [toolWrites] at ih' hw
      simp only [List.zipWith_cons_cons, List.mem_cons] at hw
      rcases hw with rfl | hw
      · rfl
      · exact ih' hw

theorem createWrites_owner (K : constant.Values) (cid : String) (c : Cluster)
    (sid tid kid : String) (ids tids : List String) :
    ∀ w ∈ createWrites K cid c sid tid kid ids tids, ownerWrite cid w = true := by
  intro w hw
  simp only [createWrites, List.mem_append, List.mem_cons, List.not_mem_nil, or_false] at hw
  rcases hw with ((rfl | rfl | rfl) | hw) | hw
  · rfl
  · rfl
  · rfl
  · exact nodeWrites_owner cid c.Nodes ids w hw
  · exact toolWrites_owner cid _ tids w hw

theorem zipWith_stampNode_props (cid : String) (ns : List ClusterNode) :
    ∀ ids : List String, ids.length = ns.length →
      (List.zipWith (stampNode cid) ns ids).length = ns.length ∧
      (List.zipWith (stampNode cid) ns ids).map ClusterNode.HostID =
        ns.map ClusterNode.HostID ∧
      ∀ n ∈ List.zipWith (stampNode cid) ns ids, n.ClusterID = cid ∧ n.Host.ClusterID = cid := by
  induction ns with
  | nil => intro ids _; simp
  | cons m ns ih =>
    intro ids hlen
    cases ids with
    | nil => simp at hlen
    | cons i ids =>
      obtain ⟨h1, h2, h3⟩ := ih ids (by simpa using hlen)
      refine ⟨by simp [h1], ?_, ?_⟩
      · simp only [List.zipWith_cons_cons, List.map_cons, h2]
        rfl
      · intro n hn
        simp only [List.zipWith_cons_cons, List.mem_cons] at hn
        rcases hn with rfl | hn
        · exact ⟨rfl, rfl⟩
        · exact h3 n hn

theorem BeforeCreate_boundTo (env : Env) (K : constant.Values) (c : Cluster) (t : Tables)
    (h : (c.BeforeCreate env K t).err = none)
    (hcommit : (c.BeforeCreate env K t).store.trace.getLast?.map Event.err = some none) :
    ∀ n ∈ c.Nodes, n.HostID ≠ "" →
      boundTo env.uuid n.HostID (c.BeforeCreate env K t).store.committed := by
  rcases BeforeCreate_some_or_success env K c t with he | ⟨sid, tid, kid, ids, tids, hids, -,
    -, hs⟩
  · rw [h] at he
    exact absurd he (by simp)
  · intro n hn hne
    have hout : env.outcome (createRequests K env.uuid c).length = none := by
      rw [hs] at hcommit
      simp only [List.getLast?_concat] at hcommit
      simpa using hcommit
    have hcm : (c.BeforeCreate env K t).store.committed =
        t.applyAll (createWrites K env.uuid c sid tid kid ids tids) := by
      rw [hs]
      simp only [hout]
    rw [hcm]
    refine boundTo_applyAll env.uuid n.HostID hne _
      (createWrites_owner K env.uuid c sid tid kid ids tids) t (Or.inr ?_)
    have := nodeWrites_save_mem env.uuid c.Nodes ids hids n hn
    simp only [createWrites, List.mem_append]
    exact Or.inl (Or.inr this)

/-- Ownership transfer when the transaction is committed: when `BeforeCreate`
returns no error, every node of `c` has `ClusterID = c.ID` and its in-memory
`Host` has `ClusterID = c.ID` (the nodes still referring to the same hosts);
and, if the store accepted the commit, for every node that refers to a host
there is a host row with that identity and every such row has
`ClusterID = c.ID`. -/
theorem ownership_transfer_of_commit (env : Env) (K : constant.Values) (c : Cluster) (t : Tables)
    (h : (c.BeforeCreate env K t).err = none) :
    (c.BeforeCreate env K t).c.Nodes.length = c.Nodes.length ∧
    (c.BeforeCreate env K t).c.Nodes.map ClusterNode.HostID =
      c.Nodes.map ClusterNode.HostID ∧
    (∀ n ∈ (c.BeforeCreate env K t).c.Nodes,
      n.ClusterID = (c.BeforeCreate env K t).c.ID ∧
      n.Host.ClusterID = (c.BeforeCreate env K t).c.ID) ∧
    ((c.BeforeCreate env K t).store.trace.getLast?.map Event.err = some none →
      ∀ n ∈ c.Nodes, n.HostID ≠ "" →
        (∃ x ∈ hostsOf (c.BeforeCreate env K t).store.committed, x.ID = n.HostID) ∧
        (∀ x ∈ hostsOf (c.BeforeCreate env K t).store.committed, x.ID = n.HostID →
          x.ClusterID = (c.BeforeCreate env K t).c.ID)) := by
  have hb := BeforeCreate_boundTo env K c t h
  rcases BeforeCreate_some_or_success env K c t with he | ⟨sid, tid, kid, ids, tids, hids, -,
    hc, -⟩
  · rw [h] at he
    exact absurd he (by simp)
  · have hid : (c.BeforeCreate env K t).c.ID = env.uuid := by rw [hc]; rfl
    have hnodes : (c.BeforeCreate env K t).c.Nodes =
        List.zipWith (stampNode env.uuid) c.Nodes ids := by rw [hc]; rfl
    obtain ⟨z1, z2, z3⟩ := zipWith_stampNode_props env.uuid c.Nodes ids hids
    refine ⟨by rw [hnodes]; exact z1, by rw [hnodes]; exact z2, ?_, ?_⟩
    · intro n hn
      rw [hnodes] at hn
      rw [hid]
      exact z3 n hn
    · intro hcommit n hn hne
      obtain ⟨⟨x0, hx0, hx0id⟩, hall⟩ := hb hcommit n hn hne
      rw [hid]
      exact ⟨⟨x0, (mem_hostsOf _ _).2 hx0, hx0id⟩,
        fun x hx hxid => hall x ((mem_hostsOf _ _).1 hx) hxid⟩

/-- Ownership transfer at a cluster with one node on host `h1` and a store that
accepts every request. -/
theorem ownership_transfer_of_commit_example :
    (exampleNewCluster.BeforeCreate exampleEnv exampleValues exampleTables).err = none ∧
    (exampleNewCluster.BeforeCreate exampleEnv exampleValues
      exampleTables).store.trace.getLast?.map Event.err = some none ∧
    (∀ x ∈ hostsOf (exampleNewCluster.BeforeCreate exampleEnv exampleValues
      exampleTables).store.committed, x.ID = "h1" → x.ClusterID = "c-1") ∧
    (exampleNewCluster.BeforeCreate exampleEnv exampleValues exampleTables).c.Nodes.map
      (fun n => n.Host.ClusterID) = ["c-1"] := by
  have he : (exampleNewCluster.BeforeCreate exampleEnv exampleValues exampleTables).err =
      none := by decide
  have hcm : (exampleNewCluster.BeforeCreate exampleEnv exampleValues
      exampleTables).store.trace.getLast?.map Event.err = some none := by decide
  have h := ownership_transfer_of_commit exampleEnv exampleValues exampleNewCluster exampleTables he
  have hid : (exampleNewCluster.BeforeCreate exampleEnv exampleValues exampleTables).c.ID =
      "c-1" := by decide
  refine ⟨he, hcm, ?_, by decide⟩
  intro x hx hxid
  have := (h.2.2.2 hcm exampleNode (by decide) (by decide)).2 x hx hxid
  rw [this, hid]

/-- C13 at the example deletion, which begins a transaction. -/
theorem C13_transaction_closed_once_witness :
    (∃ ev ∈ (exampleLoaded.BeforeDelete exampleDeleteEnv exampleDeleteTables).store.trace,
      isBegin ev.op = true) ∧
    closedOnce (exampleLoaded.BeforeDelete exampleDeleteEnv exampleDeleteTables).store.trace ∧
    closedOnce (exampleNewCluster.BeforeCreate exampleFailingEnv exampleValues
      exampleTables).store.trace := by
  have hb : ∃ ev ∈ (exampleLoaded.BeforeDelete exampleDeleteEnv
      exampleDeleteTables).store.trace, isBegin ev.op = true := by decide
  exact ⟨hb,
    (C13_transaction_closed_once exampleDeleteEnv exampleValues exampleLoaded
      exampleDeleteTables).2 hb,
    (C13_transaction_closed_once exampleFailingEnv exampleValues exampleNewCluster
      exampleTables).1⟩

/-- C16 as stated fails: host `h1` is owned by cluster `c-0` and referenced by
a node of `c-0`; `BeforeCreate` of a second cluster whose node refers to `h1`
returns no error, the host row is rebound to the new cluster `c-1`, and `h1`
is then referenced by nodes of two clusters. -/
theorem C16_host_taken_from_other_cluster :
    (hostsOf exampleOwnedTables).map (fun x => (x.ID, x.ClusterID)) = [("h1", "c-0")] ∧
    (exampleTakingCluster.BeforeCreate exampleEnv exampleValues exampleOwnedTables).err =
      none ∧
    (exampleTakingCluster.BeforeCreate exampleEnv exampleValues exampleOwnedTables).c.ID =
      "c-1" ∧
    (hostsOf (exampleTakingCluster.BeforeCreate exampleEnv exampleValues
      exampleOwnedTables).store.committed).map (fun x => (x.ID, x.ClusterID)) =
      [("h1", "c-1")] ∧
    (nodesOf (exampleTakingCluster.BeforeCreate exampleEnv exampleValues
      exampleOwnedTables).store.committed).map (fun n => (n.HostID, n.ClusterID)) =
      [("h1", "c-0"), ("h1", "c-1")] := by
  decide

theorem BeforeCreate_ID (env : Env) (K : constant.Values) (c : Cluster) (t : Tables) :
    (c.BeforeCreate env K t).c.ID = env.uuid := by
  unfold Cluster.BeforeCreate
  dsimp only
  split
  · rfl
  · split
    · rfl
    · split
      · rfl
      · split
        · rfl
        · split
          · rfl
          · rfl

theorem zipWith_nodeRow_mem (cid : String) (ns : List ClusterNode) :
    ∀ (ids : List String) (r : ClusterNode), r ∈ List.zipWith (nodeRow cid) ns ids →
      r.ClusterID = cid ∧ ∃ n ∈ ns, r.HostID = n.HostID := by
  induction ns with
  | nil => intro ids r hr; simp at hr
  | cons m ns ih =>
    intro ids r hr
    cases ids with
    | nil => simp at hr
    | cons i ids =>
      simp only [List.zipWith_cons_cons, List.mem_cons] at hr
      rcases hr with rfl | hr
      · exact ⟨rfl, m, List.mem_cons_self _ _, rfl⟩
      · obtain ⟨h1, n, hn, h2⟩ := ih ids r hr
        exact ⟨h1, n, List.mem_cons_of_mem _ hn, h2⟩

theorem zipWith_nodeRow_exists (cid : String) (ns : List ClusterNode) :
    ∀ ids : List String, ids.length = ns.length → ∀ n ∈ ns,
      ∃ r ∈ List.zipWith (nodeRow cid) ns ids, r.HostID = n.HostID ∧ r.ClusterID = cid := by
  induction ns with
  | nil => intro ids _ n hn; simp at hn
  | cons m ns ih =>
    intro ids hlen n hn
    cases ids with
    | nil => simp at hlen
    | cons i ids =>
      rcases List.mem_cons.1 hn with rfl | hn
      · exact ⟨nodeRow cid n i, by simp, rfl, rfl⟩
      · obtain ⟨r, hr, h1, h2⟩ := ih ids (by simpa using hlen) n hn
        exact ⟨r, by simp [hr], h1, h2⟩

theorem BeforeCreate_nodesOf (env : Env) (K : constant.Values) (c : Cluster) (t : Tables) :
    (c.BeforeCreate env K t).store.committed = t ∨
    ∃ ids : List String, nodesOf (c.BeforeCreate env K t).store.committed =
      nodesOf t ++ List.zipWith (nodeRow env.uuid) c.Nodes ids := by
  rcases BeforeCreate_some_or_success env K c t with he | ⟨sid, tid, kid, ids, tids, -, -,
    -, hs⟩
  · left
    refine BeforeCreate_committed_of_err env K c t ?_
    intro hn
    rw [hn] at he
    exact absurd he (by simp)
  · cases hout : env.outcome (createRequests K env.uuid c).length with
    | some e =>
      left
      rw [hs]
      simp only [hout]
    | none =>
      right
      refine ⟨ids, ?_⟩
      have hcm : (c.BeforeCreate env K t).store.committed =
          t.applyAll (createWrites K env.uuid c sid tid kid ids tids) := by
        rw [hs]
        simp only [hout]
      have hn := Tables_applyAll_filterMap Row.node?
        (fun r hr => by cases r <;> simp_all [Row.table, Row.node?]) _ t
        (createWrites_all K env.uuid c sid tid kid ids tids)
      rw [createWrites_nodes] at hn
      rw [hcm]
      exact hn

theorem BeforeCreate_nodesOf_committed (env : Env) (K : constant.Values) (c : Cluster)
    (t : Tables) (h : (c.BeforeCreate env K t).err = none)
    (hcommit : (c.BeforeCreate env K t).store.trace.getLast?.map Event.err = some none) :
    ∃ ids : List String, ids.length = c.Nodes.length ∧
      nodesOf (c.BeforeCreate env K t).store.committed =
        nodesOf t ++ List.zipWith (nodeRow env.uuid) c.Nodes ids := by
  rcases BeforeCreate_some_or_success env K c t with he | ⟨sid, tid, kid, ids, tids, hids, -,
    -, hs⟩
  · rw [h] at he
    exact absurd he (by simp)
  · have hout : env.outcome (createRequests K env.uuid c).length = none := by
      rw [hs] at hcommit
      simp only [List.getLast?_concat] at hcommit
      simpa using hcommit
    have hcm : (c.BeforeCreate env K t).store.committed =
        t.applyAll (createWrites K env.uuid c sid tid kid ids tids) := by
      rw [hs]
      simp only [hout]
    have hn := Tables_applyAll_filterMap Row.node?
      (fun r hr => by cases r <;> simp_all [Row.table, Row.node?]) _ t
      (createWrites_all K env.uuid c sid tid kid ids tids)
    rw [createWrites_nodes] at hn
    rw [hcm]
    exact ⟨ids, hids, hn⟩

/-- C16, as the code has it: `BeforeCreate` binds the host of a node to the new
cluster without checking its current owner.  (1) When it returns no error and
the store accepts the commit, then for every node of `c` with a non-empty
`HostID` and every host row of the store with that identity, whatever cluster
owned it before, a host row with that identity exists afterwards and every
such row is owned by the new cluster.  (2) In every execution, if no host is
referenced by node rows of two different clusters before the call and no node
row of a different cluster in the store has the `HostID` of a node of `c`,
then no host is referenced by node rows of two different clusters after the
call.  (3) Conversely, when `BeforeCreate` returns no error, the store accepts
the commit and no host is referenced by node rows of two different clusters
afterwards, then no node row of a different cluster in the store before the
call had the `HostID` of a node of `c`. -/
theorem C16_host_exclusivity_as_coded (env : Env) (K : constant.Values) (c : Cluster)
    (t : Tables) :
    ((c.BeforeCreate env K t).err = none →
      (c.BeforeCreate env K t).store.trace.getLast?.map Event.err = some none →
      ∀ n ∈ c.Nodes, n.HostID ≠ "" → ∀ x ∈ hostsOf t, x.ID = n.HostID →
        (∃ y ∈ hostsOf (c.BeforeCreate env K t).store.committed, y.ID = x.ID) ∧
        (∀ y ∈ hostsOf (c.BeforeCreate env K t).store.committed, y.ID = x.ID →
          y.ClusterID = (c.BeforeCreate env K t).c.ID)) ∧
    (exclusive t →
      (∀ n ∈ c.Nodes, ∀ m ∈ nodesOf t, m.HostID = n.HostID →
        m.ClusterID = (c.BeforeCreate env K t).c.ID) →
      exclusive (c.BeforeCreate env K t).store.committed) ∧
    ((c.BeforeCreate env K t).err = none →
      (c.BeforeCreate env K t).store.trace.getLast?.map Event.err = some none →
      exclusive (c.BeforeCreate env K t).store.committed →
      ∀ n ∈ c.Nodes, ∀ m ∈ nodesOf t, m.HostID = n.HostID →
        m.ClusterID = (c.BeforeCreate env K t).c.ID) := by
  have hid := BeforeCreate_ID env K c t
  refine ⟨?_, ?_, ?_⟩
  · intro h hcommit n hn hne x _ hxid
    obtain ⟨⟨y0, hy0, hy0id⟩, hall⟩ := BeforeCreate_boundTo env K c t h hcommit n hn hne
    rw [hid, hxid]
    exact ⟨⟨y0, (mem_hostsOf _ _).2 hy0, hy0id⟩,
      fun y hy hyid => hall y ((mem_hostsOf _ _).1 hy) hyid⟩
  · intro hex hpre
    rw [hid] at hpre
    rcases BeforeCreate_nodesOf env K c t with hcm | ⟨ids, hnodes⟩
    · rw [hcm]
      exact hex
    · intro a ha b hb hab
      rw [hnodes] at ha hb
      rcases List.mem_append.1 ha with ha | ha <;> rcases List.mem_append.1 hb with hb | hb
      · exact hex a ha b hb hab
      · obtain ⟨hbc, n, hn, hbn⟩ := zipWith_nodeRow_mem env.uuid c.Nodes ids b hb
        rw [hbc]
        exact hpre n hn a ha (hab.trans hbn)
      · obtain ⟨hac, n, hn, han⟩ := zipWith_nodeRow_mem env.uuid c.Nodes ids a ha
        rw [hac]
        exact (hpre n hn b hb (hab.symm.trans han)).symm
      · rw [(zipWith_nodeRow_mem env.uuid c.Nodes ids a ha).1,
          (zipWith_nodeRow_mem env.uuid c.Nodes ids b hb).1]
  · intro h hcommit hex n hn m hm hmn
    obtain ⟨ids, hids, hnodes⟩ := BeforeCreate_nodesOf_committed env K c t h hcommit
    obtain ⟨r, hr, hrh, hrc⟩ := zipWith_nodeRow_exists env.uuid c.Nodes ids hids n hn
    have hm' : m ∈ nodesOf (c.BeforeCreate env K t).store.committed := by
      rw [hnodes]
      exact List.mem_append.2 (Or.inl hm)
    have hr' : r ∈ nodesOf (c.BeforeCreate env K t).store.committed := by
      rw [hnodes]
      exact List.mem_append.2 (Or.inr hr)
    rw [hid, ← hrc]
    exact hex m hm' r hr' (hmn.trans hrh.symm)

/-- C16 (as the code has it) at a cluster that takes the unassigned host `h1`
while host `h0` is referenced by a node of cluster `c-0`. -/
theorem C16_host_exclusivity_as_coded_witness :
    (exampleNewCluster.BeforeCreate exampleEnv exampleValues exampleSharedTables).err =
      none ∧
    (exampleNewCluster.BeforeCreate exampleEnv exampleValues
      exampleSharedTables).store.trace.getLast?.map Event.err = some none ∧
    exclusive exampleSharedTables ∧
    (∀ n ∈ exampleNewCluster.Nodes, ∀ m ∈ nodesOf exampleSharedTables,
      m.HostID = n.HostID →
      m.ClusterID = (exampleNewCluster.BeforeCreate exampleEnv exampleValues
        exampleSharedTables).c.ID) ∧
    (∀ y ∈ hostsOf (exampleNewCluster.BeforeCreate exampleEnv exampleValues
      exampleSharedTables).store.committed, y.ID = "h1" → y.ClusterID = "c-1") ∧
    exclusive (exampleNewCluster.BeforeCreate exampleEnv exampleValues
      exampleSharedTables).store.committed := by
  have he : (exampleNewCluster.BeforeCreate exampleEnv exampleValues
      exampleSharedTables).err = none := by decide
  have hcm : (exampleNewCluster.BeforeCreate exampleEnv exampleValues
      exampleSharedTables).store.trace.getLast?.map Event.err = some none := by decide
  have hid : (exampleNewCluster.BeforeCreate exampleEnv exampleValues
      exampleSharedTables).c.ID = "c-1" := by decide
  have hex : exclusive exampleSharedTables := by
    unfold exclusive
    decide
  have h := C16_host_exclusivity_as_coded exampleEnv exampleValues exampleNewCluster
    exampleSharedTables
  have hafter := h.2.1 hex (by decide)
  refine ⟨he, hcm, hex, h.2.2 he hcm hafter, ?_, hafter⟩
  intro y hy hyid
  have hy' := (h.1 he hcm exampleNode (by decide) (by decide)
    { ID := "h1", Name := "host-1", Ip := "10.0.0.1" } (by decide) rfl).2 y hy hyid
  rw [hy', hid]

/-- C11 fails on the code: the store rejects the commit, yet `BeforeCreate`
returns no error.  The node of the cluster and its in-memory host carry the
identity `c-1` of the new cluster, but the host row `h1` that the node refers
to is as before the call: its owner is still empty. -/
theorem C11_host_row_unbound_after_failed_commit :
    (exampleNewCluster.BeforeCreate exampleCommitFailsEnv exampleValues exampleTables).err =
      none ∧
    (exampleNewCluster.BeforeCreate exampleCommitFailsEnv exampleValues exampleTables).c.ID =
      "c-1" ∧
    (exampleNewCluster.BeforeCreate exampleCommitFailsEnv exampleValues
      exampleTables).c.Nodes.map (fun n => (n.HostID, n.ClusterID, n.Host.ClusterID)) =
      [("h1", "c-1", "c-1")] ∧
    savedHosts (exampleNewCluster.BeforeCreate exampleCommitFailsEnv exampleValues
      exampleTables).store.trace = [{ ID := "h1", ClusterID := "c-1" }] ∧
    (exampleNewCluster.BeforeCreate exampleCommitFailsEnv exampleValues
      exampleTables).store.trace.getLast? = some ⟨.commit, some "commit failed"⟩ ∧
    (hostsOf (exampleNewCluster.BeforeCreate exampleCommitFailsEnv exampleValues
      exampleTables).store.committed).map (fun x => (x.ID, x.ClusterID)) = [("h1", "")] := by
  decide

/-- C15 fails on the code: the store rejects the commit, yet `BeforeDelete`
returns no error.  The deletes of the specification, the status, the secret
and the two attached nodes were issued in that order, but the status row `t1`
and the node rows `n1` and `n2` are still in the store.  And the node delete
has no guard on the identity: for a loaded node whose `ID` is blank the one
delete issued carries no condition and removes the node rows of every
cluster, `n9` of cluster `c-2` among them. -/
theorem C15_rows_left_after_failed_commit :
    (exampleLoaded.BeforeDelete exampleDeleteCommitFailsEnv exampleDeleteTables).err = none ∧
    (exampleLoaded.BeforeDelete exampleDeleteCommitFailsEnv
      exampleDeleteTables).store.trace.filterMap (fun ev => writeOf ev.op) =
      [.delete .spec "s1", .delete .status "t1", .delete .secret "k1",
       .delete .node "n1", .delete .node "n2"] ∧
    (exampleLoaded.BeforeDelete exampleDeleteCommitFailsEnv
      exampleDeleteTables).store.trace.getLast? = some ⟨.commit, some "commit failed"⟩ ∧
    statusesOf (exampleLoaded.BeforeDelete exampleDeleteCommitFailsEnv
      exampleDeleteTables).store.committed = [{ ID := "t1" }] ∧
    (nodesOf (exampleLoaded.BeforeDelete exampleDeleteCommitFailsEnv
      exampleDeleteTables).store.committed).map (fun n => (n.ID, n.ClusterID)) =
      [("n1", "c-1"), ("n2", "c-1"), ("n9", "c-2")] ∧
    (exampleBlankLoaded.BeforeDelete exampleBlankEnv exampleDeleteTables).err = none ∧
    (exampleBlankLoaded.BeforeDelete exampleBlankEnv
      exampleDeleteTables).store.trace.filterMap (fun ev => writeOf ev.op) =
      [.delete .node ""] ∧
    (exampleBlankLoaded.BeforeDelete exampleBlankEnv
      exampleDeleteTables).store.trace.getLast? = some ⟨.commit, none⟩ ∧
    (nodesOf exampleDeleteTables).map (fun n => (n.ID, n.ClusterID)) =
      [("n1", "c-1"), ("n2", "c-1"), ("n9", "c-2")] ∧
    nodesOf (exampleBlankLoaded.BeforeDelete exampleBlankEnv
      exampleDeleteTables).store.committed = [] := by
  decide

/-- C12 fails on the code: the store rejects the commit with the error
"commit failed", yet `BeforeCreate` and `BeforeDelete` return no error; the
rows of the transaction are not in the store. -/
theorem C12_commit_error_not_returned :
    (exampleNewCluster.BeforeCreate exampleCommitFailsEnv exampleValues
      exampleTables).store.trace.getLast? = some ⟨.commit, some "commit failed"⟩ ∧
    (exampleNewCluster.BeforeCreate exampleCommitFailsEnv exampleValues exampleTables).err =
      none ∧
    (exampleNewCluster.BeforeCreate exampleCommitFailsEnv exampleValues
      exampleTables).store.committed = exampleTables ∧
    (exampleLoaded.BeforeDelete exampleDeleteCommitFailsEnv
      exampleDeleteTables).store.trace.getLast? = some ⟨.commit, some "commit failed"⟩ ∧
    (exampleLoaded.BeforeDelete exampleDeleteCommitFailsEnv exampleDeleteTables).err = none ∧
    nodesOf (exampleLoaded.BeforeDelete exampleDeleteCommitFailsEnv
      exampleDeleteTables).store.committed = nodesOf exampleDeleteTables := by
  decide

/-- C18 fails on the code: the node refers to host `h1`, which has a name and
an address; the host record that the save step writes has only the identity
and the owner set, so it is not the referenced host with the owner replaced,
and after the create the host row has lost its name and address. -/
theorem C18_save_writes_blank_host :
    savedHosts (exampleNewCluster.BeforeCreate exampleEnv exampleValues
      exampleTables).store.trace =
      [{ ID := "h1", Name := "", Ip := "", ClusterID := "c-1" }] ∧
    savedHosts (exampleNewCluster.BeforeCreate exampleEnv exampleValues
      exampleTables).store.trace ≠
      exampleNewCluster.Nodes.map (fun n => { n.Host with ClusterID := "c-1" }) ∧
    hostsOf exampleTables = [{ ID := "h1", Name := "host-1", Ip := "10.0.0.1" }] ∧
    (exampleNewCluster.BeforeCreate exampleEnv exampleValues exampleTables).err = none ∧
    hostsOf (exampleNewCluster.BeforeCreate exampleEnv exampleValues
      exampleTables).store.committed =
      [{ ID := "h1", Name := "", Ip := "", ClusterID := "c-1" }] := by
  decide

/-- C19 fails on the code: the load-balancer API-server address is stored
under `LbKubeApiserverPortFactName`, the fact name of the API-server port; no
entry is made under the fact name of the address. -/
theorem C19_address_stored_under_port_name :
    (∀ (F : facts.Names) (id ip : String),
      Cluster.GetKobeVars F { Spec := { ID := id, LbKubeApiserverIp := ip } } =
        if ip = "" then [] else [(F.LbKubeApiserverPortFactName, ip)]) ∧
    exampleLbCluster.GetKobeVars exampleNames = [("lb_kube_apiserver_port", "10.0.0.9")] ∧
    (exampleLbCluster.GetKobeVars exampleNames).get? exampleLbIpFactName = none := by
  refine ⟨?_, by decide, by decide⟩
  intro F id ip
  by_cases hip : ip = ""
  · subst hip; rfl
  · simp [Cluster.GetKobeVars, setIfPresent, GoMap.set, hip]

end model
